import Mathlib

/-!
Verification development for the dx-db-sync schema reconciliation engine.

The definitions below are a shallow embedding of the engine's source
(`src/index.js`, ESM half, plus the validator in `src/unnamed/part_001`).
Pure helper functions become Lean functions; the stateful engine becomes
explicit state passing over a database-state type; the MySQL gateway is
modelled per the spec's description of the environment (§4.4, §4.5.5).
JavaScript strings are modelled as Lean `String` (a list of characters);
the ASCII case maps used by identifier translation are given as explicit
letter tables, which is what `toLowerCase`/`toUpperCase` compute on the
ASCII identifiers this tool manipulates.
-/

/-! ## ASCII character tables and case maps -/

def asciiUppers : List Char :=
  ['A','B','C','D','E','F','G','H','I','J','K','L','M',
   'N','O','P','Q','R','S','T','U','V','W','X','Y','Z']

def asciiLowers : List Char :=
  ['a','b','c','d','e','f','g','h','i','j','k','l','m',
   'n','o','p','q','r','s','t','u','v','w','x','y','z']

def asciiDigits : List Char := ['0','1','2','3','4','5','6','7','8','9']

def isUpperChar (c : Char) : Bool := decide (c ∈ asciiUppers)

def isLowerChar (c : Char) : Bool := decide (c ∈ asciiLowers)

def isDigitChar (c : Char) : Bool := decide (c ∈ asciiDigits)

/-- Character-level model of JavaScript `toLowerCase` on the ASCII letters
(identifiers handled by the tool are ASCII). -/
def toLowerChar (c : Char) : Char :=
  match (List.zip asciiUppers asciiLowers).find? (fun p => p.1 == c) with
  | some p => p.2
  | none => c

/-- Character-level model of JavaScript `toUpperCase` on the ASCII letters. -/
def toUpperChar (c : Char) : Char :=
  match (List.zip asciiUppers asciiLowers).find? (fun p => p.2 == c) with
  | some p => p.1
  | none => c

/-! ## The dx-utilities translation helpers

`getCamelCaseSplittedToLowerCase`, `convertLowerCaseToCamelCase` and
`convertLowerCaseToPascalCase` are imported by `src/index.js` from the
external `dx-utilities` package.  They are modelled here from the spec's
description (§4.1): splitting happens at lower-to-upper boundaries (the
JavaScript implementation inserts the splitter between a `[a-z0-9]`
character and a following `[A-Z]` character and lowercases the result),
and the camel/pascal converters split on the separator and capitalise the
first letter of every segment but the first (camel) or of every segment
(pascal).  The splitter argument is always the underscore in this
code base, so it is fixed to the underscore here. -/

def camelSplitAux : Char → List Char → List Char
  | _, [] => []
  | prev, c :: rest =>
      if (isLowerChar prev || isDigitChar prev) && isUpperChar c then
        '_' :: toLowerChar c :: camelSplitAux c rest
      else
        toLowerChar c :: camelSplitAux c rest

def camelToSnakeChars : List Char → List Char
  | [] => []
  | c :: rest => toLowerChar c :: camelSplitAux c rest

/-- Joint recursion for the camel/pascal converters: the flag records
whether the next emitted character must be capitalised (set after an
underscore was consumed, and initially for the pascal converter). -/
def s2cAux : Bool → List Char → List Char
  | _, [] => []
  | b, c :: rest =>
      if c = '_' then s2cAux true rest
      else (if b then toUpperChar c else c) :: s2cAux false rest

/-- Model of `convertLowerCaseToCamelCase(s, "_")` on its intended inputs
(snake-form strings with single interior underscores): each underscore is
removed and the character following it is capitalised. -/
def snakeToCamelChars (cs : List Char) : List Char := s2cAux false cs

/-- Model of `convertLowerCaseToPascalCase(s, "_")`: like the camel
converter but the very first segment is capitalised as well. -/
def snakeToPascalChars (cs : List Char) : List Char := s2cAux true cs

def getCamelCaseSplittedToLowerCase (s : String) : String :=
  String.mk (camelToSnakeChars s.data)

def convertLowerCaseToCamelCase (s : String) : String :=
  String.mk (snakeToCamelChars s.data)

def convertLowerCaseToPascalCase (s : String) : String :=
  String.mk (snakeToPascalChars s.data)

/-! ## The case implementation and the translation layer of src/index.js -/

/-- The three members of `DB_IMPLEMENTATION_TYPES`. -/
inductive CaseImpl where
  | snakecase : CaseImpl
  | pascalcase : CaseImpl
  | camelcase : CaseImpl
deriving Repr, DecidableEq

/-- Embeds `getCaseNormalizedString` (src/index.js, ESM version).  The
`databaseCaseImplementation` module global becomes an explicit argument. -/
def getCaseNormalizedString (ci : CaseImpl) (inputString : String) : String :=
  match ci with
  | CaseImpl.snakecase => getCamelCaseSplittedToLowerCase inputString
  | CaseImpl.pascalcase =>
      convertLowerCaseToPascalCase (getCamelCaseSplittedToLowerCase inputString)
  | CaseImpl.camelcase =>
      convertLowerCaseToCamelCase (getCamelCaseSplittedToLowerCase inputString)

/-- Embeds `getCaseDenormalizedString` (src/index.js, ESM version). -/
def getCaseDenormalizedString (ci : CaseImpl) (inputString : String) : String :=
  match ci with
  | CaseImpl.snakecase => convertLowerCaseToCamelCase inputString
  | CaseImpl.pascalcase =>
      convertLowerCaseToCamelCase (getCamelCaseSplittedToLowerCase inputString)
  | CaseImpl.camelcase =>
      convertLowerCaseToCamelCase (getCamelCaseSplittedToLowerCase inputString)

/-- Embeds `getPrimaryKeyColumn`.  The source switches on the strings
"lowercase"/"pascalcase"/"camelcase"; the configured value "snakecase"
reaches the default branch, which returns "id" like the "lowercase"
branch does. -/
def getPrimaryKeyColumn (ci : CaseImpl) : String :=
  match ci with
  | CaseImpl.snakecase => "id"
  | CaseImpl.pascalcase => "Id"
  | CaseImpl.camelcase => "id"

/-- Embeds `getLockingConstraintColumn` (same switch-label remark as for
the primary key column). -/
def getLockingConstraintColumn (ci : CaseImpl) : String :=
  match ci with
  | CaseImpl.snakecase => "last_updated"
  | CaseImpl.pascalcase => "LastUpdated"
  | CaseImpl.camelcase => "lastUpdated"

/-! ## Claim C6: the case round-trip -/

/-- A strict camelCase identifier with no embedded separators: it starts
with a lowercase ASCII letter, consists of ASCII letters and digits, and
has no two consecutive uppercase letters (each word is capitalised only
at its first letter). -/
def noConsecUpper : List Char → Bool
  | [] => true
  | [_] => true
  | a :: b :: rest => (!(isUpperChar a && isUpperChar b)) && noConsecUpper (b :: rest)

def isAlphanumChar (c : Char) : Bool := isUpperChar c || isLowerChar c || isDigitChar c

def isCamelCaseChars : List Char → Bool
  | [] => false
  | c :: rest =>
      isLowerChar c && (c :: rest).all isAlphanumChar && noConsecUpper (c :: rest)

def isCamelCaseString (s : String) : Bool := isCamelCaseChars s.data

theorem upperChar_cases (c : Char) (h : isUpperChar c = true) : c ∈ asciiUppers := by
  simpa [isUpperChar] using h

theorem toUpperChar_toLowerChar (c : Char) (h : isUpperChar c = true) :
    toUpperChar (toLowerChar c) = c := by
  have hm := upperChar_cases c h
  simp only [asciiUppers, List.mem_cons, List.not_mem_nil, or_false] at hm
  rcases hm with h|h|h|h|h|h|h|h|h|h|h|h|h|h|h|h|h|h|h|h|h|h|h|h|h|h <;> subst h <;> decide

theorem toLowerChar_eq_self (c : Char) (h : isUpperChar c = false) : toLowerChar c = c := by
  have hm : c ∉ asciiUppers := by simpa [isUpperChar] using h
  unfold toLowerChar
  cases hf : (List.zip asciiUppers asciiLowers).find? (fun p => p.1 == c) with
  | none => rfl
  | some p =>
    exfalso
    have h1 := List.find?_some hf
    have hmem := List.mem_of_find?_eq_some hf
    simp only [beq_iff_eq] at h1
    subst h1
    exact hm (List.of_mem_zip hmem).1

theorem toLowerChar_ne_underscore (c : Char) (h : isAlphanumChar c = true) :
    ¬ toLowerChar c = '_' := by
  by_cases hu : isUpperChar c = true
  · have hm := upperChar_cases c hu
    simp only [asciiUppers, List.mem_cons, List.not_mem_nil, or_false] at hm
    rcases hm with h2|h2|h2|h2|h2|h2|h2|h2|h2|h2|h2|h2|h2|h2|h2|h2|h2|h2|h2|h2|h2|h2|h2|h2|h2|h2 <;>
      subst h2 <;> decide
  · rw [toLowerChar_eq_self c (by simpa using hu)]
    intro hc
    subst hc
    simp [isAlphanumChar, isUpperChar, isLowerChar, isDigitChar, asciiUppers,
      asciiLowers, asciiDigits] at h

theorem lowerChar_not_upper (c : Char) (h : isLowerChar c = true) : isUpperChar c = false := by
  have hm : c ∈ asciiLowers := by simpa [isLowerChar] using h
  simp only [asciiLowers, List.mem_cons, List.not_mem_nil, or_false] at hm
  rcases hm with h2|h2|h2|h2|h2|h2|h2|h2|h2|h2|h2|h2|h2|h2|h2|h2|h2|h2|h2|h2|h2|h2|h2|h2|h2|h2 <;>
    subst h2 <;> decide

theorem s2cAux_nil (b : Bool) : s2cAux b [] = [] := rfl

theorem s2cAux_underscore (b : Bool) (rest : List Char) :
    s2cAux b ('_' :: rest) = s2cAux true rest := by
  unfold s2cAux
  rw [if_pos rfl]
  cases rest <;> rfl

theorem s2cAux_cons (b : Bool) (c : Char) (rest : List Char) (h : ¬ c = '_') :
    s2cAux b (c :: rest) = (if b then toUpperChar c else c) :: s2cAux false rest := by
  unfold s2cAux
  rw [if_neg h]
  cases rest <;> rfl

theorem alphanum_not_upper_lower_or_digit (c : Char) (ha : isAlphanumChar c = true)
    (hu : isUpperChar c = false) : (isLowerChar c || isDigitChar c) = true := by
  simp only [isAlphanumChar, Bool.or_eq_true] at ha
  rcases ha with (h | h) | h
  · rw [h] at hu; exact absurd hu (by simp)
  · simp [h]
  · simp [h]

theorem underscore_not_alphanum : isAlphanumChar '_' = false := by decide

/-- Core inversion: the camel converter undoes the splitting pass, provided
every character (including the preceding one) is alphanumeric and no two
consecutive characters are uppercase (so every uppercase letter gets its
boundary marked). -/
theorem s2c_camelSplitAux (cs : List Char) : ∀ prev : Char,
    isAlphanumChar prev = true →
    cs.all isAlphanumChar = true →
    noConsecUpper (prev :: cs) = true →
    s2cAux false (camelSplitAux prev cs) = cs := by
  induction cs with
  | nil => intro prev _ _ _; rfl
  | cons c rest ih =>
    intro prev hprev hall hncu
    have hallc : isAlphanumChar c = true := by
      simp only [List.all_cons, Bool.and_eq_true] at hall
      exact hall.1
    have hallrest : rest.all isAlphanumChar = true := by
      simp only [List.all_cons, Bool.and_eq_true] at hall
      exact hall.2
    have hncu2 : noConsecUpper (c :: rest) = true := by
      cases rest with
      | nil => rfl
      | cons d rest2 =>
        simp only [noConsecUpper, Bool.and_eq_true] at hncu ⊢
        exact hncu.2
    have hpair : (!(isUpperChar prev && isUpperChar c)) = true := by
      simp only [noConsecUpper, Bool.and_eq_true] at hncu
      exact hncu.1
    have hcalpha_ne : ¬ toLowerChar c = '_' := toLowerChar_ne_underscore c hallc
    unfold camelSplitAux
    by_cases hcond : ((isLowerChar prev || isDigitChar prev) && isUpperChar c) = true
    · rw [if_pos hcond]
      have hcu : isUpperChar c = true := by
        simp only [Bool.and_eq_true] at hcond
        exact hcond.2
      rw [s2cAux_underscore]
      rw [s2cAux_cons true _ _ hcalpha_ne]
      rw [if_pos rfl]
      rw [toUpperChar_toLowerChar c hcu]
      rw [ih c hallc hallrest hncu2]
    · rw [if_neg hcond]
      have hcnotu : isUpperChar c = false := by
        by_cases hprevu : isUpperChar prev = true
        · rw [hprevu] at hpair
          simpa using hpair
        · have hld := alphanum_not_upper_lower_or_digit prev hprev (by simpa using hprevu)
          by_cases hcu : isUpperChar c = true
          · exact absurd (by simp [hld, hcu] : ((isLowerChar prev || isDigitChar prev) && isUpperChar c) = true) hcond
          · simpa using hcu
      rw [s2cAux_cons false _ _ hcalpha_ne]
      rw [if_neg (by simp)]
      rw [toLowerChar_eq_self c hcnotu]
      rw [ih c hallc hallrest hncu2]

theorem toLowerChar_toUpperChar (c : Char) (h : isLowerChar c = true) :
    toLowerChar (toUpperChar c) = c := by
  have hm : c ∈ asciiLowers := by simpa [isLowerChar] using h
  simp only [asciiLowers, List.mem_cons, List.not_mem_nil, or_false] at hm
  rcases hm with h|h|h|h|h|h|h|h|h|h|h|h|h|h|h|h|h|h|h|h|h|h|h|h|h|h <;> subst h <;> decide

theorem lowerChar_ne_underscore (c : Char) (h : isLowerChar c = true) : ¬ c = '_' := by
  intro hc
  subst hc
  simp [isLowerChar, asciiLowers] at h

theorem upperChar_ne_underscore (c : Char) (h : isUpperChar c = true) : ¬ c = '_' := by
  intro hc
  subst hc
  simp [isUpperChar, asciiUppers] at h

/-- With the boundary-insensitive head (the next character is not
uppercase), the splitting pass does not depend on the preceding
character. -/
theorem camelSplitAux_prev_irrel (rest : List Char) (p q : Char)
    (h : rest.head?.all (fun d => ! isUpperChar d) = true) :
    camelSplitAux p rest = camelSplitAux q rest := by
  cases rest with
  | nil => rfl
  | cons d rs =>
    have hd : isUpperChar d = false := by
      simp only [List.head?, Option.all_some, Bool.not_eq_true'] at h
      exact h
    unfold camelSplitAux
    rw [if_neg (by simp [hd]), if_neg (by simp [hd])]

theorem camelToSnake_cons (c : Char) (rest : List Char) :
    camelToSnakeChars (c :: rest) = toLowerChar c :: camelSplitAux c rest := rfl

/-- Snake and camel policies: the full round trip at character level. -/
theorem roundTrip_chars (cs : List Char) (h : isCamelCaseChars cs = true) :
    s2cAux false (camelToSnakeChars cs) = cs := by
  cases cs with
  | nil => simp [isCamelCaseChars] at h
  | cons c rest =>
    simp only [isCamelCaseChars, Bool.and_eq_true] at h
    obtain ⟨⟨hlow, hall⟩, hncu⟩ := h
    have hcanum : isAlphanumChar c = true := by
      simp [isAlphanumChar, hlow]
    have hallrest : rest.all isAlphanumChar = true := by
      simp only [List.all_cons, Bool.and_eq_true] at hall
      exact hall.2
    rw [camelToSnake_cons]
    rw [toLowerChar_eq_self c (lowerChar_not_upper c hlow)]
    rw [s2cAux_cons false c _ (lowerChar_ne_underscore c hlow)]
    rw [if_neg (by simp)]
    rw [s2c_camelSplitAux rest c hcanum hallrest hncu]

/-- Pascal policy: the normalisation step capitalises the first character
and otherwise returns the identifier unchanged. -/
theorem pascal_norm_chars (c : Char) (rest : List Char)
    (h : isCamelCaseChars (c :: rest) = true) :
    s2cAux true (camelToSnakeChars (c :: rest)) = toUpperChar c :: rest := by
  simp only [isCamelCaseChars, Bool.and_eq_true] at h
  obtain ⟨⟨hlow, hall⟩, hncu⟩ := h
  have hcanum : isAlphanumChar c = true := by
    simp [isAlphanumChar, hlow]
  have hallrest : rest.all isAlphanumChar = true := by
    simp only [List.all_cons, Bool.and_eq_true] at hall
    exact hall.2
  rw [camelToSnake_cons]
  rw [toLowerChar_eq_self c (lowerChar_not_upper c hlow)]
  rw [s2cAux_cons true c _ (lowerChar_ne_underscore c hlow)]
  rw [if_pos rfl]
  rw [s2c_camelSplitAux rest c hcanum hallrest hncu]

def secondNotUpperChars : List Char → Bool
  | [] => true
  | [_] => true
  | _ :: b :: _ => ! isUpperChar b

def secondNotUpperString (s : String) : Bool := secondNotUpperChars s.data

/-- Pascal policy round trip at character level, for identifiers whose
first word has at least two characters (second character not uppercase). -/
theorem pascal_roundTrip_chars (cs : List Char) (h : isCamelCaseChars cs = true)
    (h2 : secondNotUpperChars cs = true) :
    s2cAux false (camelToSnakeChars (s2cAux true (camelToSnakeChars cs))) = cs := by
  cases cs with
  | nil => simp [isCamelCaseChars] at h
  | cons c rest =>
    rw [pascal_norm_chars c rest h]
    have hinfo := h
    simp only [isCamelCaseChars, Bool.and_eq_true] at hinfo
    obtain ⟨⟨hlow, hall⟩, hncu⟩ := hinfo
    have hcanum : isAlphanumChar c = true := by
      simp [isAlphanumChar, hlow]
    have hallrest : rest.all isAlphanumChar = true := by
      simp only [List.all_cons, Bool.and_eq_true] at hall
      exact hall.2
    have hup : isUpperChar (toUpperChar c) = true := by
      have hm : c ∈ asciiLowers := by simpa [isLowerChar] using hlow
      simp only [asciiLowers, List.mem_cons, List.not_mem_nil, or_false] at hm
      rcases hm with h3|h3|h3|h3|h3|h3|h3|h3|h3|h3|h3|h3|h3|h3|h3|h3|h3|h3|h3|h3|h3|h3|h3|h3|h3|h3 <;>
        subst h3 <;> decide
    rw [camelToSnake_cons]
    rw [toLowerChar_toUpperChar c hlow]
    have hhead : rest.head?.all (fun d => ! isUpperChar d) = true := by
      cases rest with
      | nil => rfl
      | cons d rs =>
        simp only [secondNotUpperChars] at h2
        simp only [List.head?, Option.all_some]
        exact h2
    rw [camelSplitAux_prev_irrel rest (toUpperChar c) c hhead]
    rw [s2cAux_cons false c _ (lowerChar_ne_underscore c hlow)]
    rw [if_neg (by simp)]
    rw [s2c_camelSplitAux rest c hcanum hallrest hncu]

/-- Claim C6 (counterexample).  The identifier "aBc" is camelCase with no
embedded separators, yet under the pascalcase policy
`getCaseDenormalizedString (getCaseNormalizedString "aBc")` yields "abc":
normalisation produces "ABc", whose first two uppercase letters carry no
lower-to-upper boundary, so denormalisation cannot restore the original
word split.  The round trip therefore fails for the pascalcase policy. -/
theorem c6_counterexample :
    isCamelCaseString "aBc" = true ∧
    getCaseDenormalizedString CaseImpl.pascalcase
      (getCaseNormalizedString CaseImpl.pascalcase "aBc") = "abc" ∧
    ¬ getCaseDenormalizedString CaseImpl.pascalcase
      (getCaseNormalizedString CaseImpl.pascalcase "aBc") = "aBc" := by
  refine ⟨by decide, by decide, by decide⟩

/-- Claim C6 (amended).  For every camelCase identifier x with no embedded
separators, `getCaseDenormalizedString p (getCaseNormalizedString p x) = x`
holds for the snakecase and camelcase policies unconditionally, and for
the pascalcase policy provided the identifier's second character is not an
uppercase letter (i.e. its first word is not a single letter; otherwise
the pascal form starts with two uppercase letters and the boundary is
lost, as the counterexample shows). -/
theorem c6_amended (ci : CaseImpl) (x : String)
    (h : isCamelCaseString x = true)
    (h2 : ci = CaseImpl.pascalcase → secondNotUpperString x = true) :
    getCaseDenormalizedString ci (getCaseNormalizedString ci x) = x := by
  obtain ⟨cs⟩ := x
  have hchars : isCamelCaseChars cs = true := h
  cases ci with
  | snakecase =>
    show String.mk (s2cAux false (camelToSnakeChars cs)) = String.mk cs
    rw [roundTrip_chars cs hchars]
  | camelcase =>
    show String.mk (s2cAux false (camelToSnakeChars (s2cAux false (camelToSnakeChars cs)))) = String.mk cs
    rw [roundTrip_chars cs hchars, roundTrip_chars cs hchars]
  | pascalcase =>
    have hsnu : secondNotUpperChars cs = true := h2 rfl
    show String.mk (s2cAux false (camelToSnakeChars (s2cAux true (camelToSnakeChars cs)))) = String.mk cs
    rw [pascal_roundTrip_chars cs hchars hsnu]

/-- Witness for the amended C6 theorem at the identifier "fooBar" under
all three policies. -/
theorem c6_amended_witness :
    isCamelCaseString "fooBar" = true ∧
    getCaseDenormalizedString CaseImpl.snakecase
      (getCaseNormalizedString CaseImpl.snakecase "fooBar") = "fooBar" ∧
    getCaseDenormalizedString CaseImpl.pascalcase
      (getCaseNormalizedString CaseImpl.pascalcase "fooBar") = "fooBar" ∧
    getCaseDenormalizedString CaseImpl.camelcase
      (getCaseNormalizedString CaseImpl.camelcase "fooBar") = "fooBar" := by
  refine ⟨by decide, ?_, ?_, ?_⟩
  · exact c6_amended CaseImpl.snakecase "fooBar" (by decide) (by intro hc; cases hc)
  · exact c6_amended CaseImpl.pascalcase "fooBar" (by decide) (by intro hc; decide)
  · exact c6_amended CaseImpl.camelcase "fooBar" (by decide) (by intro hc; cases hc)

/-! ## The data model (section 3 of the spec, as consumed by src/index.js)

The validated data model is embedded with typed records; JavaScript
objects become association lists preserving insertion order, and JSON
`null` becomes `Option.none`.  Numeric `lengthOrValues` entries are
represented by their decimal string form, which is how the source
interpolates and compares them. -/

structure Attribute where
  type : String
  lengthOrValues : Option String
  dflt : Option String
  allowNull : Bool
deriving Repr, DecidableEq

structure IndexDef where
  attributeName : String
  indexName : String
  indexChoice : String
  idxType : String
deriving Repr, DecidableEq

structure EntityOptions where
  enforceLockingConstraints : Option Bool
  isAuditEnabled : Option Bool
deriving Repr, DecidableEq

structure Entity where
  moduleName : String
  attributes : List (String × Attribute)
  indexes : List IndexDef
  relationships : List (String × List String)
  options : Option EntityOptions
deriving Repr, DecidableEq

/-- A data model: entity name (camelCase) to entity definition, in
insertion order. -/
abbrev DataModel := List (String × Entity)

/-- Splitter between the related-entity part and the role part of a
relationship column (the source switches on the case implementation;
"snakecase" reaches the default branch, an underscore). -/
def relationshipSplitter (ci : CaseImpl) : String :=
  match ci with
  | CaseImpl.snakecase => "_"
  | CaseImpl.pascalcase => ""
  | CaseImpl.camelcase => ""

/-- The relationship column built from a related entity and a role name,
as in `getEntityRelationshipColumns` / `getEntityRelationshipConstraint`. -/
def relationshipColumnName (ci : CaseImpl) (relatedEntity roleName : String) : String :=
  getCaseNormalizedString ci relatedEntity ++ relationshipSplitter ci ++
    getCaseNormalizedString ci roleName

/-- Embeds `getEntityRelationshipColumns` (src/index.js). -/
def getEntityRelationshipColumns (ci : CaseImpl) (e : Entity) : List String :=
  (e.relationships.map
    (fun p => p.2.map (fun roleName => relationshipColumnName ci p.1 roleName))).flatten

/-- Embeds `getEntityRelationshipFromRelationshipColumn` (src/index.js):
first relationship whose rebuilt column name matches, else none. -/
def getEntityRelationshipFromRelationshipColumn (ci : CaseImpl) (e : Entity)
    (relationshipColumn : String) : Option String :=
  e.relationships.findSome?
    (fun p =>
      if p.2.any (fun roleName => relationshipColumnName ci p.1 roleName == relationshipColumn)
      then some p.1 else none)

/-- Truth of `options.enforceLockingConstraints !== false` guarded by the
two `typeof ... !== "undefined"` checks, as the source tests it. -/
def entityEnforcesLocking (e : Entity) : Bool :=
  match e.options with
  | none => false
  | some o =>
      match o.enforceLockingConstraints with
      | none => false
      | some b => b

/-- Embeds `getEntityExpectedColumns` (src/index.js).  The source pushes
the relationship columns through `getCaseNormalizedString` a second time;
this is kept. -/
def getEntityExpectedColumns (ci : CaseImpl) (e : Entity) : List String :=
  [getPrimaryKeyColumn ci] ++
  e.attributes.map (fun p => getCaseNormalizedString ci p.1) ++
  (getEntityRelationshipColumns ci e).map (fun c => getCaseNormalizedString ci c) ++
  (if entityEnforcesLocking e then [getLockingConstraintColumn ci] else [])

/-- A generated foreign-key specification: the pair pushed by
`getEntityRelationshipConstraint`. -/
structure RelConstraint where
  columnName : String
  constraintName : String
deriving Repr, DecidableEq

/-- Fresh constraint names.  The source computes
`md5(Date.now() + round(1000000 * random()))` per relationship role; the
generator is modelled as a function of a run-wide counter, so that
distinctness and freshness become explicit hypotheses where a claim
relies on them. -/
def genRoleAux (ci : CaseImpl) (gen : Nat → String) (relatedEntity : String) :
    List String → Nat → List RelConstraint × Nat
  | [], k => ([], k)
  | roleName :: roles, k =>
      let col := relationshipColumnName ci relatedEntity roleName
      let rest := genRoleAux ci gen relatedEntity roles (k + 1)
      (RelConstraint.mk col (gen k) :: rest.1, rest.2)

def genConstraintsAux (ci : CaseImpl) (gen : Nat → String) :
    List (String × List String) → Nat → List RelConstraint × Nat
  | [], k => ([], k)
  | (relatedEntity, roles) :: rest, k =>
      let first := genRoleAux ci gen relatedEntity roles k
      let others := genConstraintsAux ci gen rest first.2
      (first.1 ++ others.1, others.2)

/-- Embeds `getEntityRelationshipConstraint` (src/index.js lines
1724-1756): one freshly named constraint per relationship role.  Returns
the list together with the advanced generator counter. -/
def getEntityRelationshipConstraint (ci : CaseImpl) (gen : Nat → String) (e : Entity)
    (k : Nat) : List RelConstraint × Nat :=
  genConstraintsAux ci gen e.relationships k

def entityRoleCount (e : Entity) : Nat :=
  (e.relationships.map (fun p => p.2.length)).sum

theorem string_ext (a b : String) (h : a.data = b.data) : a = b := by
  cases a
  cases b
  cases h
  rfl

theorem string_data_nil : ("" : String).data = [] := rfl

/-! ## The SQL fragment builder: getAlterColumnSql (src/index.js 1833-1861) -/

/-- Embeds `getAlterColumnSql`.  The primary-key special case returns the
dedicated statement (in the source the template literal wraps it across
two lines; the line break and indentation are rendered here as a single
space, which no claim observes). -/
def getAlterColumnSql (ci : CaseImpl) (columnName : String) (d : Attribute)
    (operation : String) : String :=
  if columnName = getPrimaryKeyColumn ci then
    operation ++ " COLUMN " ++ getPrimaryKeyColumn ci ++
      " BIGINT NOT NULL AUTO_INCREMENT FIRST, ADD PRIMARY KEY (" ++
      getPrimaryKeyColumn ci ++ ");"
  else
    let base := operation ++ " COLUMN " ++ columnName ++ " " ++ d.type
    let withLen :=
      match d.lengthOrValues with
      | some v => base ++ "(" ++ v ++ ")"
      | none => base
    let withNull := if d.allowNull = false then withLen ++ " NOT NULL" else withLen
    match d.dflt with
    | some v =>
        if v = "CURRENT_TIMESTAMP" then withNull ++ " DEFAULT CURRENT_TIMESTAMP;"
        else withNull ++ " DEFAULT '" ++ v ++ "';"
    | none => if d.allowNull then withNull ++ " DEFAULT NULL;" else withNull

/-! ## Claim C7: the default clause of the generated column DDL -/

/-- Spec-side description (claim C7 wording): the column clause before any
default handling, namely name, type, optional length/values and the
NOT NULL marker. -/
def specColumnClauseBase (columnName : String) (d : Attribute) (operation : String) : String :=
  operation ++ " COLUMN " ++ columnName ++ " " ++ d.type ++
    (match d.lengthOrValues with
     | some v => "(" ++ v ++ ")"
     | none => "") ++
    (if d.allowNull then "" else " NOT NULL")

/-- Spec-side description (claim C7 wording) of the default clause:
`CURRENT_TIMESTAMP` unquoted, other non-null defaults quoted as literals,
and for a null default `DEFAULT NULL` exactly when `allowNull` is true,
otherwise no default clause at all. -/
def specDefaultClause (d : Attribute) : String :=
  match d.dflt with
  | some v =>
      if v = "CURRENT_TIMESTAMP" then " DEFAULT CURRENT_TIMESTAMP;"
      else " DEFAULT '" ++ v ++ "';"
  | none => if d.allowNull then " DEFAULT NULL;" else ""

/-- Claim C7 (confirmed).  For every non-primary-key column, the SQL
produced by `getAlterColumnSql` is the base column clause followed by
exactly the default clause the claim describes: the sentinel
CURRENT_TIMESTAMP unquoted, other non-null values quoted, DEFAULT NULL
exactly when the default is null and allowNull is true, and no default
clause when the default is null and allowNull is false. -/
theorem c7_default_clause (ci : CaseImpl) (columnName : String) (d : Attribute)
    (operation : String) (h : ¬ columnName = getPrimaryKeyColumn ci) :
    getAlterColumnSql ci columnName d operation =
      specColumnClauseBase columnName d operation ++ specDefaultClause d := by
  unfold getAlterColumnSql specColumnClauseBase specDefaultClause
  rw [if_neg h]
  cases hl : d.lengthOrValues with
  | none =>
    cases hd : d.dflt with
    | none =>
      cases hn : d.allowNull <;> apply string_ext <;>
        simp [hn, String.data_append, string_data_nil, List.append_assoc]
    | some v =>
      by_cases hv : v = "CURRENT_TIMESTAMP" <;>
        cases hn : d.allowNull <;> apply string_ext <;>
        simp [hn, hv, String.data_append, string_data_nil, List.append_assoc]
  | some w =>
    cases hd : d.dflt with
    | none =>
      cases hn : d.allowNull <;> apply string_ext <;>
        simp [hn, String.data_append, string_data_nil, List.append_assoc]
    | some v =>
      by_cases hv : v = "CURRENT_TIMESTAMP" <;>
        cases hn : d.allowNull <;> apply string_ext <;>
        simp [hn, hv, String.data_append, string_data_nil, List.append_assoc]

/-- Witness for C7 at a concrete non-primary-key column. -/
theorem c7_default_clause_witness :
    (¬ "example_one_string_with_null" = getPrimaryKeyColumn CaseImpl.snakecase) ∧
    getAlterColumnSql CaseImpl.snakecase "example_one_string_with_null"
        (Attribute.mk "varchar" (some "50") none true) "MODIFY" =
      specColumnClauseBase "example_one_string_with_null"
          (Attribute.mk "varchar" (some "50") none true) "MODIFY" ++
        specDefaultClause (Attribute.mk "varchar" (some "50") none true) :=
  ⟨by decide,
   c7_default_clause CaseImpl.snakecase "example_one_string_with_null"
     (Attribute.mk "varchar" (some "50") none true) "MODIFY" (by decide)⟩

/-! ## Claim C8: the model validator of src/unnamed/part_001

`validateDataModel` operates on raw parsed JSON, so a small JSON universe
is embedded here.  JavaScript objects are association lists in insertion
order; `undefined` results of member access are `Option.none`. -/

inductive JVal where
  | jnull : JVal
  | jbool : Bool → JVal
  | jnum : Int → JVal
  | jstr : String → JVal
  | jarr : List JVal → JVal
  | jobj : List (String × JVal) → JVal
deriving Repr

/-- First-match field lookup, the semantics of member access on a
JavaScript object (keys are unique in parsed JSON). -/
def jlookup : List (String × JVal) → String → Option JVal
  | [], _ => none
  | (k, v) :: rest, key => if k = key then some v else jlookup rest key

/-- Member access through the optional-chaining operator: `undefined` on
non-objects and missing keys. -/
def entGet (v : JVal) (key : String) : Option JVal :=
  match v with
  | JVal.jobj fields => jlookup fields key
  | _ => none

/-- JavaScript truthiness of the modelled values. -/
def truthy : JVal → Bool
  | JVal.jnull => false
  | JVal.jbool b => b
  | JVal.jnum n => decide (¬ n = 0)
  | JVal.jstr s => decide (¬ s = "")
  | JVal.jarr _ => true
  | JVal.jobj _ => true

/-- Truthiness of `v?.key`. -/
def fieldTruthy (v : JVal) (key : String) : Bool :=
  match entGet v key with
  | some w => truthy w
  | none => false

/-- Modelled from the external dx-utilities helper `isValidObject`: a
plain (non-array, non-null) object. -/
def isValidObject : JVal → Bool
  | JVal.jobj _ => true
  | _ => false

/-- `Object.keys` of a modelled value (the empty list on the non-object
values the validator feeds it). -/
def jkeys : JVal → List String
  | JVal.jobj fields => fields.map (fun p => p.1)
  | _ => []

/-- Assignment `obj.key = v`: overwrites in place when the key exists,
appends a new key otherwise. -/
def setField (fields : List (String × JVal)) (key : String) (v : JVal) :
    List (String × JVal) :=
  if fields.any (fun p => p.1 == key) then
    fields.map (fun p => if p.1 == key then (p.1, v) else p)
  else
    fields ++ [(key, v)]

def stringToLower (s : String) : String := String.mk (s.data.map toLowerChar)

def stringToUpper (s : String) : String := String.mk (s.data.map toUpperChar)

/-- Embeds `checkArraysAreEqual` (part_001): equal lengths and mutual
containment. -/
def checkArraysAreEqual (a b : List String) : Bool :=
  a.length == b.length && a.all (fun x => b.contains x) && b.all (fun x => a.contains x)

def expectedAttributeKeys : List String :=
  ["name", "type", "lengthOrValues", "default", "allowNull"]

def expectedIndexKeys : List String :=
  ["attribute", "indexName", "indexChoice", "type"]

/-- Embeds `validateAttribute` (part_001): the attribute definition's key
set must equal the expected five keys (including `name`). -/
def validateAttribute (attributeDefinition : JVal) : Bool :=
  checkArraysAreEqual (jkeys attributeDefinition) expectedAttributeKeys

def allowedIndexChoices : List String := ["index", "unique", "spatial", "fulltext"]

def allowedIndexTypes : List String := ["BTREE", "HASH"]

/-- Embeds `validateIndex` (part_001).  Calling `.toLowerCase()` on a
missing or non-string member would throw in JavaScript; the model folds
that abnormal exit into a failed validation. -/
def validateIndex (indexDefinition : JVal) : Bool :=
  checkArraysAreEqual (jkeys indexDefinition) expectedIndexKeys &&
  (match entGet indexDefinition "indexChoice" with
   | some (JVal.jstr s) => allowedIndexChoices.contains (stringToLower s)
   | _ => false) &&
  (match entGet indexDefinition "type" with
   | some (JVal.jstr s) => allowedIndexTypes.contains (stringToUpper s)
   | _ => false)

/-- Embeds `validateRelationship` (part_001): the related name must be a
top-level entity and the role list must be an array. -/
def validateRelationship (dataModelKeys : List String) (relationshipName : String)
    (relationshipAttributes : JVal) : Bool :=
  dataModelKeys.contains relationshipName &&
  (match relationshipAttributes with
   | JVal.jarr _ => true
   | _ => false)

def defaultOptionsJ : JVal :=
  JVal.jobj [("enforceLockingConstraints", JVal.jbool true),
             ("isAuditEnabled", JVal.jbool true)]

/-- One default step of the validator: `if (!entityDefinition?.key)
entityDefinition.key = dflt`. -/
def defaultField (ed : JVal) (key : String) (dflt : JVal) : JVal :=
  if fieldTruthy ed key then ed
  else
    match ed with
    | JVal.jobj fields => JVal.jobj (setField fields key dflt)
    | other => other

/-- Per-entity body of `validateDataModel` (part_001 lines 12-79):
reject on missing module or attributes, default the three optional keys,
then validate attributes, indexes, relationships and options in order.
Returns the (possibly defaulted) entity definition on success. -/
def processEntity (dataModelKeys : List String) (ed : JVal) : Option JVal :=
  if fieldTruthy ed "module" = false then none
  else if fieldTruthy ed "attributes" = false then none
  else
    let ed1 := defaultField ed "indexes" (JVal.jarr [])
    let ed2 := defaultField ed1 "relationships" (JVal.jobj [])
    let ed3 := defaultField ed2 "options" defaultOptionsJ
    match entGet ed3 "attributes" with
    | none => none
    | some attrs =>
        if isValidObject attrs = false then none
        else if (jkeys attrs).length = 0 then none
        else if (match attrs with
                 | JVal.jobj af => af.all (fun p => validateAttribute p.2)
                 | _ => false) = false then none
        else
          match entGet ed3 "indexes" with
          | some (JVal.jarr idxs) =>
              if idxs.all validateIndex = false then none
              else
                match entGet ed3 "relationships" with
                | some (JVal.jobj rels) =>
                    if rels.all (fun p => validateRelationship dataModelKeys p.1 p.2) = false
                    then none
                    else
                      match entGet ed3 "options" with
                      | some opts => if isValidObject opts then some ed3 else none
                      | none => none
                | some _ => none
                | none => none
          | some _ => none
          | none => none

def vdmAux (dataModelKeys : List String) :
    List (String × JVal) → Option (List (String × JVal))
  | [] => some []
  | (entityName, ed) :: rest =>
      match processEntity dataModelKeys ed with
      | none => none
      | some ed2 =>
          match vdmAux dataModelKeys rest with
          | none => none
          | some r => some ((entityName, ed2) :: r)

/-- Embeds `validateDataModel` (src/unnamed/part_001): returns the
defaulted data model on success (the source returns the mutated
`dataModel` object), `none` where the source returns `false`. -/
def validateDataModel (dm : JVal) : Option JVal :=
  match dm with
  | JVal.jobj fields =>
      (match vdmAux (fields.map (fun p => p.1)) fields with
       | none => none
       | some processed => some (JVal.jobj processed))
  | _ => none

/-- A data model as claim C8 quantifies it: one entity with a module and a
non-empty attributes mapping, omitting `indexes`, `relationships` and
`options`; the attribute definition carries the four keys every shipped
example model uses. -/
def c8Model : JVal :=
  JVal.jobj
    [("someEntity",
      JVal.jobj
        [("module", JVal.jstr "main"),
         ("attributes",
          JVal.jobj
            [("someAttribute",
              JVal.jobj
                [("type", JVal.jstr "varchar"),
                 ("lengthOrValues", JVal.jnum 50),
                 ("default", JVal.jnull),
                 ("allowNull", JVal.jbool true)])])])]

/-- Claim C8 (counterexample).  `c8Model` omits the three optional keys
but has a module and a non-empty attributes mapping, so the claim asserts
validation succeeds; `validateDataModel` nevertheless rejects it, because
`validateAttribute` demands the exact key set
name/type/lengthOrValues/default/allowNull and the attribute lacks
`name`. -/
theorem c8_counterexample :
    fieldTruthy (entGet c8Model "someEntity" |>.getD JVal.jnull) "module" = true ∧
    fieldTruthy (entGet c8Model "someEntity" |>.getD JVal.jnull) "attributes" = true ∧
    (entGet (entGet c8Model "someEntity" |>.getD JVal.jnull) "indexes").isNone = true ∧
    (entGet (entGet c8Model "someEntity" |>.getD JVal.jnull) "relationships").isNone = true ∧
    (entGet (entGet c8Model "someEntity" |>.getD JVal.jnull) "options").isNone = true ∧
    validateDataModel c8Model = none := by
  refine ⟨by decide, by decide, rfl, rfl, rfl, rfl⟩

theorem jlookup_append (a b : List (String × JVal)) (k : String) :
    jlookup (a ++ b) k =
      (match jlookup a k with
       | some v => some v
       | none => jlookup b k) := by
  induction a with
  | nil => rfl
  | cons p rest ih =>
    obtain ⟨pk, pv⟩ := p
    by_cases hk : pk = k
    · simp [jlookup, hk]
    · simp only [List.cons_append, jlookup, if_neg hk]
      exact ih

theorem jlookup_none_any (f : List (String × JVal)) (k : String)
    (h : jlookup f k = none) : f.any (fun p => p.1 == k) = false := by
  induction f with
  | nil => rfl
  | cons p rest ih =>
    obtain ⟨pk, pv⟩ := p
    by_cases hk : pk = k
    · rw [jlookup, if_pos hk] at h
      cases h
    · rw [jlookup, if_neg hk] at h
      simp only [List.any_cons, Bool.or_eq_false_iff]
      exact ⟨by simpa using hk, ih h⟩

/-- Decidable hypothesis of the amended claim C8: the entity is an object
that omits the `indexes`, `relationships` and `options` keys, has a truthy
`module`, and a non-empty attributes object whose every attribute passes
`validateAttribute` (exact key set name/type/lengthOrValues/default/
allowNull). -/
def c8EntityOk : JVal → Bool
  | JVal.jobj f =>
      (jlookup f "indexes").isNone &&
      (jlookup f "relationships").isNone &&
      (jlookup f "options").isNone &&
      fieldTruthy (JVal.jobj f) "module" &&
      (match jlookup f "attributes" with
       | some (JVal.jobj af) =>
           (! (af.length == 0)) && af.all (fun p => validateAttribute p.2)
       | _ => false)
  | _ => false

/-- The defaulted entity the validator hands back: the original fields
with `indexes`, `relationships` and `options` appended in that order. -/
def c8Defaulted : JVal → JVal
  | JVal.jobj f =>
      JVal.jobj (f ++
        [("indexes", JVal.jarr []),
         ("relationships", JVal.jobj []),
         ("options", defaultOptionsJ)])
  | v => v

theorem processEntity_defaults (dataModelKeys : List String) (ed : JVal)
    (h : c8EntityOk ed = true) :
    processEntity dataModelKeys ed = some (c8Defaulted ed) := by
  cases ed with
  | jnull => exact absurd h (by simp [c8EntityOk])
  | jbool b => exact absurd h (by simp [c8EntityOk])
  | jnum n => exact absurd h (by simp [c8EntityOk])
  | jstr s => exact absurd h (by simp [c8EntityOk])
  | jarr xs => exact absurd h (by simp [c8EntityOk])
  | jobj f =>
    simp only [c8EntityOk, Bool.and_eq_true, Option.isNone_iff_eq_none] at h
    obtain ⟨⟨⟨⟨h1, h2⟩, h3⟩, h4⟩, h5⟩ := h
    cases hat : jlookup f "attributes" with
    | none => rw [hat] at h5; exact Bool.noConfusion h5
    | some av =>
      cases av with
      | jnull => rw [hat] at h5; exact Bool.noConfusion h5
      | jbool b => rw [hat] at h5; exact Bool.noConfusion h5
      | jnum n => rw [hat] at h5; exact Bool.noConfusion h5
      | jstr s => rw [hat] at h5; exact Bool.noConfusion h5
      | jarr xs => rw [hat] at h5; exact Bool.noConfusion h5
      | jobj af =>
        rw [hat] at h5
        simp only [Bool.and_eq_true] at h5
        obtain ⟨hne, hall⟩ := h5
        have hany1 : f.any (fun p => p.1 == "indexes") = false :=
          jlookup_none_any f "indexes" h1
        have hl2 : jlookup (f ++ [("indexes", JVal.jarr [])]) "relationships" = none := by
          rw [jlookup_append, h2]
          rfl
        have hany2 : (f ++ [("indexes", JVal.jarr [])]).any
            (fun p => p.1 == "relationships") = false :=
          jlookup_none_any _ "relationships" hl2
        have hl3 : jlookup (f ++ [("indexes", JVal.jarr []),
            ("relationships", JVal.jobj [])]) "options" = none := by
          rw [jlookup_append, h3]
          rfl
        have hany3 : (f ++ [("indexes", JVal.jarr []),
            ("relationships", JVal.jobj [])]).any (fun p => p.1 == "options") = false :=
          jlookup_none_any _ "options" hl3
        have hed1 : defaultField (JVal.jobj f) "indexes" (JVal.jarr []) =
            JVal.jobj (f ++ [("indexes", JVal.jarr [])]) := by
          simp [defaultField, fieldTruthy, entGet, h1, setField, hany1]
        have hed2 : defaultField (JVal.jobj (f ++ [("indexes", JVal.jarr [])]))
            "relationships" (JVal.jobj []) =
            JVal.jobj (f ++ [("indexes", JVal.jarr []), ("relationships", JVal.jobj [])]) := by
          simp [defaultField, fieldTruthy, entGet, hl2, setField, hany2]
        have hed3 : defaultField (JVal.jobj (f ++ [("indexes", JVal.jarr []),
            ("relationships", JVal.jobj [])])) "options" defaultOptionsJ =
            JVal.jobj (f ++ [("indexes", JVal.jarr []), ("relationships", JVal.jobj []),
              ("options", defaultOptionsJ)]) := by
          simp [defaultField, fieldTruthy, entGet, hl3, setField, hany3]
        have hatt3 : jlookup (f ++ [("indexes", JVal.jarr []),
            ("relationships", JVal.jobj []), ("options", defaultOptionsJ)])
            "attributes" = some (JVal.jobj af) := by
          rw [jlookup_append, hat]
        have hidx3 : jlookup (f ++ [("indexes", JVal.jarr []),
            ("relationships", JVal.jobj []), ("options", defaultOptionsJ)])
            "indexes" = some (JVal.jarr []) := by
          rw [jlookup_append, h1]
          rfl
        have hrel3 : jlookup (f ++ [("indexes", JVal.jarr []),
            ("relationships", JVal.jobj []), ("options", defaultOptionsJ)])
            "relationships" = some (JVal.jobj []) := by
          rw [jlookup_append, h2]
          rfl
        have hopt3 : jlookup (f ++ [("indexes", JVal.jarr []),
            ("relationships", JVal.jobj []), ("options", defaultOptionsJ)])
            "options" = some defaultOptionsJ := by
          rw [jlookup_append, h3]
          rfl
        unfold processEntity
        rw [if_neg (by simp [h4])]
        rw [if_neg (by simp [fieldTruthy, entGet, hat, truthy])]
        simp only [hed1, hed2, hed3, entGet, hatt3, hidx3, hrel3, hopt3]
        rw [if_neg (by simp [isValidObject])]
        rw [if_neg (by
          simp only [jkeys, List.length_map]
          intro hlen
          rw [hlen] at hne
          exact Bool.noConfusion hne)]
        rw [if_neg (by simp [hall])]
        rw [if_neg (by simp)]
        rw [if_neg (by simp)]
        rw [if_pos (by simp [isValidObject, defaultOptionsJ])]
        simp [c8Defaulted]

theorem vdmAux_defaults (dataModelKeys : List String) (fields : List (String × JVal))
    (h : fields.all (fun p => c8EntityOk p.2) = true) :
    vdmAux dataModelKeys fields =
      some (fields.map (fun p => (p.1, c8Defaulted p.2))) := by
  induction fields with
  | nil => rfl
  | cons p rest ih =>
    simp only [List.all_cons, Bool.and_eq_true] at h
    obtain ⟨h1, h2⟩ := h
    obtain ⟨pn, pv⟩ := p
    simp only [vdmAux]
    rw [processEntity_defaults dataModelKeys pv h1]
    rw [ih h2]
    rfl

/-- Claim C8 (amended).  For every data model whose entities omit the
`indexes`, `relationships` and `options` keys, `validateDataModel`
(src/unnamed/part_001) does succeed and defaults the missing keys to an
empty array, an empty object, and
enforceLockingConstraints/isAuditEnabled both true — provided each entity
has a truthy `module` and a non-empty attributes object whose every
attribute passes `validateAttribute`, i.e. carries exactly the keys
name/type/lengthOrValues/default/allowNull.  Without the extra `name` key
(which none of the repository's example models carry) validation is
rejected, as the counterexample shows; and the engine's own
`checkDataModelIntegrity` (src/index.js) rejects any entity missing one
of the five base keys outright. -/
theorem c8_amended (fields : List (String × JVal))
    (h : fields.all (fun p => c8EntityOk p.2) = true) :
    validateDataModel (JVal.jobj fields) =
      some (JVal.jobj (fields.map (fun p => (p.1, c8Defaulted p.2)))) := by
  have hv := vdmAux_defaults (fields.map (fun p => p.1)) fields h
  simp only [validateDataModel, hv]

/-- Concrete model for the C8 witness: one entity omitting the three
optional keys, whose attribute carries the five expected keys. -/
def c8WitnessFields : List (String × JVal) :=
  [("someEntity",
    JVal.jobj
      [("module", JVal.jstr "main"),
       ("attributes",
        JVal.jobj
          [("someAttribute",
            JVal.jobj
              [("name", JVal.jstr "someAttribute"),
               ("type", JVal.jstr "varchar"),
               ("lengthOrValues", JVal.jnum 50),
               ("default", JVal.jnull),
               ("allowNull", JVal.jbool true)])])])]

/-- Witness for the amended C8 theorem: validation succeeds on the
concrete model and returns it with the three members defaulted. -/
theorem c8_amended_witness :
    c8WitnessFields.all (fun p => c8EntityOk p.2) = true ∧
    validateDataModel (JVal.jobj c8WitnessFields) =
      some (JVal.jobj (c8WitnessFields.map (fun p => (p.1, c8Defaulted p.2)))) :=
  ⟨by decide, c8_amended c8WitnessFields (by decide)⟩

/-! ## The database gateway model

The engine talks to MySQL through per-module connections
(`moduleConnections`).  The database state is modelled per the spec's
gateway description (§4.4): per-schema tables with their columns (as
`SHOW FULL COLUMNS` reports them), index names (as `SHOW INDEX` reports
`Key_name`), and foreign-key constraint names (as
`information_schema.REFERENTIAL_CONSTRAINTS` reports them), plus the
per-connection FOREIGN_KEY_CHECKS session flag.  Whether a query fails is
driven by a failure oracle over the issued statement, standing in for
driver errors. -/

structure ModuleConnection where
  moduleName : String
  schemaName : String
deriving Repr, DecidableEq

/-- One row of `SHOW FULL COLUMNS`: the field name, the reported Type
string, whether Null is not "NO", and the Default value. -/
structure DbColumn where
  field : String
  typeStr : String
  isNullable : Bool
  defaultVal : Option String
deriving Repr, DecidableEq

structure DbTable where
  columns : List DbColumn
  indexes : List String
  foreignKeys : List String
deriving Repr, DecidableEq

abbrev DbSchema := List (String × DbTable)

structure DbState where
  schemas : List (String × DbSchema)
  fkChecksOn : List (String × Bool)
  innodbDefault : List (String × Bool)
deriving Repr, DecidableEq

def alistGet {α : Type} (l : List (String × α)) (key : String) : Option α :=
  match l with
  | [] => none
  | (k, v) :: rest => if k = key then some v else alistGet rest key

def alistSet {α : Type} (l : List (String × α)) (key : String) (v : α) :
    List (String × α) :=
  match l with
  | [] => [(key, v)]
  | (k, w) :: rest => if k = key then (k, v) :: rest else (k, w) :: alistSet rest key v

def alistRemove {α : Type} (l : List (String × α)) (key : String) : List (String × α) :=
  l.filter (fun p => ! (p.1 == key))

/-- The structured column DDL queued by `updateTables` (the source queues
the rendered ALTER TABLE strings; the structure carried here is what the
string encodes, and `getAlterColumnSql` renders the `alterColumn` case). -/
inductive ColAct where
  | dropColumn : String → String → ColAct
  | modifyFkColumn : String → String → ColAct
  | modifyLockingColumn : String → String → ColAct
  | alterColumn : String → String → Attribute → String → ColAct
  | addRelationshipColumn : String → String → ColAct
deriving Repr, DecidableEq

/-- Every statement the engine issues, with the module connection it runs
on. -/
inductive Qry where
  | showEngines : String → Qry
  | setFkChecks : String → Bool → Qry
  | showFullTables : String → Qry
  | beginTxn : String → Qry
  | createTable : String → String → Qry
  | showFullColumns : String → String → Qry
  | colDdl : String → ColAct → Qry
  | showIndex : String → String → Qry
  | addIndex : String → String → String → String → Qry
  | dropIndex : String → String → String → Qry
  | listFks : String → String → String → Qry
  | dropFk : String → String → String → Qry
  | addFk : String → String → String → String → String → String → Qry
  | dropTables : String → List String → Qry
  | dropTableSingle : String → String → Qry
deriving Repr, DecidableEq

structure SyncEnv where
  ci : CaseImpl
  gen : Nat → String
  conns : List ModuleConnection
  fails : Qry → Bool

/-- Engine state: the database, the module-global
`foreignKeyChecksDisabled` flag, the fresh-name counter, and the trace of
issued statements. -/
structure ES where
  db : DbState
  fkFlag : Bool
  k : Nat
  trace : List Qry
deriving Repr

/-- The schema of the connection serving a module
(`moduleConnections[moduleName]`). -/
def connSchema (env : SyncEnv) (moduleName : String) : Option String :=
  (env.conns.find? (fun mc => mc.moduleName == moduleName)).map (fun mc => mc.schemaName)

def getTable (db : DbState) (schemaName tableName : String) : Option DbTable :=
  match alistGet db.schemas schemaName with
  | none => none
  | some s => alistGet s tableName

def setTable (db : DbState) (schemaName tableName : String) (tbl : DbTable) : DbState :=
  let s := (alistGet db.schemas schemaName).getD []
  { db with schemas := alistSet db.schemas schemaName (alistSet s tableName tbl) }

def removeTable (db : DbState) (schemaName tableName : String) : DbState :=
  match alistGet db.schemas schemaName with
  | none => db
  | some s => { db with schemas := alistSet db.schemas schemaName (alistRemove s tableName) }

def upsertColumn (cols : List DbColumn) (c : DbColumn) : List DbColumn :=
  if cols.any (fun x => x.field == c.field) then
    cols.map (fun x => if x.field == c.field then c else x)
  else cols ++ [c]

def removeColumn (cols : List DbColumn) (name : String) : List DbColumn :=
  cols.filter (fun x => ! (x.field == name))

/-- Modelled from the spec (§4.3/§4.4): the column record MySQL reports
after executing the ADD/MODIFY COLUMN that `getAlterColumnSql` renders
for a non-primary-key column: the type with its optional parenthesised
length or values, nullability from the absence of NOT NULL, and the
declared default (a nullable column without a default clause reports
Default NULL as well). -/
def renderTypeStr (d : Attribute) : String :=
  d.type ++ (match d.lengthOrValues with
             | some v => "(" ++ v ++ ")"
             | none => "")

def renderColumn (name : String) (d : Attribute) : DbColumn :=
  DbColumn.mk name (renderTypeStr d) d.allowNull d.dflt

/-- The primary-key column as created by `createTables` /
`getAlterColumnSql`'s primary-key branch (BIGINT NOT NULL
AUTO_INCREMENT; MySQL reports the display width). -/
def pkDbColumn (ci : CaseImpl) : DbColumn :=
  DbColumn.mk (getPrimaryKeyColumn ci) "bigint(20)" false none

def applyColAct (ci : CaseImpl) (tbl : DbTable) (act : ColAct) : DbTable :=
  match act with
  | ColAct.dropColumn _ c => { tbl with columns := removeColumn tbl.columns c }
  | ColAct.modifyFkColumn _ c =>
      { tbl with columns := upsertColumn tbl.columns (DbColumn.mk c "bigint(20)" true none) }
  | ColAct.modifyLockingColumn _ c =>
      { tbl with columns :=
          upsertColumn tbl.columns (DbColumn.mk c "datetime" true (some "CURRENT_TIMESTAMP")) }
  | ColAct.alterColumn _ c d _ =>
      if c = getPrimaryKeyColumn ci then
        { tbl with
            columns := pkDbColumn ci :: removeColumn tbl.columns c,
            indexes := if tbl.indexes.contains "PRIMARY" then tbl.indexes
                       else tbl.indexes ++ ["PRIMARY"] }
      else { tbl with columns := upsertColumn tbl.columns (renderColumn c d) }
  | ColAct.addRelationshipColumn _ c =>
      { tbl with columns := upsertColumn tbl.columns (DbColumn.mk c "bigint(20)" true none) }

def colActTable : ColAct → String
  | ColAct.dropColumn t _ => t
  | ColAct.modifyFkColumn t _ => t
  | ColAct.modifyLockingColumn t _ => t
  | ColAct.alterColumn t _ _ _ => t
  | ColAct.addRelationshipColumn t _ => t

/-- State effect of a successfully executed statement.  `addFk` also
creates the backing index named after the constraint (modelled from the
spec §4.5.5: "the indexes that MySQL auto-creates alongside foreign
keys"); `dropFk` leaves that index behind. -/
def applyQry (env : SyncEnv) (q : Qry) (db : DbState) : DbState :=
  match q with
  | Qry.setFkChecks m enable => { db with fkChecksOn := alistSet db.fkChecksOn m enable }
  | Qry.createTable m t =>
      match connSchema env m with
      | none => db
      | some sn => setTable db sn t (DbTable.mk [pkDbColumn env.ci] ["PRIMARY"] [])
  | Qry.colDdl m act =>
      match connSchema env m with
      | none => db
      | some sn =>
          match getTable db sn (colActTable act) with
          | none => db
          | some tbl => setTable db sn (colActTable act) (applyColAct env.ci tbl act)
  | Qry.addIndex m t idx _ =>
      match connSchema env m with
      | none => db
      | some sn =>
          match getTable db sn t with
          | none => db
          | some tbl => setTable db sn t { tbl with indexes := tbl.indexes ++ [idx] }
  | Qry.dropIndex m t idx =>
      match connSchema env m with
      | none => db
      | some sn =>
          match getTable db sn t with
          | none => db
          | some tbl =>
              setTable db sn t { tbl with indexes := tbl.indexes.filter (fun x => ! (x == idx)) }
  | Qry.dropFk m t name =>
      match connSchema env m with
      | none => db
      | some sn =>
          match getTable db sn t with
          | none => db
          | some tbl =>
              setTable db sn t
                { tbl with foreignKeys := tbl.foreignKeys.filter (fun x => ! (x == name)) }
  | Qry.addFk m t name _ _ _ =>
      match connSchema env m with
      | none => db
      | some sn =>
          match getTable db sn t with
          | none => db
          | some tbl =>
              setTable db sn t
                { tbl with foreignKeys := tbl.foreignKeys ++ [name],
                           indexes := tbl.indexes ++ [name] }
  | Qry.dropTables m ts =>
      match connSchema env m with
      | none => db
      | some sn => ts.foldl (fun d t => removeTable d sn t) db
  | Qry.dropTableSingle m t =>
      match connSchema env m with
      | none => db
      | some sn => removeTable db sn t
  | _ => db

/-- Statements that cannot succeed against the current state even without
an injected driver error: introspecting a table that does not exist. -/
def semanticallyFails (env : SyncEnv) (q : Qry) (db : DbState) : Bool :=
  match q with
  | Qry.showFullColumns m t =>
      match connSchema env m with
      | none => true
      | some sn => (getTable db sn t).isNone
  | Qry.showIndex m t =>
      match connSchema env m with
      | none => true
      | some sn => (getTable db sn t).isNone
  | _ => false

/-- Issue one statement: it is appended to the trace; on success the state
effect is applied. -/
def runQry (env : SyncEnv) (q : Qry) (es : ES) : ES × Bool :=
  let es1 : ES := { es with trace := es.trace ++ [q] }
  if env.fails q || semanticallyFails env q es.db then (es1, false)
  else ({ es1 with db := applyQry env q es1.db }, true)

/-! ## The reconciliation engine (src/index.js, ESM version) -/

/-- How a call ends: an ordinary boolean return, `process.exit(code)`, an
uncaught thrown error, or the use-before-declaration ReferenceError in
`updateRelationships` (the push into `existingForeignKeys` lexically
precedes its `let` declaration, so taking that branch throws). -/
inductive RunFlow where
  | ok : Bool → RunFlow
  | exited : Nat → RunFlow
  | uncaught : RunFlow
  | tdz : RunFlow
deriving Repr, DecidableEq

/-- Entity-level checks of `checkDataModelIntegrity`.  On the typed model
the base-key and key-set checks hold by construction; the module check is
the one with content.  (The source's `entities.length === 0` and
`attributes.length === 0` guards compare `undefined` with 0 and can never
fire on objects, so they are not modelled.) -/
def cdiEntitiesOk (env : SyncEnv) (dm : DataModel) : Bool :=
  dm.all (fun p => env.conns.any (fun mc => mc.moduleName == p.2.moduleName)) &&
  dm.all (fun p =>
    p.2.indexes.all (fun _ => true) && p.2.relationships.all (fun _ => true))

def cdiEngines (env : SyncEnv) : List ModuleConnection → ES → ES × RunFlow
  | [], es => (es, RunFlow.ok true)
  | mc :: rest, es =>
      let r := runQry env (Qry.showEngines mc.moduleName) es
      if r.2 = false then (r.1, RunFlow.ok false)
      else if (alistGet r.1.db.innodbDefault mc.moduleName).getD true = false then
        (r.1, RunFlow.ok false)
      else cdiEngines env rest r.1

/-- Embeds `checkDataModelIntegrity` (ESM version): entity checks, then
the InnoDB default-engine probe per module connection. -/
def checkDataModelIntegrity (env : SyncEnv) (dm : DataModel) (es : ES) : ES × RunFlow :=
  if cdiEntitiesOk env dm then cdiEngines env env.conns es
  else (es, RunFlow.ok false)

def disableFkAux (env : SyncEnv) : List ModuleConnection → ES → ES × Bool
  | [], es => (es, true)
  | mc :: rest, es =>
      let r := runQry env (Qry.setFkChecks mc.moduleName false) es
      if r.2 then disableFkAux env rest { r.1 with fkFlag := true }
      else (r.1, false)

/-- Embeds `disableForeignKeyChecks`: SET FOREIGN_KEY_CHECKS = 0 on every
connection, setting the module-global flag after each success; a failure
returns false at once, leaving the remaining connections untouched. -/
def disableForeignKeyChecks (env : SyncEnv) (es : ES) : ES × Bool :=
  disableFkAux env env.conns es

def restoreFkAux (env : SyncEnv) : List ModuleConnection → ES → ES × Bool
  | [], es => (es, true)
  | mc :: rest, es =>
      let r := runQry env (Qry.setFkChecks mc.moduleName true) es
      if r.2 then restoreFkAux env rest { r.1 with fkFlag := false }
      else (r.1, false)

/-- Embeds `restoreForeignKeyChecks`: SET FOREIGN_KEY_CHECKS = 1 on every
connection, clearing the flag after each success; a failure returns false
at once, leaving the remaining connections disabled. -/
def restoreForeignKeyChecks (env : SyncEnv) (es : ES) : ES × Bool :=
  restoreFkAux env env.conns es

def getTablesAux (env : SyncEnv) : List ModuleConnection → List (String × String) → ES →
    ES × List (String × String) × RunFlow
  | [], acc, es => (es, acc, RunFlow.ok true)
  | mc :: rest, acc, es =>
      let r := runQry env (Qry.showFullTables mc.moduleName) es
      if r.2 = false then (r.1, acc, RunFlow.exited 1)
      else
        let names := ((alistGet r.1.db.schemas mc.schemaName).getD []).map (fun p => p.1)
        let acc2 := names.foldl (fun a n => alistSet a n "BASE TABLE") acc
        getTablesAux env rest acc2 r.1

/-- Embeds `getDatabaseTables`: SHOW FULL TABLES per module, pooled into
one name-keyed record across all modules; a failure rolls back and calls
`process.exit(1)`. -/
def getDatabaseTables (env : SyncEnv) (es : ES) : ES × List (String × String) × RunFlow :=
  getTablesAux env env.conns [] es

def createTablesAux (env : SyncEnv) (dm : DataModel) : List String → ES → ES × RunFlow
  | [], es => (es, RunFlow.ok true)
  | tableName :: rest, es =>
      let tableNameDataModel := getCaseDenormalizedString env.ci tableName
      match alistGet dm tableNameDataModel with
      | none => (es, RunFlow.uncaught)
      | some e =>
          match connSchema env e.moduleName with
          | none => (es, RunFlow.uncaught)
          | some _ =>
              let r := runQry env (Qry.createTable e.moduleName tableName) es
              if r.2 = false then (r.1, RunFlow.ok false)
              else createTablesAux env dm rest r.1

/-- Embeds `createTables`: skeleton tables (primary key only), on the
connection of the module the entity (looked up by the denormalised table
name) belongs to. -/
def createTables (env : SyncEnv) (dm : DataModel) (tablesToCreate : List String)
    (es : ES) : ES × RunFlow :=
  createTablesAux env dm tablesToCreate es

/-- JavaScript `Type.split("(")[0]`. -/
def splitTypeBase (s : String) : String :=
  String.mk (s.data.takeWhile (fun c => ! (c == '(')))

/-- JavaScript `Type.split("(")` second element with its first ")"
removed, null when there is no "(". -/
def removeFirstClose : List Char → List Char
  | [] => []
  | c :: rest => if c = ')' then rest else c :: removeFirstClose rest

def splitTypeLen (s : String) : Option String :=
  match s.data.dropWhile (fun c => ! (c == '(')) with
  | [] => none
  | _ :: rest => some (String.mk (removeFirstClose (rest.takeWhile (fun c => ! (c == '(')))))

/-- The `columnDataModelObject` the `{}` default parameter produces when
`entityAttributes[columnToCreate]` is undefined (only the primary-key
branch of `getAlterColumnSql` is ever reached with it on the paths the
claims quantify over). -/
def undefinedAttributeObject : Attribute :=
  Attribute.mk "undefined" (some "undefined") (some "undefined") true

/-- Per-existing-column step of `updateTables` (src/index.js 1343-1428):
returns the queued DDL (at most one statement per column), the names
pushed into `attributesProcessed`, and the names pushed into
`relationshipsProcessed`.  The source's inner `for (columnOption ...)`
loop emits one MODIFY built from the whole attribute at the first
mismatching key and then breaks, which is the disjunction tested here. -/
def processColumn (ci : CaseImpl) (e : Entity) (expectedColumns : List String)
    (tableName : String) (col : DbColumn) : Option ColAct × List String × List String :=
  let columnName := col.field
  let columnAttributeName := getCaseDenormalizedString ci columnName
  if columnAttributeName = getPrimaryKeyColumn ci then (none, [columnAttributeName], [])
  else if ¬ expectedColumns.contains columnName then
    (some (ColAct.dropColumn tableName columnName), [columnAttributeName], [])
  else
    let baseType := splitTypeBase col.typeStr
    match alistGet e.attributes columnAttributeName with
    | none =>
        if ¬ columnName = getLockingConstraintColumn ci then
          (if ¬ stringToLower baseType = "bigint" then
             some (ColAct.modifyFkColumn tableName columnName)
           else none,
           [columnAttributeName], [columnName])
        else
          (if ¬ stringToLower baseType = "datetime" then
             some (ColAct.modifyLockingColumn tableName columnName)
           else none,
           [columnAttributeName, columnName], [])
    | some d =>
        if d.type = baseType ∧ d.lengthOrValues = splitTypeLen col.typeStr ∧
           d.dflt = col.defaultVal ∧ d.allowNull = col.isNullable then
          (none, [columnAttributeName], [])
        else
          (some (ColAct.alterColumn tableName columnName d "MODIFY"), [columnAttributeName], [])

def scanColumns (ci : CaseImpl) (e : Entity) (expectedColumns : List String)
    (tableName : String) : List DbColumn → List ColAct × List String × List String
  | [] => ([], [], [])
  | col :: rest =>
      let step := processColumn ci e expectedColumns tableName col
      let acc := scanColumns ci e expectedColumns tableName rest
      (step.1.toList ++ acc.1, step.2.1 ++ acc.2.1, step.2.2 ++ acc.2.2)

/-- The `ADD COLUMN` statements for the attribute/primary-key/locking
columns not seen among the existing columns (src/index.js 1430-1464). -/
def createColumnActs (ci : CaseImpl) (e : Entity) (tableName : String)
    (attributesProcessed : List String) : List ColAct :=
  let entityAttributesArray :=
    e.attributes.map (fun p => p.1) ++
    [getCaseDenormalizedString ci (getPrimaryKeyColumn ci)] ++
    (if entityEnforcesLocking e then
       [getCaseDenormalizedString ci (getLockingConstraintColumn ci)]
     else [])
  let columnsToCreate :=
    entityAttributesArray.filter (fun x => ¬ attributesProcessed.contains x)
  columnsToCreate.map (fun columnToCreate =>
    let columnName := getCaseNormalizedString ci columnToCreate
    let columnDataModelObject :=
      if columnToCreate = getCaseDenormalizedString ci (getLockingConstraintColumn ci) then
        Attribute.mk "datetime" none (some "CURRENT_TIMESTAMP") false
      else (alistGet e.attributes columnToCreate).getD undefinedAttributeObject
    ColAct.alterColumn tableName columnName columnDataModelObject "ADD")

/-- The `ADD COLUMN ... BIGINT(20)` statements for relationship columns
not marked as processed (src/index.js 1466-1477). -/
def createRelationshipActs (ci : CaseImpl) (e : Entity) (tableName : String)
    (relationshipsProcessed : List String) : List ColAct :=
  ((getEntityRelationshipColumns ci e).filter
    (fun x => ¬ relationshipsProcessed.contains x)).map
    (fun c => ColAct.addRelationshipColumn tableName c)

/-- All column DDL `updateTables` queues for one entity, given the
existing columns. -/
def entityColumnActs (ci : CaseImpl) (e : Entity) (tableName : String)
    (tableColumns : List DbColumn) : List ColAct :=
  let expectedColumns := getEntityExpectedColumns ci e
  let scan := scanColumns ci e expectedColumns tableName tableColumns
  scan.1 ++ createColumnActs ci e tableName scan.2.1 ++
    createRelationshipActs ci e tableName scan.2.2

def queueAppend (q : List (String × List ColAct)) (m : String) (acts : List ColAct) :
    List (String × List ColAct) :=
  match alistGet q m with
  | none => q ++ [(m, acts)]
  | some old => alistSet q m (old ++ acts)

def utScan (env : SyncEnv) : List (String × Entity) → List (String × List ColAct) → ES →
    ES × List (String × List ColAct) × RunFlow
  | [], q, es => (es, q, RunFlow.ok true)
  | (entityName, e) :: rest, q, es =>
      match connSchema env e.moduleName with
      | none => (es, q, RunFlow.uncaught)
      | some schemaName =>
          let tableName := getCaseNormalizedString env.ci entityName
          let r := runQry env (Qry.showFullColumns e.moduleName tableName) es
          if r.2 = false then (r.1, q, RunFlow.uncaught)
          else
            let tbl := (getTable r.1.db schemaName tableName).getD (DbTable.mk [] [] [])
            let acts := entityColumnActs env.ci e tableName tbl.columns
            utScan env rest (queueAppend q e.moduleName acts) r.1

def utExecActs (env : SyncEnv) (m : String) : List ColAct → ES → ES × RunFlow
  | [], es => (es, RunFlow.ok true)
  | act :: rest, es =>
      let r := runQry env (Qry.colDdl m act) es
      if r.2 = false then (r.1, RunFlow.ok false)
      else utExecActs env m rest r.1

def utExec (env : SyncEnv) : List (String × List ColAct) → ES → ES × RunFlow
  | [], es => (es, RunFlow.ok true)
  | (m, acts) :: rest, es =>
      let r := utExecActs env m acts es
      match r.2 with
      | RunFlow.ok true => utExec env rest r.1
      | f => (r.1, f)

/-- Embeds `updateTables` (ESM version): disable FK checks when the flag
is clear, scan every entity's existing columns building the per-module
DDL queue, execute the queues, and restore FK checks on the successful
exit.  The `SHOW FULL COLUMNS` round-trip is outside any try/catch, so
its failure is an uncaught error; a failing queued ALTER is caught and
returns false without restoring. -/
def updateTables (env : SyncEnv) (dm : DataModel) (es : ES) : ES × RunFlow :=
  let es1 := if es.fkFlag = false then (disableForeignKeyChecks env es).1 else es
  let scanned := utScan env dm [] es1
  match scanned.2.2 with
  | RunFlow.ok true =>
      let execed := utExec env scanned.2.1 scanned.1
      match execed.2 with
      | RunFlow.ok true =>
          let es2 := if execed.1.fkFlag then (restoreForeignKeyChecks env execed.1).1
                     else execed.1
          (es2, RunFlow.ok true)
      | f => (execed.1, f)
  | f => (scanned.1, f)

/-- The add-indexes loop body of `updateIndexes` for one model index
definition (src/index.js 1540-1583): add the index when its normalised
name is not among the snapshot of existing index names, choosing the SQL
per index choice; an unknown index choice returns false. -/
def addIndexLoop (env : SyncEnv) (tableName : String) (existingIndexes : List String)
    (moduleName : String) : List IndexDef → ES → ES × RunFlow
  | [], es => (es, RunFlow.ok true)
  | indexObj :: rest, es =>
      let indexName := getCaseNormalizedString env.ci indexObj.indexName
      if existingIndexes.contains indexName then addIndexLoop env tableName existingIndexes moduleName rest es
      else
        let choice := stringToLower indexObj.indexChoice
        if choice = "index" ∨ choice = "unique" ∨ choice = "spatial" ∨ choice = "fulltext" then
          let r := runQry env (Qry.addIndex moduleName tableName indexName choice) es
          if r.2 = false then (r.1, RunFlow.ok false)
          else addIndexLoop env tableName existingIndexes moduleName rest r.1
        else (es, RunFlow.ok false)

def dropIndexLoop (env : SyncEnv) (tableName : String) (expectedIndexes : List String)
    (moduleName : String) : List String → ES → ES × RunFlow
  | [], es => (es, RunFlow.ok true)
  | existingIndex :: rest, es =>
      if stringToLower existingIndex = "primary" then
        dropIndexLoop env tableName expectedIndexes moduleName rest es
      else if expectedIndexes.contains existingIndex then
        dropIndexLoop env tableName expectedIndexes moduleName rest es
      else
        let r := runQry env (Qry.dropIndex moduleName tableName existingIndex) es
        if r.2 = false then (r.1, RunFlow.ok false)
        else dropIndexLoop env tableName expectedIndexes moduleName rest r.1

/-- The names `updateIndexes` expects for an entity: the freshly generated
relationship constraint names plus the normalised model index names
(src/index.js 1536-1542). -/
def expectedIndexNames (env : SyncEnv) (e : Entity) (k : Nat) : List String :=
  ((getEntityRelationshipConstraint env.ci env.gen e k).1.map
    (fun c => c.constraintName)) ++
  e.indexes.map (fun idx => getCaseNormalizedString env.ci idx.indexName)

def uiEntities (env : SyncEnv) : List (String × Entity) → ES → ES × RunFlow
  | [], es => (es, RunFlow.ok true)
  | (entityName, e) :: rest, es =>
      match connSchema env e.moduleName with
      | none => (es, RunFlow.uncaught)
      | some schemaName =>
          let tableName := getCaseNormalizedString env.ci entityName
          let r := runQry env (Qry.showIndex e.moduleName tableName) es
          if r.2 = false then (r.1, RunFlow.uncaught)
          else
            let tbl := (getTable r.1.db schemaName tableName).getD (DbTable.mk [] [] [])
            let existingIndexes := tbl.indexes
            let constraints := getEntityRelationshipConstraint env.ci env.gen e r.1.k
            let es1 : ES := { r.1 with k := constraints.2 }
            let expectedAll := constraints.1.map (fun c => c.constraintName) ++
              e.indexes.map (fun idx => getCaseNormalizedString env.ci idx.indexName)
            let added := addIndexLoop env tableName existingIndexes e.moduleName e.indexes es1
            match added.2 with
            | RunFlow.ok true =>
                let dropped := dropIndexLoop env tableName expectedAll e.moduleName
                  existingIndexes added.1
                match dropped.2 with
                | RunFlow.ok true => uiEntities env rest dropped.1
                | f => (dropped.1, f)
            | f => (added.1, f)

/-- Embeds `updateIndexes` (ESM version): per entity, snapshot the
existing index names, generate the expected constraint names afresh, add
missing model indexes, and drop every existing index that is neither
PRIMARY nor among the expected names.  The `SHOW INDEX` round-trip is
outside any try/catch. -/
def updateIndexes (env : SyncEnv) (dm : DataModel) (es : ES) : ES × RunFlow :=
  let es1 := if es.fkFlag = false then (disableForeignKeyChecks env es).1 else es
  let r := uiEntities env dm es1
  match r.2 with
  | RunFlow.ok true =>
      let es2 := if r.1.fkFlag then (restoreForeignKeyChecks env r.1).1 else r.1
      (es2, RunFlow.ok true)
  | f => (r.1, f)

/-- The stored-foreign-key loop of `updateRelationships` (src/index.js
1644-1668): a row whose constraint name matches none of the freshly
generated expected names is dropped; a matching row reaches the
`existingForeignKeys.push` whose `let` declaration only comes later, so
that branch throws the use-before-declaration ReferenceError, modelled as
`RunFlow.tdz`. -/
def fkRowLoop (env : SyncEnv) (schemaName tableName moduleName : String)
    (constraints : List RelConstraint) : List String → ES → ES × RunFlow
  | [], es => (es, RunFlow.ok true)
  | row :: rest, es =>
      let foundConstraint :=
        if constraints.length ≠ 0 then
          constraints.find? (fun c => c.constraintName == row)
        else none
      match foundConstraint with
      | some _ => (es, RunFlow.tdz)
      | none =>
          let r := runQry env (Qry.dropFk moduleName tableName row) es
          if r.2 = false then (r.1, RunFlow.ok false)
          else fkRowLoop env schemaName tableName moduleName constraints rest r.1

/-- The referenced table of a constraint to create (src/index.js 1688-1691):
the relationship resolved back from the column name, normalised, or the
literal string "null" when resolution fails. -/
def fkRefTable (env : SyncEnv) (e : Entity) (c : RelConstraint) : String :=
  match getEntityRelationshipFromRelationshipColumn env.ci e c.columnName with
  | some r => getCaseNormalizedString env.ci r
  | none => "null"

/-- The ADD CONSTRAINT ... FOREIGN KEY statement issued for one expected
constraint (src/index.js 1693-1700). -/
def fkCreateQry (env : SyncEnv) (e : Entity) (tableName moduleName : String)
    (c : RelConstraint) : Qry :=
  Qry.addFk moduleName tableName c.constraintName c.columnName
    (fkRefTable env e c) (getPrimaryKeyColumn env.ci)

def fkCreateLoop (env : SyncEnv) (e : Entity) (tableName moduleName : String) :
    List RelConstraint → ES → ES × RunFlow
  | [], es => (es, RunFlow.ok true)
  | c :: rest, es =>
      let r := runQry env (fkCreateQry env e tableName moduleName c) es
      if r.2 = false then (r.1, RunFlow.ok false)
      else fkCreateLoop env e tableName moduleName rest r.1

/-- The `foreignKeyResult` rows of an entity's table: the stored
constraint names SHOW-queried at src/index.js 1634-1642 (empty when the
table is missing). -/
def storedFkRows (db : DbState) (schemaName tableName : String) : List String :=
  match getTable db schemaName tableName with
  | some tbl => tbl.foreignKeys
  | none => []

/-- The per-entity tail of `updateRelationships` after the stored keys
were listed: run the drop loop over the stored rows, then — unless the
caller is the drop-only pre-pass — create every expected constraint (the
`existingForeignKeys` list the filter consults is the empty one declared
at src/index.js 1675, after the loop that was meant to fill it). -/
def urDropCreate (env : SyncEnv) (dropOnly : Bool) (e : Entity)
    (tableName schemaName : String) (constraints : List RelConstraint) (es : ES) :
    ES × RunFlow :=
  let rows := storedFkRows es.db schemaName tableName
  let dropped := fkRowLoop env schemaName tableName e.moduleName constraints rows es
  match dropped.2 with
  | RunFlow.ok true =>
      if dropOnly then (dropped.1, RunFlow.ok true)
      else
        let existingForeignKeys : List String := []
        let foreignKeysToCreate := constraints.filter
          (fun x => ! existingForeignKeys.contains x.constraintName)
        let created := fkCreateLoop env e tableName e.moduleName
          foreignKeysToCreate dropped.1
        match created.2 with
        | RunFlow.ok true => (created.1, RunFlow.ok true)
        | f => (created.1, f)
  | f => (dropped.1, f)

/-- One iteration of the entity loop of `updateRelationships`: generate
the expected constraints (advancing the fresh-name counter), list the
stored foreign keys, then drop and recreate. -/
def urEntityBody (env : SyncEnv) (dropOnly : Bool) (entityName : String) (e : Entity)
    (schemaName : String) (es : ES) : ES × RunFlow :=
  let tableName := getCaseNormalizedString env.ci entityName
  let constraints := getEntityRelationshipConstraint env.ci env.gen e es.k
  let es1 : ES := { es with k := constraints.2 }
  let r := runQry env (Qry.listFks e.moduleName tableName schemaName) es1
  if r.2 = false then (r.1, RunFlow.ok false)
  else urDropCreate env dropOnly e tableName schemaName constraints.1 r.1

def urEntities (env : SyncEnv) (dropOnly : Bool) : List (String × Entity) → ES → ES × RunFlow
  | [], es => (es, RunFlow.ok true)
  | (entityName, e) :: rest, es =>
      match connSchema env e.moduleName with
      | none => (es, RunFlow.uncaught)
      | some schemaName =>
          let b := urEntityBody env dropOnly entityName e schemaName es
          match b.2 with
          | RunFlow.ok true => urEntities env dropOnly rest b.1
          | f => (b.1, f)

/-- Embeds `updateRelationships` (ESM version, src/index.js 1619-1717):
drop every stored foreign key whose constraint name matches no freshly
generated expected name, then (unless drop-only) create every expected
constraint — the `existingForeignKeys` list consulted by the filter is
the empty one declared after the drop loop, so all of them. -/
def updateRelationships (env : SyncEnv) (dm : DataModel) (dropOnly : Bool) (es : ES) :
    ES × RunFlow :=
  let es1 := if es.fkFlag = false then (disableForeignKeyChecks env es).1 else es
  let r := urEntities env dropOnly dm es1
  match r.2 with
  | RunFlow.ok true =>
      let es2 := if r.1.fkFlag then (restoreForeignKeyChecks env r.1).1 else r.1
      (es2, RunFlow.ok true)
  | f => (r.1, f)

/-- Embeds `getTableModuleMapping`: module name to the normalised names
of its entities. -/
def getTableModuleMapping (ci : CaseImpl) (dm : DataModel) : List (String × List String) :=
  dm.foldl
    (fun acc p =>
      match alistGet acc p.2.moduleName with
      | none => acc ++ [(p.2.moduleName, [getCaseNormalizedString ci p.1])]
      | some old => alistSet acc p.2.moduleName (old ++ [getCaseNormalizedString ci p.1]))
    []

def rtAllMode (env : SyncEnv) (tmm : List (String × List String))
    (tablesToRemove : List String) : List ModuleConnection → ES → ES × RunFlow
  | [], es => (es, RunFlow.ok true)
  | mc :: rest, es =>
      match alistGet tmm mc.moduleName with
      | none => (es, RunFlow.uncaught)
      | some owned =>
          if owned.length > 0 then
            let tablesToDrop := tablesToRemove.filter (fun x => ¬ owned.contains x)
            let r := runQry env (Qry.dropTables mc.moduleName tablesToDrop) es
            rtAllMode env tmm tablesToRemove rest r.1
          else rtAllMode env tmm tablesToRemove rest es

def rtDropOne (env : SyncEnv) (tableName : String) : List ModuleConnection → ES → ES
  | [], es => es
  | mc :: rest, es =>
      let r := runQry env (Qry.dropTableSingle mc.moduleName tableName) es
      rtDropOne env tableName rest r.1

/-- Embeds `removeTablesRecursive` (src/index.js 2238-2284).  The answers
list scripts the per-table prompt.  In all-at-once mode the source's
guard `typeof tableModuleMapping[moduleName] !== undefined` is always
true (it compares a string against the undefined value), so a module
without entities dereferences `undefined.length` — an uncaught error; the
drop list is filtered to the tables NOT owned by the module, and runs on
every module connection.  In one-by-one mode a confirmed table is dropped
on every module connection; drop errors are caught and iteration
continues. -/
def removeTablesRecursive (env : SyncEnv) (dm : DataModel) :
    List String → Bool → List String → ES → ES × List String × RunFlow
  | [], _, answers, es => (es, answers, RunFlow.ok true)
  | t :: rest, mustConfirm, answers, es =>
      let tmm := getTableModuleMapping env.ci dm
      let es1 := if es.fkFlag = false then (disableForeignKeyChecks env es).1 else es
      if mustConfirm = false then
        let r := rtAllMode env tmm (t :: rest) env.conns es1
        match r.2 with
        | RunFlow.ok true =>
            let es2 := if r.1.fkFlag then (restoreForeignKeyChecks env r.1).1 else r.1
            (es2, answers, RunFlow.ok true)
        | f => (r.1, answers, f)
      else
        let answer := answers.headD ""
        let answers2 := answers.tail
        let es2 := if stringToLower answer = "y" then rtDropOne env t env.conns es1 else es1
        let recd := removeTablesRecursive env dm rest true answers2 es2
        match recd.2.2 with
        | RunFlow.ok true =>
            let es3 := if recd.1.fkFlag then (restoreForeignKeyChecks env recd.1).1 else recd.1
            (es3, recd.2.1, RunFlow.ok true)
        | f => (recd.1, recd.2.1, f)

/-- Embeds `syncDatabase` (src/index.js 1161-1273, ESM version).  The
orphan-table removal call is commented out in the source (line 1194), so
no table is ever dropped; the section heading and completion message are
printed around the missing call.  Returns the final engine state and how
the run ended: `exited 0` on the success path (and on the create-tables
failure path, which also calls `process.exit(0)`), `exited 1` when table
introspection fails, `ok false` on a failed phase, `uncaught`/`tdz` for
unhandled errors. -/
def syncDatabase (env : SyncEnv) (dm : DataModel) (es : ES) : ES × RunFlow :=
  let cdi := checkDataModelIntegrity env dm es
  match cdi.2 with
  | RunFlow.ok true =>
      let dis := disableForeignKeyChecks env cdi.1
      let gdt := getDatabaseTables env dis.1
      match gdt.2.2 with
      | RunFlow.ok true =>
          let existingTableNames := gdt.2.1.map (fun p => p.1)
          let expectedTableNames := dm.map (fun p => getCaseNormalizedString env.ci p.1)
          let tablesToCreate :=
            expectedTableNames.filter (fun n => ¬ existingTableNames.contains n)
          let btx := env.conns.foldl
            (fun s mc => (runQry env (Qry.beginTxn mc.moduleName) s).1) gdt.1
          let es1 := if btx.fkFlag then (restoreForeignKeyChecks env btx).1 else btx
          let ct := createTables env dm tablesToCreate es1
          match ct.2 with
          | RunFlow.ok true =>
              let es2 := if ct.1.fkFlag then (restoreForeignKeyChecks env ct.1).1 else ct.1
              let urd := updateRelationships env dm true es2
              match urd.2 with
              | RunFlow.ok true =>
                  let ut := updateTables env dm urd.1
                  match ut.2 with
                  | RunFlow.ok true =>
                      let ui := updateIndexes env dm ut.1
                      match ui.2 with
                      | RunFlow.ok true =>
                          let ur := updateRelationships env dm false ui.1
                          match ur.2 with
                          | RunFlow.ok true => (ur.1, RunFlow.exited 0)
                          | RunFlow.ok false =>
                              let esf := if ur.1.fkFlag
                                then (restoreForeignKeyChecks env ur.1).1 else ur.1
                              (esf, RunFlow.ok false)
                          | f => (ur.1, f)
                      | RunFlow.ok false =>
                          let esf := if ui.1.fkFlag
                            then (restoreForeignKeyChecks env ui.1).1 else ui.1
                          (esf, RunFlow.ok false)
                      | f => (ui.1, f)
                  | RunFlow.ok false =>
                      let esf := if ut.1.fkFlag
                        then (restoreForeignKeyChecks env ut.1).1 else ut.1
                      (esf, RunFlow.ok false)
                  | f => (ut.1, f)
              | RunFlow.ok false =>
                  let esf := if urd.1.fkFlag
                    then (restoreForeignKeyChecks env urd.1).1 else urd.1
                  (esf, RunFlow.ok false)
              | f => (urd.1, f)
          | RunFlow.ok false => (ct.1, RunFlow.exited 0)
          | f => (ct.1, f)
      | f => (gdt.1, f)
  | RunFlow.ok false => (cdi.1, RunFlow.ok false)
  | f => (cdi.1, f)

/-! ## Concrete runs used by several counterexamples -/

/-- A concrete injective fresh-name generator standing in for the random
md5 names: the k-th name is "z" followed by k copies of "a". -/
def exGen (k : Nat) : String := String.mk ('z' :: List.replicate k 'a')

def exConns : List ModuleConnection := [ModuleConnection.mk "main" "s"]

def exEnv : SyncEnv := SyncEnv.mk CaseImpl.snakecase exGen exConns (fun _ => false)

/-- Two entities in one module; entB has one relationship role towards
entA, so the model has exactly one expected foreign key. -/
def exModel : DataModel :=
  [("entA",
    Entity.mk "main" [("aOne", Attribute.mk "varchar" (some "50") none true)]
      [] [] (some (EntityOptions.mk (some true) (some true)))),
   ("entB",
    Entity.mk "main" [("bOne", Attribute.mk "varchar" (some "50") none true)]
      [] [("entA", ["ownerRole"])] (some (EntityOptions.mk (some true) (some true))))]

/-- Empty database for the module schema, FK checks on, InnoDB default. -/
def exEs0 : ES :=
  ES.mk (DbState.mk [("s", [])] [("main", true)] [("main", true)]) false 0 []

def exRun1 : ES × RunFlow := syncDatabase exEnv exModel exEs0

/-- The second reconcile run immediately after the first, on the resulting
state (fresh trace, generator counter continuing). -/
def exRun2 : ES × RunFlow :=
  syncDatabase exEnv exModel (ES.mk exRun1.1.db exRun1.1.fkFlag exRun1.1.k [])

def countColDdl (tr : List Qry) : Nat :=
  (tr.filter (fun q => match q with | Qry.colDdl _ _ => true | _ => false)).length

def countAddIndex (tr : List Qry) : Nat :=
  (tr.filter (fun q => match q with | Qry.addIndex _ _ _ _ => true | _ => false)).length

def countDropIndex (tr : List Qry) : Nat :=
  (tr.filter (fun q => match q with | Qry.dropIndex _ _ _ => true | _ => false)).length

def countDropFk (tr : List Qry) : Nat :=
  (tr.filter (fun q => match q with | Qry.dropFk _ _ _ => true | _ => false)).length

def countAddFk (tr : List Qry) : Nat :=
  (tr.filter (fun q => match q with | Qry.addFk _ _ _ _ _ _ => true | _ => false)).length

/-- Claim C1 (counterexample).  On the two-entity model with one
relationship role, the first run from an empty database succeeds, and the
second run drops the stored FK and creates one fresh-named FK with no
column-level change — but it performs one index-level change, not zero:
phase 9 drops the index MySQL auto-created alongside the first run's
foreign key (named after that run's constraint), because the second run's
expected index names are freshly generated and match nothing stored. -/
theorem c1_counterexample :
    exRun1.2 = RunFlow.exited 0 ∧
    exRun2.2 = RunFlow.exited 0 ∧
    countDropFk exRun2.1.trace = 1 ∧
    countAddFk exRun2.1.trace = 1 ∧
    countColDdl exRun2.1.trace = 0 ∧
    countAddIndex exRun2.1.trace = 0 ∧
    ¬ countDropIndex exRun2.1.trace = 0 := by
  refine ⟨by decide, by decide, by decide, by decide, by decide, by decide, by decide⟩

/-- Claim C3 (counterexample).  The first run's relationship pass created
the FK named "zaa" (generator index 2) and its auto-created backing
index; in the second run, phase 9's expected-index-name set for entB
(computed at generator index 4) is ["zaaaa"], which contains neither the
name of the FK the second run's phase 10 then creates ("zaaaaa",
generator index 5) nor the stored backing index "zaa" — which phase 9
therefore drops. -/
theorem c3_counterexample :
    (exRun1.1.trace.contains (Qry.addFk "main" "ent_b" "zaa" "ent_a_owner_role" "ent_a" "id")
      = true) ∧
    (expectedIndexNames exEnv
      (Entity.mk "main" [("bOne", Attribute.mk "varchar" (some "50") none true)]
        [] [("entA", ["ownerRole"])] (some (EntityOptions.mk (some true) (some true)))) 4
      = ["zaaaa"]) ∧
    (exRun2.1.trace.contains (Qry.addFk "main" "ent_b" "zaaaaa" "ent_a_owner_role" "ent_a" "id")
      = true) ∧
    (["zaaaa"].contains "zaaaaa" = false) ∧
    (exRun2.1.trace.contains (Qry.dropIndex "main" "ent_b" "zaa") = true) := by
  refine ⟨by decide, by decide, by decide, by decide, by decide⟩

/-! ## Claim C2: orphan tables survive the run -/

def c2Model : DataModel :=
  [("someEntity",
    Entity.mk "main" [("someAttribute", Attribute.mk "varchar" (some "50") none true)]
      [] [] (some (EntityOptions.mk (some true) (some true))))]

/-- Initial state: the schema holds the orphan table `legacy_thing`,
which no entity names. -/
def c2Es0 : ES :=
  ES.mk
    (DbState.mk
      [("s", [("legacy_thing",
               DbTable.mk [DbColumn.mk "id" "bigint(20)" false none] ["PRIMARY"] [])])]
      [("main", true)] [("main", true)])
    false 0 []

def c2Env : SyncEnv := SyncEnv.mk CaseImpl.snakecase exGen exConns (fun _ => false)

def c2Run : ES × RunFlow := syncDatabase c2Env c2Model c2Es0

/-- Claim C2 (code bug).  The run completes its success path, yet the
orphan table `legacy_thing` is still present afterwards and no DROP TABLE
statement of either form was ever issued: the `removeTables` call in
`syncDatabase` is commented out (src/index.js line 1194), even though the
run still prints the "Existing table clean up" heading and "Database
clean up completed!".  So post-run tables are not
`{ normalize(e) | e in M }` — and even the remover itself, when invoked,
issues its DROP statements on every module's connection with the
ownership filter inverted, not on the owning module's connection. -/
theorem c2_bug :
    c2Run.2 = RunFlow.exited 0 ∧
    (getTable c2Run.1.db "s" "legacy_thing").isSome = true ∧
    (getTable c2Run.1.db "s" "some_entity").isSome = true ∧
    (c2Run.1.trace.all (fun q =>
      match q with
      | Qry.dropTables _ _ => false
      | Qry.dropTableSingle _ _ => false
      | _ => true)) = true := by
  refine ⟨by decide, by decide, by decide, by decide⟩

/-! ## Claim C4: restoration of the locking column -/

def c4Entity : Entity :=
  Entity.mk "main" [("someAttribute", Attribute.mk "varchar" (some "50") none true)]
    [] [] (some (EntityOptions.mk (some true) (some true)))

/-- A locking column whose type is still datetime but whose default has
drifted away from CURRENT_TIMESTAMP (it reports NULL). -/
def c4DriftedColumn : DbColumn := DbColumn.mk "last_updated" "datetime" true none

/-- Claim C4 (counterexample).  The drifted locking column differs from
(datetime, CURRENT_TIMESTAMP) in its default, so the claim requires a
MODIFY COLUMN to be emitted; the scan emits nothing, because the source
only compares the type (src/index.js 1393). -/
theorem c4_counterexample :
    ¬ (c4DriftedColumn.typeStr = "datetime" ∧
       c4DriftedColumn.defaultVal = some "CURRENT_TIMESTAMP") ∧
    c4DriftedColumn.field = getLockingConstraintColumn CaseImpl.snakecase ∧
    (alistGet c4Entity.attributes
      (getCaseDenormalizedString CaseImpl.snakecase c4DriftedColumn.field)).isNone = true ∧
    (processColumn CaseImpl.snakecase c4Entity
      (getEntityExpectedColumns CaseImpl.snakecase c4Entity) "some_entity"
      c4DriftedColumn).1 = none := by
  refine ⟨by decide, by decide, by decide, by decide⟩

/-- Claim C4 (amended).  For an existing column that is the locking column
(it is expected, its denormalised name matches no model attribute and is
not the primary key), the scan emits the restoring MODIFY COLUMN if and
only if the column's reported base type, lowercased, differs from
"datetime"; the current default value plays no part, so default drift
alone is never restored. -/
theorem c4_amended (ci : CaseImpl) (e : Entity) (tableName : String) (col : DbColumn)
    (hpk : ¬ getCaseDenormalizedString ci col.field = getPrimaryKeyColumn ci)
    (hexp : (getEntityExpectedColumns ci e).contains col.field = true)
    (hattr : alistGet e.attributes (getCaseDenormalizedString ci col.field) = none)
    (hlock : col.field = getLockingConstraintColumn ci) :
    (processColumn ci e (getEntityExpectedColumns ci e) tableName col).1 =
      (if stringToLower (splitTypeBase col.typeStr) = "datetime" then none
       else some (ColAct.modifyLockingColumn tableName col.field)) := by
  unfold processColumn
  rw [if_neg hpk, if_neg (not_not_intro hexp)]
  simp only [hattr]
  rw [if_neg (not_not_intro hlock)]
  by_cases hdt : stringToLower (splitTypeBase col.typeStr) = "datetime" <;> simp [hdt]

/-- Witness for the amended C4 theorem: a locking column whose type
drifted to varchar is restored. -/
theorem c4_amended_witness :
    (processColumn CaseImpl.snakecase c4Entity
      (getEntityExpectedColumns CaseImpl.snakecase c4Entity) "some_entity"
      (DbColumn.mk "last_updated" "varchar(50)" true none)).1 =
      (if stringToLower (splitTypeBase "varchar(50)") = "datetime" then none
       else some (ColAct.modifyLockingColumn "some_entity" "last_updated")) :=
  c4_amended CaseImpl.snakecase c4Entity "some_entity"
    (DbColumn.mk "last_updated" "varchar(50)" true none)
    (by decide) (by decide) (by decide) (by decide)

theorem genRoleAux_snd (ci : CaseImpl) (gen : Nat → String) (rel : String)
    (roles : List String) : ∀ k, (genRoleAux ci gen rel roles k).2 = k + roles.length := by
  induction roles with
  | nil => intro k; rfl
  | cons r rest ih =>
    intro k
    simp only [genRoleAux, ih (k + 1), List.length_cons]
    omega

theorem genConstraintsAux_snd (ci : CaseImpl) (gen : Nat → String) :
    ∀ (rels : List (String × List String)) (k : Nat),
    (genConstraintsAux ci gen rels k).2 = k + (rels.map (fun p => p.2.length)).sum := by
  intro rels
  induction rels with
  | nil => intro k; simp [genConstraintsAux]
  | cons p rest ih =>
    intro k
    obtain ⟨rel, roles⟩ := p
    simp only [genConstraintsAux, ih, genRoleAux_snd, List.map_cons, List.sum_cons]
    omega

theorem getEntityRelationshipConstraint_snd (ci : CaseImpl) (gen : Nat → String)
    (e : Entity) (k : Nat) :
    (getEntityRelationshipConstraint ci gen e k).2 = k + entityRoleCount e :=
  genConstraintsAux_snd ci gen e.relationships k

theorem mem_genRoleAux_name (ci : CaseImpl) (gen : Nat → String) (rel : String)
    (roles : List String) : ∀ (k : Nat) (c : RelConstraint),
    c ∈ (genRoleAux ci gen rel roles k).1 →
    ∃ i, k ≤ i ∧ i < k + roles.length ∧ c.constraintName = gen i := by
  induction roles with
  | nil => intro k c hc; exact absurd hc (by simp [genRoleAux])
  | cons r rest ih =>
    intro k c hc
    simp only [genRoleAux, List.mem_cons] at hc
    rcases hc with hc | hc
    · exact ⟨k, le_refl k, by simp, by rw [hc]⟩
    · obtain ⟨i, h1, h2, h3⟩ := ih (k + 1) c hc
      exact ⟨i, by omega, by simp only [List.length_cons]; omega, h3⟩

theorem mem_genConstraintsAux_name (ci : CaseImpl) (gen : Nat → String) :
    ∀ (rels : List (String × List String)) (k : Nat) (c : RelConstraint),
    c ∈ (genConstraintsAux ci gen rels k).1 →
    ∃ i, k ≤ i ∧ i < k + (rels.map (fun p => p.2.length)).sum ∧ c.constraintName = gen i := by
  intro rels
  induction rels with
  | nil => intro k c hc; exact absurd hc (by simp [genConstraintsAux])
  | cons p rest ih =>
    intro k c hc
    obtain ⟨rel, roles⟩ := p
    simp only [genConstraintsAux, List.mem_append] at hc
    rcases hc with hc | hc
    · obtain ⟨i, h1, h2, h3⟩ := mem_genRoleAux_name ci gen rel roles k c hc
      refine ⟨i, h1, ?_, h3⟩
      simp only [List.map_cons, List.sum_cons]
      omega
    · rw [genRoleAux_snd] at hc
      obtain ⟨i, h1, h2, h3⟩ := ih (k + roles.length) c hc
      refine ⟨i, by omega, ?_, h3⟩
      simp only [List.map_cons, List.sum_cons]
      omega

theorem mem_constraint_name (ci : CaseImpl) (gen : Nat → String) (e : Entity) (k : Nat)
    (c : RelConstraint) (hc : c ∈ (getEntityRelationshipConstraint ci gen e k).1) :
    ∃ i, k ≤ i ∧ i < k + entityRoleCount e ∧ c.constraintName = gen i :=
  mem_genConstraintsAux_name ci gen e.relationships k c hc

/-- Claim C3 (amended).  The expected-index-name set of phase 9 is built
from constraint names generated independently of the relationship pass:
for an injective fresh-name generator whose names never coincide with the
entity's normalised model index names, no constraint name that phase 10
generates (at a later generator position) belongs to phase 9's
expected-index-name set.  The backing indexes of the foreign keys a run
creates are therefore not protected by name on the next run — the
counterexample shows phase 9 dropping one. -/
theorem c3_amended (env : SyncEnv) (e : Entity) (k9 k10 : Nat)
    (hinj : Function.Injective env.gen)
    (hidx : ∀ n, (e.indexes.map
      (fun idx => getCaseNormalizedString env.ci idx.indexName)).contains (env.gen n) = false)
    (hk : k9 + entityRoleCount e ≤ k10)
    (c : RelConstraint) (hc : c ∈ (getEntityRelationshipConstraint env.ci env.gen e k10).1) :
    (expectedIndexNames env e k9).contains c.constraintName = false := by
  obtain ⟨i, hi1, hi2, hi3⟩ := mem_constraint_name env.ci env.gen e k10 c hc
  by_contra hmem
  have hmem2 : c.constraintName ∈ expectedIndexNames env e k9 := by
    have := Bool.not_eq_false _ |>.mp hmem
    simpa using this
  unfold expectedIndexNames at hmem2
  rw [List.mem_append] at hmem2
  rcases hmem2 with hmem2 | hmem2
  · rw [List.mem_map] at hmem2
    obtain ⟨c9, hc9, hname⟩ := hmem2
    obtain ⟨j, hj1, hj2, hj3⟩ := mem_constraint_name env.ci env.gen e k9 c9 hc9
    rw [hi3] at hname
    rw [hj3] at hname
    have hij : j = i := hinj hname
    omega
  · have hni := hidx i
    rw [hi3] at hmem2
    have hc2 := List.elem_eq_true_of_mem hmem2
    rw [show (List.map (fun idx => getCaseNormalizedString env.ci idx.indexName)
      e.indexes).elem (env.gen i) = (List.map
      (fun idx => getCaseNormalizedString env.ci idx.indexName)
      e.indexes).contains (env.gen i) from rfl, hni] at hc2
    exact Bool.noConfusion hc2

theorem exGen_injective : Function.Injective exGen := by
  intro a b h
  have hd : ('z' :: List.replicate a 'a') = ('z' :: List.replicate b 'a') :=
    congrArg String.data h
  have hl := congrArg List.length hd
  simpa using hl

/-- Witness for the amended C3 theorem at the concrete run: the second
run's phase 10 constraint "zaaaaa" (generator index 5) is not in phase
9's expected set computed at generator index 4. -/
theorem c3_amended_witness :
    (RelConstraint.mk "ent_a_owner_role" "zaaaaa" ∈
      (getEntityRelationshipConstraint CaseImpl.snakecase exGen
        (Entity.mk "main" [("bOne", Attribute.mk "varchar" (some "50") none true)]
          [] [("entA", ["ownerRole"])] (some (EntityOptions.mk (some true) (some true)))) 5).1) ∧
    (expectedIndexNames exEnv
      (Entity.mk "main" [("bOne", Attribute.mk "varchar" (some "50") none true)]
        [] [("entA", ["ownerRole"])] (some (EntityOptions.mk (some true) (some true)))) 4).contains
      "zaaaaa" = false := by
  constructor
  · decide
  · exact c3_amended exEnv
      (Entity.mk "main" [("bOne", Attribute.mk "varchar" (some "50") none true)]
        [] [("entA", ["ownerRole"])] (some (EntityOptions.mk (some true) (some true))))
      4 5 exGen_injective (fun n => rfl) (by decide)
      (RelConstraint.mk "ent_a_owner_role" "zaaaaa") (by decide)

theorem runQry_trace (env : SyncEnv) (q : Qry) (es : ES) :
    (runQry env q es).1.trace = es.trace ++ [q] := by
  unfold runQry
  by_cases h : (env.fails q || semanticallyFails env q es.db) = true
  · rw [if_pos h]
  · rw [if_neg h]

theorem mem_trace_runQry (env : SyncEnv) (q q2 : Qry) (es : ES)
    (h : q2 ∈ es.trace) : q2 ∈ (runQry env q es).1.trace := by
  rw [runQry_trace]
  exact List.mem_append_left _ h

theorem mem_trace_rtDropOne (env : SyncEnv) (t : String) :
    ∀ (conns : List ModuleConnection) (es : ES) (q2 : Qry),
    q2 ∈ es.trace → q2 ∈ (rtDropOne env t conns es).trace := by
  intro conns
  induction conns with
  | nil => intro es q2 h; exact h
  | cons mc rest ih =>
    intro es q2 h
    exact ih _ q2 (mem_trace_runQry env _ q2 es h)

theorem rtDropOne_issues (env : SyncEnv) (t : String) :
    ∀ (conns : List ModuleConnection) (es : ES) (mc : ModuleConnection),
    mc ∈ conns →
    Qry.dropTableSingle mc.moduleName t ∈ (rtDropOne env t conns es).trace := by
  intro conns
  induction conns with
  | nil => intro es mc h; exact absurd h (List.not_mem_nil mc)
  | cons mc0 rest ih =>
    intro es mc h
    rcases List.mem_cons.mp h with h | h
    · subst h
      unfold rtDropOne
      apply mem_trace_rtDropOne
      rw [runQry_trace]
      exact List.mem_append_right _ (List.mem_singleton.mpr rfl)
    · unfold rtDropOne
      exact ih _ mc h

theorem mem_trace_restoreFkAux (env : SyncEnv) :
    ∀ (conns : List ModuleConnection) (es : ES) (q2 : Qry),
    q2 ∈ es.trace → q2 ∈ (restoreFkAux env conns es).1.trace := by
  intro conns
  induction conns with
  | nil => intro es q2 h; exact h
  | cons mc rest ih =>
    intro es q2 h
    unfold restoreFkAux
    by_cases hr : (runQry env (Qry.setFkChecks mc.moduleName true) es).2
    · rw [if_pos hr]
      exact ih _ q2 (mem_trace_runQry env _ q2 es h)
    · rw [if_neg hr]
      exact mem_trace_runQry env _ q2 es h

theorem mem_trace_disableFkAux (env : SyncEnv) :
    ∀ (conns : List ModuleConnection) (es : ES) (q2 : Qry),
    q2 ∈ es.trace → q2 ∈ (disableFkAux env conns es).1.trace := by
  intro conns
  induction conns with
  | nil => intro es q2 h; exact h
  | cons mc rest ih =>
    intro es q2 h
    unfold disableFkAux
    by_cases hr : (runQry env (Qry.setFkChecks mc.moduleName false) es).2
    · rw [if_pos hr]
      exact ih _ q2 (mem_trace_runQry env _ q2 es h)
    · rw [if_neg hr]
      exact mem_trace_runQry env _ q2 es h

theorem mem_trace_rtAllMode (env : SyncEnv) (tmm : List (String × List String))
    (tablesToRemove : List String) :
    ∀ (conns : List ModuleConnection) (es : ES) (q2 : Qry),
    q2 ∈ es.trace → q2 ∈ (rtAllMode env tmm tablesToRemove conns es).1.trace := by
  intro conns
  induction conns with
  | nil => intro es q2 h; exact h
  | cons mc rest ih =>
    intro es q2 h
    unfold rtAllMode
    cases halist : alistGet tmm mc.moduleName with
    | none => exact h
    | some owned =>
      by_cases hlen : owned.length > 0
      · simp only [hlen, if_true]
        exact ih _ q2 (mem_trace_runQry env _ q2 es h)
      · simp only [hlen, if_false]
        exact ih _ q2 h

theorem mem_trace_removeTablesRecursive (env : SyncEnv) (dm : DataModel) :
    ∀ (tables : List String) (mustConfirm : Bool) (answers : List String) (es : ES)
      (q2 : Qry), q2 ∈ es.trace →
    q2 ∈ (removeTablesRecursive env dm tables mustConfirm answers es).1.trace := by
  intro tables
  induction tables with
  | nil => intro mc a es q2 h; exact h
  | cons t rest ih =>
    intro mustConfirm answers es q2 h
    unfold removeTablesRecursive
    have h1 : q2 ∈ (if es.fkFlag = false then (disableForeignKeyChecks env es).1
        else es).trace := by
      by_cases hf : es.fkFlag = false
      · rw [if_pos hf]
        exact mem_trace_disableFkAux env env.conns es q2 h
      · rw [if_neg hf]
        exact h
    by_cases hmc : mustConfirm = false
    · rw [if_pos hmc]
      have h2 := mem_trace_rtAllMode env (getTableModuleMapping env.ci dm) (t :: rest)
        env.conns _ q2 h1
      cases hflow : (rtAllMode env (getTableModuleMapping env.ci dm) (t :: rest)
          env.conns (if es.fkFlag = false then (disableForeignKeyChecks env es).1
            else es)).2 with
      | ok b =>
        cases b with
        | true =>
          simp only
          by_cases hr : (rtAllMode env (getTableModuleMapping env.ci dm) (t :: rest)
              env.conns (if es.fkFlag = false then (disableForeignKeyChecks env es).1
                else es)).1.fkFlag
          · simp only [hflow, hr, if_pos]
            exact mem_trace_restoreFkAux env env.conns _ q2 h2
          · simp only [hflow, hr]
            simpa using h2
        | false => simp only [hflow]; exact h2
      | exited n => simp only [hflow]; exact h2
      | uncaught => simp only [hflow]; exact h2
      | tdz => simp only [hflow]; exact h2
    · rw [if_neg hmc]
      have h2 : q2 ∈ (if stringToLower (answers.headD "") = "y"
          then rtDropOne env t env.conns (if es.fkFlag = false
            then (disableForeignKeyChecks env es).1 else es)
          else (if es.fkFlag = false then (disableForeignKeyChecks env es).1
            else es)).trace := by
        by_cases ha : stringToLower (answers.headD "") = "y"
        · rw [if_pos ha]
          exact mem_trace_rtDropOne env t env.conns _ q2 h1
        · rw [if_neg ha]
          exact h1
      have h3 := ih true answers.tail _ q2 h2
      cases hflow : (removeTablesRecursive env dm rest true answers.tail
          (if stringToLower (answers.headD "") = "y"
           then rtDropOne env t env.conns (if es.fkFlag = false
             then (disableForeignKeyChecks env es).1 else es)
           else (if es.fkFlag = false then (disableForeignKeyChecks env es).1
             else es))).2.2 with
      | ok b =>
        cases b with
        | true =>
          by_cases hr : (removeTablesRecursive env dm rest true answers.tail
              (if stringToLower (answers.headD "") = "y"
               then rtDropOne env t env.conns (if es.fkFlag = false
                 then (disableForeignKeyChecks env es).1 else es)
               else (if es.fkFlag = false then (disableForeignKeyChecks env es).1
                 else es))).1.fkFlag
          · simp only [hflow, hr, if_pos]
            exact mem_trace_restoreFkAux env env.conns _ q2 h3
          · simp only [hflow, hr]
            simpa using h3
        | false => simp only [hflow]; exact h3
      | exited n => simp only [hflow]; exact h3
      | uncaught => simp only [hflow]; exact h3
      | tdz => simp only [hflow]; exact h3

/-- Claim C10 (confirmed).  In one-by-one confirmation mode, when the
user confirms dropping the head table, `removeTablesRecursive` issues
`DROP TABLE IF EXISTS` for that single table on EVERY module connection,
not only on the connection of the module owning it — so same-named
tables in every other module's schema are dropped too. -/
theorem c10_drop_on_every_connection (env : SyncEnv) (dm : DataModel) (t : String)
    (rest : List String) (answers : List String) (es : ES)
    (hyes : stringToLower (answers.headD "") = "y")
    (mc : ModuleConnection) (hmc : mc ∈ env.conns) :
    Qry.dropTableSingle mc.moduleName t ∈
      (removeTablesRecursive env dm (t :: rest) true answers es).1.trace := by
  unfold removeTablesRecursive
  rw [if_neg (by simp)]
  have h1 : Qry.dropTableSingle mc.moduleName t ∈
      (if stringToLower (answers.headD "") = "y"
       then rtDropOne env t env.conns (if es.fkFlag = false
         then (disableForeignKeyChecks env es).1 else es)
       else (if es.fkFlag = false then (disableForeignKeyChecks env es).1
         else es)).trace := by
    rw [if_pos hyes]
    exact rtDropOne_issues env t env.conns _ mc hmc
  have h3 := mem_trace_removeTablesRecursive env dm rest true answers.tail _ _ h1
  cases hflow : (removeTablesRecursive env dm rest true answers.tail
      (if stringToLower (answers.headD "") = "y"
       then rtDropOne env t env.conns (if es.fkFlag = false
         then (disableForeignKeyChecks env es).1 else es)
       else (if es.fkFlag = false then (disableForeignKeyChecks env es).1
         else es))).2.2 with
  | ok b =>
    cases b with
    | true =>
      by_cases hr : (removeTablesRecursive env dm rest true answers.tail
          (if stringToLower (answers.headD "") = "y"
           then rtDropOne env t env.conns (if es.fkFlag = false
             then (disableForeignKeyChecks env es).1 else es)
           else (if es.fkFlag = false then (disableForeignKeyChecks env es).1
             else es))).1.fkFlag
      · simp only [hflow, hr, if_pos]
        exact mem_trace_restoreFkAux env env.conns _ _ h3
      · simp only [hflow, hr]
        simpa using h3
    | false => simp only [hflow]; exact h3
  | exited n => simp only [hflow]; exact h3
  | uncaught => simp only [hflow]; exact h3
  | tdz => simp only [hflow]; exact h3

def c10Conns : List ModuleConnection :=
  [ModuleConnection.mk "main" "schema_one", ModuleConnection.mk "aux_module" "schema_two"]

def c10Env : SyncEnv := SyncEnv.mk CaseImpl.snakecase exGen c10Conns (fun _ => false)

def c10Es0 : ES :=
  ES.mk
    (DbState.mk
      [("schema_one", [("legacy", DbTable.mk [] [] [])]),
       ("schema_two", [("legacy", DbTable.mk [] [] [])])]
      [("main", true), ("aux_module", true)]
      [("main", true), ("aux_module", true)])
    false 0 []

/-- Witness for C10: with two modules, confirming the drop of "legacy"
issues the single-table drop on both connections; evaluating the call
also shows the same-named table disappearing from both schemas. -/
theorem c10_witness :
    stringToLower (["y"].headD "") = "y" ∧
    ModuleConnection.mk "main" "schema_one" ∈ c10Env.conns ∧
    ModuleConnection.mk "aux_module" "schema_two" ∈ c10Env.conns ∧
    Qry.dropTableSingle "main" "legacy" ∈
      (removeTablesRecursive c10Env c2Model ["legacy"] true ["y"] c10Es0).1.trace ∧
    Qry.dropTableSingle "aux_module" "legacy" ∈
      (removeTablesRecursive c10Env c2Model ["legacy"] true ["y"] c10Es0).1.trace ∧
    (getTable (removeTablesRecursive c10Env c2Model ["legacy"] true ["y"] c10Es0).1.db
      "schema_one" "legacy").isNone = true ∧
    (getTable (removeTablesRecursive c10Env c2Model ["legacy"] true ["y"] c10Es0).1.db
      "schema_two" "legacy").isNone = true := by
  refine ⟨by decide, by decide, by decide, ?_, ?_, by decide, by decide⟩
  · exact c10_drop_on_every_connection c10Env c2Model "legacy" [] ["y"] c10Es0
      (by decide) (ModuleConnection.mk "main" "schema_one") (by decide)
  · exact c10_drop_on_every_connection c10Env c2Model "legacy" [] ["y"] c10Es0
      (by decide) (ModuleConnection.mk "aux_module" "schema_two") (by decide)

/-! ## Freshness machinery for the relationship pass (claims C9, C5, C1)

The engine matches stored constraint names against freshly generated
ones.  The facts needed are: the names stored in the database are always
either pre-existing ones or generator outputs at indices below the
current counter, and the generator never repeats nor collides with the
pre-existing names. -/

def schemaFkNames (s : DbSchema) : List String :=
  (s.map (fun t => t.2.foreignKeys)).flatten

def allFkNames (db : DbState) : List String :=
  (db.schemas.map (fun p => schemaFkNames p.2)).flatten

theorem alistGet_alistSet {α : Type} (l : List (String × α)) (key key2 : String) (v : α) :
    alistGet (alistSet l key v) key2 = if key = key2 then some v else alistGet l key2 := by
  induction l with
  | nil =>
    by_cases h : key = key2
    · simp [alistSet, alistGet, h]
    · simp [alistSet, alistGet, h]
  | cons p rest ih =>
    obtain ⟨k, w⟩ := p
    by_cases hk : k = key
    · subst hk
      by_cases h2 : k = key2
      · simp [alistSet, alistGet, h2]
      · simp [alistSet, alistGet, h2]
    · by_cases h2 : k = key2
      · subst h2
        by_cases hkey : key = k
        · exact absurd hkey.symm hk
        · simp [alistSet, alistGet, hk, hkey, ih]
      · simp only [alistSet, if_neg hk, alistGet, if_neg h2]
        exact ih

theorem mem_flattenMap_alistSet {α : Type} (g : α → List String) :
    ∀ (l : List (String × α)) (key : String) (v : α) (x : String),
    x ∈ (((alistSet l key v).map (fun p => g p.2)).flatten) →
    x ∈ g v ∨ x ∈ ((l.map (fun p => g p.2)).flatten) := by
  intro l
  induction l with
  | nil =>
    intro key v x hx
    simp only [alistSet, List.map_cons, List.map_nil, List.flatten] at hx
    simp at hx
    exact Or.inl hx
  | cons p rest ih =>
    intro key v x hx
    obtain ⟨k, w⟩ := p
    by_cases hk : k = key
    · simp only [alistSet, if_pos hk, List.map_cons, List.flatten_cons,
        List.mem_append] at hx
      rcases hx with hx | hx
      · exact Or.inl hx
      · right
        simp only [List.map_cons, List.flatten_cons, List.mem_append]
        exact Or.inr hx
    · simp only [alistSet, if_neg hk, List.map_cons, List.flatten_cons,
        List.mem_append] at hx
      rcases hx with hx | hx
      · right
        simp only [List.map_cons, List.flatten_cons, List.mem_append]
        exact Or.inl hx
      · rcases ih key v x hx with h | h
        · exact Or.inl h
        · right
          simp only [List.map_cons, List.flatten_cons, List.mem_append]
          exact Or.inr h

theorem alistGet_mem_flattenMap {α : Type} (g : α → List String) :
    ∀ (l : List (String × α)) (key : String) (v : α) (x : String),
    alistGet l key = some v → x ∈ g v → x ∈ ((l.map (fun p => g p.2)).flatten) := by
  intro l
  induction l with
  | nil => intro key v x h; exact absurd h (by simp [alistGet])
  | cons p rest ih =>
    intro key v x h hx
    obtain ⟨k, w⟩ := p
    simp only [List.map_cons, List.flatten_cons, List.mem_append]
    by_cases hk : k = key
    · rw [alistGet, if_pos hk] at h
      cases h
      exact Or.inl hx
    · rw [alistGet, if_neg hk] at h
      exact Or.inr (ih key v x h hx)

theorem mem_allFkNames_setTable (db : DbState) (sn tn : String) (tbl : DbTable)
    (x : String) (hx : x ∈ allFkNames (setTable db sn tn tbl)) :
    x ∈ tbl.foreignKeys ∨ x ∈ allFkNames db := by
  unfold setTable allFkNames at hx
  unfold allFkNames
  rcases mem_flattenMap_alistSet (fun s => schemaFkNames s) db.schemas sn _ x hx with h | h
  · unfold schemaFkNames at h
    rcases mem_flattenMap_alistSet (fun t => t.foreignKeys)
      ((alistGet db.schemas sn).getD []) tn tbl x h with h2 | h2
    · exact Or.inl h2
    · cases hget : alistGet db.schemas sn with
      | none => rw [hget] at h2; simp at h2
      | some s =>
        rw [hget] at h2
        right
        exact alistGet_mem_flattenMap (fun s => schemaFkNames s) db.schemas sn s x hget h2
  · exact Or.inr h

theorem mem_filter_flattenMap {α : Type} (g : α → List String)
    (p : String × α → Bool) :
    ∀ (l : List (String × α)) (x : String),
    x ∈ (((l.filter p).map (fun q => g q.2)).flatten) →
    x ∈ ((l.map (fun q => g q.2)).flatten) := by
  intro l
  induction l with
  | nil => intro x h; simp at h
  | cons q rest ih =>
    intro x h
    by_cases hp : p q
    · rw [List.filter_cons_of_pos hp] at h
      simp only [List.map_cons, List.flatten_cons, List.mem_append] at h ⊢
      rcases h with h | h
      · exact Or.inl h
      · exact Or.inr (ih x h)
    · rw [List.filter_cons_of_neg hp] at h
      simp only [List.map_cons, List.flatten_cons, List.mem_append]
      exact Or.inr (ih x h)

theorem mem_allFkNames_removeTable (db : DbState) (sn tn : String) (x : String)
    (hx : x ∈ allFkNames (removeTable db sn tn)) : x ∈ allFkNames db := by
  unfold removeTable at hx
  cases hget : alistGet db.schemas sn with
  | none => rw [hget] at hx; exact hx
  | some s =>
    rw [hget] at hx
    unfold allFkNames at hx ⊢
    rcases mem_flattenMap_alistSet (fun s => schemaFkNames s) db.schemas sn _ x hx with h | h
    · unfold alistRemove at h
      unfold schemaFkNames at h
      have h2 := mem_filter_flattenMap (fun t => t.foreignKeys)
        (fun p => ! (p.1 == tn)) s x h
      exact alistGet_mem_flattenMap (fun s => schemaFkNames s) db.schemas sn s x hget h2
    · exact h

/-- The only statement that introduces a new foreign-key name into the
database is `addFk`, and it introduces exactly its own constraint name. -/
theorem mem_allFkNames_applyQry (env : SyncEnv) (q : Qry) (db : DbState) (x : String)
    (hx : x ∈ allFkNames (applyQry env q db)) :
    x ∈ allFkNames db ∨
      (∃ m t c rT rC, q = Qry.addFk m t x c rT rC) := by
  cases q with
  | setFkChecks m b => exact Or.inl hx
  | createTable m t =>
      simp only [applyQry] at hx
      cases hcs : connSchema env m with
      | none => simp only [hcs] at hx; exact Or.inl hx
      | some sn =>
        simp only [hcs] at hx
        rcases mem_allFkNames_setTable db sn t _ x hx with h | h
        · simp at h
        · exact Or.inl h
  | colDdl m act =>
      simp only [applyQry] at hx
      cases hcs : connSchema env m with
      | none => simp only [hcs] at hx; exact Or.inl hx
      | some sn =>
        simp only [hcs] at hx
        cases hget : getTable db sn (colActTable act) with
        | none => simp only [hget] at hx; exact Or.inl hx
        | some tbl =>
          simp only [hget] at hx
          rcases mem_allFkNames_setTable db sn (colActTable act) _ x hx with h | h
          · left
            have hfk : (applyColAct env.ci tbl act).foreignKeys = tbl.foreignKeys := by
              cases act with
              | dropColumn t c => rfl
              | modifyFkColumn t c => rfl
              | modifyLockingColumn t c => rfl
              | alterColumn t c d op =>
                  simp only [applyColAct]
                  by_cases hc : c = getPrimaryKeyColumn env.ci
                  · rw [if_pos hc]
                  · rw [if_neg hc]
              | addRelationshipColumn t c => rfl
            rw [hfk] at h
            unfold getTable at hget
            cases hgs : alistGet db.schemas sn with
            | none => simp only [hgs] at hget; exact Option.noConfusion hget
            | some s =>
              simp only [hgs] at hget
              unfold allFkNames
              apply alistGet_mem_flattenMap (fun s => schemaFkNames s) db.schemas sn s x hgs
              unfold schemaFkNames
              exact alistGet_mem_flattenMap (fun t => t.foreignKeys) s
                (colActTable act) tbl x hget h
          · exact Or.inl h
  | addIndex m t idx kind =>
      simp only [applyQry] at hx
      cases hcs : connSchema env m with
      | none => simp only [hcs] at hx; exact Or.inl hx
      | some sn =>
        simp only [hcs] at hx
        cases hget : getTable db sn t with
        | none => simp only [hget] at hx; exact Or.inl hx
        | some tbl =>
          simp only [hget] at hx
          rcases mem_allFkNames_setTable db sn t _ x hx with h | h
          · left
            unfold getTable at hget
            cases hgs : alistGet db.schemas sn with
            | none => simp only [hgs] at hget; exact Option.noConfusion hget
            | some s =>
              simp only [hgs] at hget
              apply alistGet_mem_flattenMap (fun s => schemaFkNames s) db.schemas sn s x hgs
              exact alistGet_mem_flattenMap (fun t => t.foreignKeys) s t tbl x hget h
          · exact Or.inl h
  | dropIndex m t idx =>
      simp only [applyQry] at hx
      cases hcs : connSchema env m with
      | none => simp only [hcs] at hx; exact Or.inl hx
      | some sn =>
        simp only [hcs] at hx
        cases hget : getTable db sn t with
        | none => simp only [hget] at hx; exact Or.inl hx
        | some tbl =>
          simp only [hget] at hx
          rcases mem_allFkNames_setTable db sn t _ x hx with h | h
          · left
            unfold getTable at hget
            cases hgs : alistGet db.schemas sn with
            | none => simp only [hgs] at hget; exact Option.noConfusion hget
            | some s =>
              simp only [hgs] at hget
              apply alistGet_mem_flattenMap (fun s => schemaFkNames s) db.schemas sn s x hgs
              exact alistGet_mem_flattenMap (fun t => t.foreignKeys) s t tbl x hget h
          · exact Or.inl h
  | dropFk m t name =>
      simp only [applyQry] at hx
      cases hcs : connSchema env m with
      | none => simp only [hcs] at hx; exact Or.inl hx
      | some sn =>
        simp only [hcs] at hx
        cases hget : getTable db sn t with
        | none => simp only [hget] at hx; exact Or.inl hx
        | some tbl =>
          simp only [hget] at hx
          rcases mem_allFkNames_setTable db sn t _ x hx with h | h
          · left
            have h2 : x ∈ tbl.foreignKeys := List.mem_of_mem_filter h
            unfold getTable at hget
            cases hgs : alistGet db.schemas sn with
            | none => simp only [hgs] at hget; exact Option.noConfusion hget
            | some s =>
              simp only [hgs] at hget
              apply alistGet_mem_flattenMap (fun s => schemaFkNames s) db.schemas sn s x hgs
              exact alistGet_mem_flattenMap (fun t => t.foreignKeys) s t tbl x hget h2
          · exact Or.inl h
  | addFk m t name col rT rC =>
      simp only [applyQry] at hx
      cases hcs : connSchema env m with
      | none => simp only [hcs] at hx; exact Or.inl hx
      | some sn =>
        simp only [hcs] at hx
        cases hget : getTable db sn t with
        | none => simp only [hget] at hx; exact Or.inl hx
        | some tbl =>
          simp only [hget] at hx
          rcases mem_allFkNames_setTable db sn t _ x hx with h | h
          · rw [List.mem_append] at h
            rcases h with h | h
            · left
              unfold getTable at hget
              cases hgs : alistGet db.schemas sn with
              | none => simp only [hgs] at hget; exact Option.noConfusion hget
              | some s =>
                simp only [hgs] at hget
                apply alistGet_mem_flattenMap (fun s => schemaFkNames s) db.schemas sn s x hgs
                exact alistGet_mem_flattenMap (fun t => t.foreignKeys) s t tbl x hget h
            · right
              rw [List.mem_singleton] at h
              exact ⟨m, t, col, rT, rC, by rw [h]⟩
          · exact Or.inl h
  | dropTables m ts =>
      simp only [applyQry] at hx
      cases hcs : connSchema env m with
      | none => simp only [hcs] at hx; exact Or.inl hx
      | some sn =>
        simp only [hcs] at hx
        left
        clear hcs
        induction ts generalizing db with
        | nil => exact hx
        | cons t rest ih =>
          simp only [List.foldl_cons] at hx
          exact mem_allFkNames_removeTable db sn t x (ih (removeTable db sn t) hx)
  | dropTableSingle m t =>
      simp only [applyQry] at hx
      cases hcs : connSchema env m with
      | none => simp only [hcs] at hx; exact Or.inl hx
      | some sn =>
        simp only [hcs] at hx
        exact Or.inl (mem_allFkNames_removeTable db sn t x hx)
  | showEngines m => exact Or.inl hx
  | showFullTables m => exact Or.inl hx
  | beginTxn m => exact Or.inl hx
  | showFullColumns m t => exact Or.inl hx
  | showIndex m t => exact Or.inl hx
  | listFks m t s => exact Or.inl hx

theorem runQry_ok (env : SyncEnv) (q : Qry) (es : ES)
    (hnf : env.fails q = false) (hsem : semanticallyFails env q es.db = false) :
    (runQry env q es).2 = true ∧
    (runQry env q es).1.db = applyQry env q es.db ∧
    (runQry env q es).1.trace = es.trace ++ [q] ∧
    (runQry env q es).1.k = es.k ∧
    (runQry env q es).1.fkFlag = es.fkFlag := by
  unfold runQry
  rw [if_neg (by simp [hnf, hsem])]
  exact ⟨rfl, rfl, rfl, rfl, rfl⟩

theorem getTable_setTable_ne (db : DbState) (sn1 tn1 : String) (tbl : DbTable)
    (sn tn : String) (h : ¬ (sn1 = sn ∧ tn1 = tn)) :
    getTable (setTable db sn1 tn1 tbl) sn tn = getTable db sn tn := by
  unfold getTable setTable
  simp only [alistGet_alistSet]
  by_cases hs : sn1 = sn
  · rw [if_pos hs]
    have htn : ¬ tn1 = tn := fun hc => h ⟨hs, hc⟩
    simp only [alistGet_alistSet, if_neg htn]
    subst hs
    cases hget : alistGet db.schemas sn1 with
    | none => simp [alistGet]
    | some s => simp
  · rw [if_neg hs]

/-- A stored FK name of a table is among the database's FK names. -/
theorem table_fk_mem_allFkNames (db : DbState) (sn tn : String) (tbl : DbTable)
    (hget : getTable db sn tn = some tbl) (x : String) (hx : x ∈ tbl.foreignKeys) :
    x ∈ allFkNames db := by
  unfold getTable at hget
  cases hgs : alistGet db.schemas sn with
  | none => rw [hgs] at hget; exact Option.noConfusion hget
  | some s =>
    rw [hgs] at hget
    apply alistGet_mem_flattenMap (fun s2 => schemaFkNames s2) db.schemas sn s x hgs
    unfold schemaFkNames
    exact alistGet_mem_flattenMap (fun t => t.foreignKeys) s tn tbl x hget hx

theorem fkRowLoop_spec (env : SyncEnv) (schemaName tableName moduleName : String)
    (constraints : List RelConstraint) (hnf : ∀ q, env.fails q = false) :
    ∀ (rows : List String) (es : ES),
    (∀ r ∈ rows, ∀ c ∈ constraints, ¬ c.constraintName = r) →
    (fkRowLoop env schemaName tableName moduleName constraints rows es).2 = RunFlow.ok true ∧
    (fkRowLoop env schemaName tableName moduleName constraints rows es).1.k = es.k ∧
    (fkRowLoop env schemaName tableName moduleName constraints rows es).1.fkFlag = es.fkFlag ∧
    (∀ r ∈ rows, Qry.dropFk moduleName tableName r ∈
      (fkRowLoop env schemaName tableName moduleName constraints rows es).1.trace) ∧
    (∀ q2 ∈ es.trace, q2 ∈
      (fkRowLoop env schemaName tableName moduleName constraints rows es).1.trace) ∧
    (∀ sn2 tn2, ¬ (connSchema env moduleName = some sn2 ∧ tableName = tn2) →
      getTable (fkRowLoop env schemaName tableName moduleName constraints rows es).1.db sn2 tn2 =
        getTable es.db sn2 tn2) ∧
    (∀ x, x ∈ allFkNames
      (fkRowLoop env schemaName tableName moduleName constraints rows es).1.db →
      x ∈ allFkNames es.db) := by
  intro rows
  induction rows with
  | nil =>
    intro es hnm
    refine ⟨rfl, rfl, rfl, ?_, ?_, ?_, ?_⟩
    · intro r hr; exact absurd hr (List.not_mem_nil r)
    · intro q2 h; exact h
    · intro sn2 tn2 h; rfl
    · intro x h; exact h
  | cons r rest ih =>
    intro es hnm
    have hfound : (if constraints.length ≠ 0 then
        constraints.find? (fun c => c.constraintName == r) else none) = none := by
      by_cases hl : constraints.length ≠ 0
      · rw [if_pos hl]
        apply List.find?_eq_none.mpr
        intro c hc
        simp only [beq_iff_eq]
        exact hnm r (List.mem_cons_self r rest) c hc
      · rw [if_neg hl]
    have hq := runQry_ok env (Qry.dropFk moduleName tableName r) es
      (hnf _) rfl
    have hnm2 : ∀ r2 ∈ rest, ∀ c ∈ constraints, ¬ c.constraintName = r2 := by
      intro r2 hr2 c hc
      exact hnm r2 (List.mem_cons_of_mem r hr2) c hc
    have step : fkRowLoop env schemaName tableName moduleName constraints (r :: rest) es =
        fkRowLoop env schemaName tableName moduleName constraints rest
          (runQry env (Qry.dropFk moduleName tableName r) es).1 := by
      simp only [fkRowLoop, hfound, hq.1]
      simp
    obtain ⟨ihf, ihk, ihfl, ihdrops, ihmono, ihloc, ihfk⟩ :=
      ih (runQry env (Qry.dropFk moduleName tableName r) es).1 hnm2
    rw [step]
    refine ⟨ihf, by rw [ihk, hq.2.2.2.1], by rw [ihfl, hq.2.2.2.2], ?_, ?_, ?_, ?_⟩
    · intro r2 hr2
      rcases List.mem_cons.mp hr2 with h | h
      · subst h
        apply ihmono
        rw [hq.2.2.1]
        exact List.mem_append_right _ (List.mem_singleton.mpr rfl)
      · exact ihdrops r2 h
    · intro q2 h2
      apply ihmono
      rw [hq.2.2.1]
      exact List.mem_append_left _ h2
    · intro sn2 tn2 hne
      rw [ihloc sn2 tn2 hne, hq.2.1]
      simp only [applyQry]
      cases hcs : connSchema env moduleName with
      | none => rfl
      | some sn =>
        simp only [hcs]
        cases hget : getTable es.db sn tableName with
        | none => rfl
        | some tbl =>
          simp only [hget]
          apply getTable_setTable_ne
          intro hc
          exact hne ⟨by rw [hcs, hc.1], hc.2⟩
    · intro x hx
      have hx2 := ihfk x hx
      rw [hq.2.1] at hx2
      rcases mem_allFkNames_applyQry env _ es.db x hx2 with h | h
      · exact h
      · obtain ⟨m2, t2, c2, rT2, rC2, habs⟩ := h
        exact Qry.noConfusion habs

theorem fkCreateLoop_spec (env : SyncEnv) (e : Entity) (tableName moduleName : String)
    (hnf : ∀ q, env.fails q = false) :
    ∀ (cs : List RelConstraint) (es : ES),
    (fkCreateLoop env e tableName moduleName cs es).2 = RunFlow.ok true ∧
    (fkCreateLoop env e tableName moduleName cs es).1.k = es.k ∧
    (fkCreateLoop env e tableName moduleName cs es).1.fkFlag = es.fkFlag ∧
    (∀ q2 ∈ es.trace, q2 ∈ (fkCreateLoop env e tableName moduleName cs es).1.trace) ∧
    (∀ sn2 tn2, ¬ (connSchema env moduleName = some sn2 ∧ tableName = tn2) →
      getTable (fkCreateLoop env e tableName moduleName cs es).1.db sn2 tn2 =
        getTable es.db sn2 tn2) ∧
    (∀ x, x ∈ allFkNames (fkCreateLoop env e tableName moduleName cs es).1.db →
      x ∈ allFkNames es.db ∨ ∃ c ∈ cs, x = c.constraintName) := by
  intro cs
  induction cs with
  | nil =>
    intro es
    exact ⟨rfl, rfl, rfl, fun q2 h => h, fun sn2 tn2 h => rfl, fun x h => Or.inl h⟩
  | cons c rest ih =>
    intro es
    have hq := runQry_ok env (fkCreateQry env e tableName moduleName c) es (hnf _) rfl
    have step : fkCreateLoop env e tableName moduleName (c :: rest) es =
        fkCreateLoop env e tableName moduleName rest
          (runQry env (fkCreateQry env e tableName moduleName c) es).1 := by
      simp only [fkCreateLoop, hq.1]
      simp
    obtain ⟨ihf, ihk, ihfl, ihmono, ihloc, ihfk⟩ :=
      ih (runQry env (fkCreateQry env e tableName moduleName c) es).1
    rw [step]
    refine ⟨ihf, by rw [ihk, hq.2.2.2.1], by rw [ihfl, hq.2.2.2.2], ?_, ?_, ?_⟩
    · intro q2 h2
      apply ihmono
      rw [hq.2.2.1]
      exact List.mem_append_left _ h2
    · intro sn2 tn2 hne
      rw [ihloc sn2 tn2 hne, hq.2.1]
      simp only [fkCreateQry, applyQry]
      cases hcs : connSchema env moduleName with
      | none => rfl
      | some sn =>
        simp only [hcs]
        cases hget : getTable es.db sn tableName with
        | none => rfl
        | some tbl =>
          simp only [hget]
          apply getTable_setTable_ne
          intro hc
          exact hne ⟨by rw [hcs, hc.1], hc.2⟩
    · intro x hx
      rcases ihfk x hx with h | h
      · rw [hq.2.1] at h
        rcases mem_allFkNames_applyQry env _ es.db x h with h2 | h2
        · exact Or.inl h2
        · obtain ⟨m2, t2, c2, rT2, rC2, heq⟩ := h2
          refine Or.inr ⟨c, List.mem_cons_self c rest, ?_⟩
          simp only [fkCreateQry] at heq
          injection heq with h1 h2 h3
          exact h3.symm
      · obtain ⟨c2, hc2, heq⟩ := h
        exact Or.inr ⟨c2, List.mem_cons_of_mem c hc2, heq⟩

theorem urDropCreate_spec (env : SyncEnv) (dropOnly : Bool) (e : Entity)
    (tableName schemaName : String) (constraints : List RelConstraint) (es : ES)
    (hnf : ∀ q, env.fails q = false)
    (hnm : ∀ row ∈ storedFkRows es.db schemaName tableName,
      ∀ c ∈ constraints, ¬ c.constraintName = row) :
    (urDropCreate env dropOnly e tableName schemaName constraints es).2 = RunFlow.ok true ∧
    (urDropCreate env dropOnly e tableName schemaName constraints es).1.k = es.k ∧
    (urDropCreate env dropOnly e tableName schemaName constraints es).1.fkFlag = es.fkFlag ∧
    (∀ q2 ∈ es.trace, q2 ∈
      (urDropCreate env dropOnly e tableName schemaName constraints es).1.trace) ∧
    (∀ sn2 tn2, ¬ (connSchema env e.moduleName = some sn2 ∧ tableName = tn2) →
      getTable (urDropCreate env dropOnly e tableName schemaName constraints es).1.db sn2 tn2 =
        getTable es.db sn2 tn2) ∧
    (∀ x, x ∈ allFkNames
        (urDropCreate env dropOnly e tableName schemaName constraints es).1.db →
      x ∈ allFkNames es.db ∨ ∃ c ∈ constraints, x = c.constraintName) ∧
    (∀ fk ∈ storedFkRows es.db schemaName tableName,
      Qry.dropFk e.moduleName tableName fk ∈
        (urDropCreate env dropOnly e tableName schemaName constraints es).1.trace) := by
  obtain ⟨hdf, hdk, hdfl, hddrops, hdmono, hdloc, hdfk⟩ :=
    fkRowLoop_spec env schemaName tableName e.moduleName constraints hnf
      (storedFkRows es.db schemaName tableName) es hnm
  cases dropOnly with
  | true =>
    have hstep : urDropCreate env true e tableName schemaName constraints es =
        ((fkRowLoop env schemaName tableName e.moduleName constraints
          (storedFkRows es.db schemaName tableName) es).1, RunFlow.ok true) := by
      simp only [urDropCreate, hdf]
      simp
    rw [hstep]
    exact ⟨rfl, hdk, hdfl, hdmono, hdloc, fun x hx => Or.inl (hdfk x hx), hddrops⟩
  | false =>
    have hfilter : constraints.filter
        (fun x => ! List.contains ([] : List String) x.constraintName) = constraints :=
      List.filter_eq_self.mpr (fun a _ => rfl)
    obtain ⟨hcf, hck, hcfl, hcmono, hcloc, hcfk⟩ :=
      fkCreateLoop_spec env e tableName e.moduleName hnf constraints
        (fkRowLoop env schemaName tableName e.moduleName constraints
          (storedFkRows es.db schemaName tableName) es).1
    have hstep : urDropCreate env false e tableName schemaName constraints es =
        ((fkCreateLoop env e tableName e.moduleName constraints
          (fkRowLoop env schemaName tableName e.moduleName constraints
            (storedFkRows es.db schemaName tableName) es).1).1, RunFlow.ok true) := by
      simp only [urDropCreate, hdf, hfilter, hcf]
      simp
    rw [hstep]
    refine ⟨rfl, by rw [hck, hdk], by rw [hcfl, hdfl], ?_, ?_, ?_, ?_⟩
    · intro q2 h2
      exact hcmono q2 (hdmono q2 h2)
    · intro sn2 tn2 hne
      rw [hcloc sn2 tn2 hne, hdloc sn2 tn2 hne]
    · intro x hx
      rcases hcfk x hx with h | h
      · exact Or.inl (hdfk x h)
      · exact Or.inr h
    · intro fk hfk
      exact hcmono _ (hddrops fk hfk)

theorem urEntityBody_spec (env : SyncEnv) (dropOnly : Bool) (entityName : String)
    (e : Entity) (schemaName : String) (es : ES)
    (hnf : ∀ q, env.fails q = false)
    (hfresh : ∀ j, es.k ≤ j → env.gen j ∉ allFkNames es.db) :
    (urEntityBody env dropOnly entityName e schemaName es).2 = RunFlow.ok true ∧
    (urEntityBody env dropOnly entityName e schemaName es).1.k =
      es.k + entityRoleCount e ∧
    (urEntityBody env dropOnly entityName e schemaName es).1.fkFlag = es.fkFlag ∧
    (∀ q2 ∈ es.trace, q2 ∈ (urEntityBody env dropOnly entityName e schemaName es).1.trace) ∧
    (∀ sn2 tn2, ¬ (connSchema env e.moduleName = some sn2 ∧
        getCaseNormalizedString env.ci entityName = tn2) →
      getTable (urEntityBody env dropOnly entityName e schemaName es).1.db sn2 tn2 =
        getTable es.db sn2 tn2) ∧
    (∀ x, x ∈ allFkNames (urEntityBody env dropOnly entityName e schemaName es).1.db →
      x ∈ allFkNames es.db ∨
        ∃ j, es.k ≤ j ∧ j < es.k + entityRoleCount e ∧ x = env.gen j) ∧
    (∀ tbl, getTable es.db schemaName (getCaseNormalizedString env.ci entityName) =
        some tbl →
      ∀ fk ∈ tbl.foreignKeys,
        Qry.dropFk e.moduleName (getCaseNormalizedString env.ci entityName) fk ∈
          (urEntityBody env dropOnly entityName e schemaName es).1.trace) := by
  have hq := runQry_ok env (Qry.listFks e.moduleName
      (getCaseNormalizedString env.ci entityName) schemaName)
    { es with k := (getEntityRelationshipConstraint env.ci env.gen e es.k).2 } (hnf _) rfl
  have hdb1 : (runQry env (Qry.listFks e.moduleName
      (getCaseNormalizedString env.ci entityName) schemaName)
      { es with k := (getEntityRelationshipConstraint env.ci env.gen e es.k).2 }).1.db
      = es.db := by
    rw [hq.2.1]
    rfl
  have hnm : ∀ row ∈ storedFkRows es.db schemaName
      (getCaseNormalizedString env.ci entityName),
      ∀ c ∈ (getEntityRelationshipConstraint env.ci env.gen e es.k).1,
      ¬ c.constraintName = row := by
    intro row hrow c hc heq
    obtain ⟨i, hi1, hi2, hi3⟩ := mem_constraint_name env.ci env.gen e es.k c hc
    have hmem : row ∈ allFkNames es.db := by
      unfold storedFkRows at hrow
      cases hget : getTable es.db schemaName (getCaseNormalizedString env.ci entityName) with
      | none => rw [hget] at hrow; exact absurd hrow (List.not_mem_nil row)
      | some tbl =>
          rw [hget] at hrow
          exact table_fk_mem_allFkNames es.db _ _ tbl hget row hrow
    have hgr : env.gen i = row := by rw [← hi3, heq]
    rw [← hgr] at hmem
    exact hfresh i hi1 hmem
  have hnm2 : ∀ row ∈ storedFkRows (runQry env (Qry.listFks e.moduleName
      (getCaseNormalizedString env.ci entityName) schemaName)
      { es with k := (getEntityRelationshipConstraint env.ci env.gen e es.k).2 }).1.db
      schemaName (getCaseNormalizedString env.ci entityName),
      ∀ c ∈ (getEntityRelationshipConstraint env.ci env.gen e es.k).1,
      ¬ c.constraintName = row := by
    rw [hdb1]
    exact hnm
  have hstep : urEntityBody env dropOnly entityName e schemaName es =
      urDropCreate env dropOnly e (getCaseNormalizedString env.ci entityName) schemaName
        (getEntityRelationshipConstraint env.ci env.gen e es.k).1
        (runQry env (Qry.listFks e.moduleName (getCaseNormalizedString env.ci entityName)
          schemaName)
          { es with k := (getEntityRelationshipConstraint env.ci env.gen e es.k).2 }).1 := by
    simp only [urEntityBody, hq.1]
    simp
  obtain ⟨hf, hk, hfl, hmono, hloc, hfk, hdrop⟩ :=
    urDropCreate_spec env dropOnly e (getCaseNormalizedString env.ci entityName) schemaName
      (getEntityRelationshipConstraint env.ci env.gen e es.k).1
      (runQry env (Qry.listFks e.moduleName (getCaseNormalizedString env.ci entityName)
        schemaName)
        { es with k := (getEntityRelationshipConstraint env.ci env.gen e es.k).2 }).1
      hnf hnm2
  rw [hstep]
  refine ⟨hf, ?_, ?_, ?_, ?_, ?_, ?_⟩
  · rw [hk, hq.2.2.2.1]
    exact getEntityRelationshipConstraint_snd env.ci env.gen e es.k
  · rw [hfl, hq.2.2.2.2]
  · intro q2 h2
    apply hmono
    rw [hq.2.2.1]
    exact List.mem_append_left _ h2
  · intro sn2 tn2 hne
    rw [hloc sn2 tn2 hne, hdb1]
  · intro x hx
    rcases hfk x hx with h | h
    · rw [hdb1] at h
      exact Or.inl h
    · obtain ⟨c, hc, heq⟩ := h
      obtain ⟨i, hi1, hi2, hi3⟩ := mem_constraint_name env.ci env.gen e es.k c hc
      exact Or.inr ⟨i, hi1, hi2, by rw [heq, hi3]⟩
  · intro tbl hget fk hfk2
    apply hdrop fk
    rw [hdb1]
    unfold storedFkRows
    simp only [hget]
    exact hfk2

theorem urEntities_spec (env : SyncEnv) (dropOnly : Bool)
    (hnf : ∀ q, env.fails q = false) (hinj : Function.Injective env.gen) :
    ∀ (lst : List (String × Entity)) (es : ES),
    (∀ j, es.k ≤ j → env.gen j ∉ allFkNames es.db) →
    (∀ p ∈ lst, (connSchema env p.2.moduleName).isSome = true) →
    (lst.map (fun p => (connSchema env p.2.moduleName,
      getCaseNormalizedString env.ci p.1))).Nodup →
    (urEntities env dropOnly lst es).2 = RunFlow.ok true ∧
    es.k ≤ (urEntities env dropOnly lst es).1.k ∧
    (urEntities env dropOnly lst es).1.fkFlag = es.fkFlag ∧
    (∀ q2 ∈ es.trace, q2 ∈ (urEntities env dropOnly lst es).1.trace) ∧
    (∀ sn2 tn2, (∀ p ∈ lst, ¬ (connSchema env p.2.moduleName = some sn2 ∧
        getCaseNormalizedString env.ci p.1 = tn2)) →
      getTable (urEntities env dropOnly lst es).1.db sn2 tn2 = getTable es.db sn2 tn2) ∧
    (∀ x, x ∈ allFkNames (urEntities env dropOnly lst es).1.db →
      x ∈ allFkNames es.db ∨
        ∃ j, es.k ≤ j ∧ j < (urEntities env dropOnly lst es).1.k ∧ x = env.gen j) ∧
    (∀ p ∈ lst, ∀ sn tbl, connSchema env p.2.moduleName = some sn →
      getTable es.db sn (getCaseNormalizedString env.ci p.1) = some tbl →
      ∀ fk ∈ tbl.foreignKeys,
        Qry.dropFk p.2.moduleName (getCaseNormalizedString env.ci p.1) fk ∈
          (urEntities env dropOnly lst es).1.trace) := by
  intro lst
  induction lst with
  | nil =>
    intro es hfresh hcs hnd
    refine ⟨rfl, le_refl _, rfl, fun q2 h => h, fun sn2 tn2 h => rfl, ?_, ?_⟩
    · intro x h; exact Or.inl h
    · intro p hp; exact absurd hp (List.not_mem_nil p)
  | cons hd rest ih =>
    obtain ⟨entityName, e⟩ := hd
    intro es hfresh hcs hnd
    have hcshd := hcs (entityName, e) (List.mem_cons_self _ rest)
    obtain ⟨schemaName, hcs0⟩ := Option.isSome_iff_exists.mp hcshd
    obtain ⟨hf, hk, hfl, hmono, hloc, hfkn, hdrop⟩ :=
      urEntityBody_spec env dropOnly entityName e schemaName es hnf hfresh
    have hstep : urEntities env dropOnly ((entityName, e) :: rest) es =
        urEntities env dropOnly rest
          (urEntityBody env dropOnly entityName e schemaName es).1 := by
      simp only [urEntities, hcs0, hf]
    have hfresh2 : ∀ j, (urEntityBody env dropOnly entityName e schemaName es).1.k ≤ j →
        env.gen j ∉ allFkNames (urEntityBody env dropOnly entityName e schemaName es).1.db := by
      intro j hj hmem
      have hj2 : es.k ≤ j := by rw [hk] at hj; omega
      rcases hfkn (env.gen j) hmem with h | ⟨i, hi1, hi2, hi3⟩
      · exact hfresh j hj2 h
      · have hji := hinj hi3
        rw [hk] at hj
        omega
    have hcs2 : ∀ p ∈ rest, (connSchema env p.2.moduleName).isSome = true :=
      fun p hp => hcs p (List.mem_cons_of_mem _ hp)
    rw [List.map_cons, List.nodup_cons] at hnd
    obtain ⟨hnotin, hnd2⟩ := hnd
    obtain ⟨ihf, ihk, ihfl, ihmono, ihloc, ihfkn, ihdrop⟩ :=
      ih (urEntityBody env dropOnly entityName e schemaName es).1 hfresh2 hcs2 hnd2
    rw [hstep]
    refine ⟨ihf, ?_, by rw [ihfl, hfl], fun q2 h2 => ihmono q2 (hmono q2 h2), ?_, ?_, ?_⟩
    · exact le_trans (by rw [hk]; omega) ihk
    · intro sn2 tn2 hne
      rw [ihloc sn2 tn2 (fun p hp => hne p (List.mem_cons_of_mem _ hp)),
        hloc sn2 tn2 (hne (entityName, e) (List.mem_cons_self _ rest))]
    · intro x hx
      rcases ihfkn x hx with h | ⟨j, hj1, hj2, hj3⟩
      · rcases hfkn x h with h2 | ⟨i, hi1, hi2, hi3⟩
        · exact Or.inl h2
        · refine Or.inr ⟨i, hi1, ?_, hi3⟩
          rw [hk] at ihk
          omega
      · refine Or.inr ⟨j, ?_, hj2, hj3⟩
        rw [hk] at hj1
        omega
    · intro p hp sn tbl hcsp hget fk hfk2
      rcases List.mem_cons.mp hp with h | hp2
      · subst h
        dsimp only at hcsp hget ⊢
        rw [hcs0] at hcsp
        injection hcsp with hsn
        subst hsn
        exact ihmono _ (hdrop tbl hget fk hfk2)
      · have hneq : ¬ (connSchema env e.moduleName = some sn ∧
            getCaseNormalizedString env.ci entityName = getCaseNormalizedString env.ci p.1) := by
          rintro ⟨h1, h2⟩
          apply hnotin
          rw [List.mem_map]
          refine ⟨p, hp2, ?_⟩
          rw [hcsp, h1, h2]
        have hget2 : getTable (urEntityBody env dropOnly entityName e schemaName es).1.db sn
            (getCaseNormalizedString env.ci p.1) = some tbl := by
          rw [hloc sn (getCaseNormalizedString env.ci p.1) hneq, hget]
        exact ihdrop p hp2 sn tbl hcsp hget2 fk hfk2

theorem runQry_setFkChecks_pres (env : SyncEnv) (m : String) (b : Bool) (es : ES) :
    (runQry env (Qry.setFkChecks m b) es).1.db.schemas = es.db.schemas ∧
    (runQry env (Qry.setFkChecks m b) es).1.k = es.k := by
  unfold runQry
  by_cases h : (env.fails (Qry.setFkChecks m b) ||
      semanticallyFails env (Qry.setFkChecks m b) es.db) = true
  · rw [if_pos h]; exact ⟨rfl, rfl⟩
  · rw [if_neg h]; exact ⟨rfl, rfl⟩

theorem disableFkAux_pres (env : SyncEnv) :
    ∀ (conns : List ModuleConnection) (es : ES),
    (disableFkAux env conns es).1.db.schemas = es.db.schemas ∧
    (disableFkAux env conns es).1.k = es.k := by
  intro conns
  induction conns with
  | nil => intro es; exact ⟨rfl, rfl⟩
  | cons mc rest ih =>
    intro es
    unfold disableFkAux
    by_cases hr : (runQry env (Qry.setFkChecks mc.moduleName false) es).2
    · rw [if_pos hr]
      obtain ⟨h1, h2⟩ := ih
        { (runQry env (Qry.setFkChecks mc.moduleName false) es).1 with fkFlag := true }
      obtain ⟨h3, h4⟩ := runQry_setFkChecks_pres env mc.moduleName false es
      exact ⟨by rw [h1]; exact h3, by rw [h2]; exact h4⟩
    · rw [if_neg hr]
      exact runQry_setFkChecks_pres env mc.moduleName false es

/-- Claim C9.  Stored foreign keys are matched against constraint names
that `getEntityRelationshipConstraint` generates afresh on every call
(src/index.js 1749-1751: an md5 of the current timestamp plus a random
number, modelled by the generator `env.gen` with its injectivity and
freshness stated as hypotheses).  Under those hypotheses the matching
branch of the stored-FK loop — whose `existingForeignKeys.push` at
src/index.js 1666 precedes the `let existingForeignKeys` declaration at
1675 and would therefore throw the use-before-declaration ReferenceError
(`RunFlow.tdz`) — is unreachable: `updateRelationships` never ends in
`RunFlow.tdz`, it completes with `ok true`, and every stored foreign key
of every entity's table goes down the drop branch (its DROP FOREIGN KEY
statement is issued). -/
theorem c9_no_tdz (env : SyncEnv) (dm : DataModel) (dropOnly : Bool) (es : ES)
    (hnf : ∀ q, env.fails q = false)
    (hinj : Function.Injective env.gen)
    (hfresh : ∀ j, es.k ≤ j → env.gen j ∉ allFkNames es.db)
    (hcs : ∀ p ∈ dm, (connSchema env p.2.moduleName).isSome = true)
    (hnd : (dm.map (fun p => (connSchema env p.2.moduleName,
      getCaseNormalizedString env.ci p.1))).Nodup) :
    (updateRelationships env dm dropOnly es).2 ≠ RunFlow.tdz ∧
    (updateRelationships env dm dropOnly es).2 = RunFlow.ok true ∧
    (∀ p ∈ dm, ∀ sn tbl, connSchema env p.2.moduleName = some sn →
      getTable es.db sn (getCaseNormalizedString env.ci p.1) = some tbl →
      ∀ fk ∈ tbl.foreignKeys,
        Qry.dropFk p.2.moduleName (getCaseNormalizedString env.ci p.1) fk ∈
          (updateRelationships env dm dropOnly es).1.trace) := by
  set es1 := if es.fkFlag = false then (disableForeignKeyChecks env es).1 else es with hes1
  have hs1 : es1.db.schemas = es.db.schemas ∧ es1.k = es.k := by
    rw [hes1]
    by_cases hf : es.fkFlag = false
    · rw [if_pos hf]; exact disableFkAux_pres env env.conns es
    · rw [if_neg hf]; exact ⟨rfl, rfl⟩
  have hafk : allFkNames es1.db = allFkNames es.db := by
    unfold allFkNames
    rw [hs1.1]
  have hgt : ∀ sn tn, getTable es1.db sn tn = getTable es.db sn tn := by
    intro sn tn
    unfold getTable
    rw [hs1.1]
  have hfresh1 : ∀ j, es1.k ≤ j → env.gen j ∉ allFkNames es1.db := by
    intro j hj
    rw [hafk]
    exact hfresh j (by rw [← hs1.2]; exact hj)
  obtain ⟨uf, uk, ufl, umono, uloc, ufkn, udrop⟩ :=
    urEntities_spec env dropOnly hnf hinj dm es1 hfresh1 hcs hnd
  have hstep : updateRelationships env dm dropOnly es =
      (if (urEntities env dropOnly dm es1).1.fkFlag then
        (restoreForeignKeyChecks env (urEntities env dropOnly dm es1).1).1
      else (urEntities env dropOnly dm es1).1, RunFlow.ok true) := by
    simp only [updateRelationships]
    rw [← hes1]
    simp only [uf]
  rw [hstep]
  refine ⟨fun h => RunFlow.noConfusion h, rfl, ?_⟩
  intro p hp sn tbl hcsp hget fk hfk
  have hget1 : getTable es1.db sn (getCaseNormalizedString env.ci p.1) = some tbl := by
    rw [hgt, hget]
  have hmem := udrop p hp sn tbl hcsp hget1 fk hfk
  by_cases hflag : (urEntities env dropOnly dm es1).1.fkFlag
  · rw [if_pos hflag]
    exact mem_trace_restoreFkAux env env.conns _ _ hmem
  · rw [if_neg hflag]
    exact hmem

/-- A table holding one stored foreign key named `zaa` — the name the
example generator produced at position 2, so a counter at 3 never
regenerates it. -/
def c9Tbl : DbTable := DbTable.mk [] [] ["zaa"]

/-- Module schema with that one table, FK checks on, counter at 3. -/
def c9Es0 : ES :=
  ES.mk (DbState.mk [("s", [("ent_b", c9Tbl)])] [("main", true)] [("main", true)]) false 3 []

/-- Witness for C9 at a concrete state: one stored foreign key `zaa` on
`ent_b`; the run ends `ok true` — not in the ReferenceError — and the
stored key's DROP appears in the trace. -/
theorem c9_no_tdz_witness :
    (updateRelationships exEnv exModel false c9Es0).2 ≠ RunFlow.tdz ∧
    (updateRelationships exEnv exModel false c9Es0).2 = RunFlow.ok true ∧
    Qry.dropFk "main" "ent_b" "zaa" ∈
      (updateRelationships exEnv exModel false c9Es0).1.trace := by
  have h := c9_no_tdz exEnv exModel false c9Es0 (fun q => rfl) exGen_injective
    (by
      intro j hj hmem
      have hzaa : exGen j = "zaa" := by
        have he : allFkNames c9Es0.db = ["zaa"] := rfl
        rw [he] at hmem
        exact List.mem_singleton.mp hmem
      have hj2 : j = 2 := exGen_injective (hzaa.trans rfl)
      have hk3 : c9Es0.k = 3 := rfl
      rw [hk3] at hj
      omega)
    (by decide) (by decide)
  refine ⟨h.1, h.2.1, ?_⟩
  exact h.2.2
    ("entB", Entity.mk "main" [("bOne", Attribute.mk "varchar" (some "50") none true)]
      [] [("entA", ["ownerRole"])] (some (EntityOptions.mk (some true) (some true))))
    (by decide) "s" c9Tbl rfl rfl "zaa" (by decide)

/-! ## Claim C5: restoring FOREIGN_KEY_CHECKS on exit paths -/

/-- A driver in which every SHOW FULL TABLES statement fails and
everything else succeeds. -/
def c5Env : SyncEnv := SyncEnv.mk CaseImpl.snakecase exGen exConns
  (fun q => match q with | Qry.showFullTables _ => true | _ => false)

/-- Counterexample to claim C5.  `syncDatabase` disables
FOREIGN_KEY_CHECKS on every connection right after the integrity check;
when the subsequent SHOW FULL TABLES fails, `getDatabaseTables` calls
`process.exit(1)` (src/index.js 2201-2208) with no restore on that exit
path: the run terminates with FOREIGN_KEY_CHECKS = 0 still set on the
module connection (and the disabled-flag still raised). -/
theorem c5_counterexample :
    (syncDatabase c5Env exModel exEs0).2 = RunFlow.exited 1 ∧
    alistGet (syncDatabase c5Env exModel exEs0).1.db.fkChecksOn "main" = some false ∧
    (syncDatabase c5Env exModel exEs0).1.fkFlag = true := by
  refine ⟨?_, ?_, ?_⟩ <;> rfl

theorem restoreFkAux_checks (env : SyncEnv) (hnf : ∀ q, env.fails q = false) :
    ∀ (conns : List ModuleConnection) (es : ES) (m : String),
    ((∃ mc ∈ conns, mc.moduleName = m) ∨ alistGet es.db.fkChecksOn m = some true) →
    alistGet (restoreFkAux env conns es).1.db.fkChecksOn m = some true := by
  intro conns
  induction conns with
  | nil =>
    intro es m h
    rcases h with ⟨mc, hmc, _⟩ | h
    · exact absurd hmc (List.not_mem_nil mc)
    · exact h
  | cons mc rest ih =>
    intro es m h
    have hq := runQry_ok env (Qry.setFkChecks mc.moduleName true) es (hnf _) rfl
    unfold restoreFkAux
    rw [if_pos hq.1]
    have hdb : (runQry env (Qry.setFkChecks mc.moduleName true) es).1.db.fkChecksOn =
        alistSet es.db.fkChecksOn mc.moduleName true := by
      rw [hq.2.1]
      rfl
    apply ih
    rcases h with ⟨mc2, hmc2, hm⟩ | h
    · rcases List.mem_cons.mp hmc2 with h2 | h2
      · subst h2
        right
        rw [hdb, alistGet_alistSet, if_pos hm]
      · exact Or.inl ⟨mc2, h2, hm⟩
    · right
      rw [hdb, alistGet_alistSet]
      by_cases hm : mc.moduleName = m
      · rw [if_pos hm]
      · rw [if_neg hm]
        exact h

theorem disableFkAux_flag (env : SyncEnv) (hnf : ∀ q, env.fails q = false) :
    ∀ (conns : List ModuleConnection) (es : ES), conns ≠ [] →
    (disableFkAux env conns es).1.fkFlag = true := by
  intro conns
  induction conns with
  | nil => intro es h; exact absurd rfl h
  | cons mc rest ih =>
    intro es _
    have hq := runQry_ok env (Qry.setFkChecks mc.moduleName false) es (hnf _) rfl
    unfold disableFkAux
    rw [if_pos hq.1]
    cases rest with
    | nil => rfl
    | cons mc2 rest2 => exact ih _ (by exact fun h => List.noConfusion h)

/-- Claim C5 (amended).  On the phase-completion paths the engine does
restore: under a non-failing driver and the freshness hypotheses on the
generated constraint names, `updateRelationships` finishes `ok true` and
its closing `restoreForeignKeyChecks` leaves FOREIGN_KEY_CHECKS = 1 on
every module connection.  The original claim over ALL terminating paths
is false: the `process.exit(1)` taken when SHOW FULL TABLES fails
(src/index.js 2207) terminates the run with the checks still disabled —
see the counterexample. -/
theorem c5_amended (env : SyncEnv) (dm : DataModel) (dropOnly : Bool) (es : ES)
    (hnf : ∀ q, env.fails q = false)
    (hinj : Function.Injective env.gen)
    (hfresh : ∀ j, es.k ≤ j → env.gen j ∉ allFkNames es.db)
    (hcs : ∀ p ∈ dm, (connSchema env p.2.moduleName).isSome = true)
    (hnd : (dm.map (fun p => (connSchema env p.2.moduleName,
      getCaseNormalizedString env.ci p.1))).Nodup) :
    (updateRelationships env dm dropOnly es).2 = RunFlow.ok true ∧
    (∀ mc ∈ env.conns,
      alistGet (updateRelationships env dm dropOnly es).1.db.fkChecksOn mc.moduleName =
        some true) := by
  set es1 := if es.fkFlag = false then (disableForeignKeyChecks env es).1 else es with hes1
  have hs1 : es1.db.schemas = es.db.schemas ∧ es1.k = es.k := by
    rw [hes1]
    by_cases hf : es.fkFlag = false
    · rw [if_pos hf]; exact disableFkAux_pres env env.conns es
    · rw [if_neg hf]; exact ⟨rfl, rfl⟩
  have hafk : allFkNames es1.db = allFkNames es.db := by
    unfold allFkNames
    rw [hs1.1]
  have hfresh1 : ∀ j, es1.k ≤ j → env.gen j ∉ allFkNames es1.db := by
    intro j hj
    rw [hafk]
    exact hfresh j (by rw [← hs1.2]; exact hj)
  obtain ⟨uf, uk, ufl, umono, uloc, ufkn, udrop⟩ :=
    urEntities_spec env dropOnly hnf hinj dm es1 hfresh1 hcs hnd
  have hstep : updateRelationships env dm dropOnly es =
      (if (urEntities env dropOnly dm es1).1.fkFlag then
        (restoreForeignKeyChecks env (urEntities env dropOnly dm es1).1).1
      else (urEntities env dropOnly dm es1).1, RunFlow.ok true) := by
    simp only [updateRelationships]
    rw [← hes1]
    simp only [uf]
  rw [hstep]
  refine ⟨rfl, ?_⟩
  intro mc hmc
  by_cases hflag : (urEntities env dropOnly dm es1).1.fkFlag
  · rw [if_pos hflag]
    exact restoreFkAux_checks env hnf env.conns _ mc.moduleName
      (Or.inl ⟨mc, hmc, rfl⟩)
  · exfalso
    apply hflag
    rw [ufl, hes1]
    by_cases hf : es.fkFlag = false
    · rw [if_pos hf]
      exact disableFkAux_flag env hnf env.conns es
        (by
          intro hnil
          rw [hnil] at hmc
          exact absurd hmc (List.not_mem_nil mc))
    · rw [if_neg hf]
      cases hfe : es.fkFlag with
      | true => rfl
      | false => exact absurd hfe hf

/-- Witness for the amended C5: on the empty example database the
relationship pass completes and FOREIGN_KEY_CHECKS is back to 1 on the
module connection. -/
theorem c5_amended_witness :
    (updateRelationships exEnv exModel true exEs0).2 = RunFlow.ok true ∧
    alistGet (updateRelationships exEnv exModel true exEs0).1.db.fkChecksOn "main" =
      some true := by
  have h := c5_amended exEnv exModel true exEs0 (fun q => rfl) exGen_injective
    (by
      intro j hj hmem
      have he : allFkNames exEs0.db = [] := rfl
      rw [he] at hmem
      exact absurd hmem (List.not_mem_nil _))
    (by decide) (by decide)
  exact ⟨h.1, h.2 (ModuleConnection.mk "main" "s") (by decide)⟩

/-! ## Statement counts of the relationship pass (claim C1, amended) -/

theorem countDropFk_append (a b : List Qry) :
    countDropFk (a ++ b) = countDropFk a + countDropFk b := by
  unfold countDropFk
  rw [List.filter_append, List.length_append]

theorem countAddFk_append (a b : List Qry) :
    countAddFk (a ++ b) = countAddFk a + countAddFk b := by
  unfold countAddFk
  rw [List.filter_append, List.length_append]

theorem countColDdl_append (a b : List Qry) :
    countColDdl (a ++ b) = countColDdl a + countColDdl b := by
  unfold countColDdl
  rw [List.filter_append, List.length_append]

theorem countAddIndex_append (a b : List Qry) :
    countAddIndex (a ++ b) = countAddIndex a + countAddIndex b := by
  unfold countAddIndex
  rw [List.filter_append, List.length_append]

theorem countDropIndex_append (a b : List Qry) :
    countDropIndex (a ++ b) = countDropIndex a + countDropIndex b := by
  unfold countDropIndex
  rw [List.filter_append, List.length_append]

theorem fkRowLoop_step (env : SyncEnv) (schemaName tableName moduleName : String)
    (constraints : List RelConstraint) (row : String) (rest : List String) (es : ES)
    (hnm1 : ∀ c ∈ constraints, ¬ c.constraintName = row)
    (hok : (runQry env (Qry.dropFk moduleName tableName row) es).2 = true) :
    fkRowLoop env schemaName tableName moduleName constraints (row :: rest) es =
      fkRowLoop env schemaName tableName moduleName constraints rest
        (runQry env (Qry.dropFk moduleName tableName row) es).1 := by
  have hfound : (if constraints.length ≠ 0 then
      constraints.find? (fun c => c.constraintName == row) else none) = none := by
    by_cases hl : constraints.length ≠ 0
    · rw [if_pos hl]
      apply List.find?_eq_none.mpr
      intro c hc
      simp only [beq_iff_eq]
      exact hnm1 c hc
    · rw [if_neg hl]
  simp only [fkRowLoop, hfound, hok]
  simp

theorem fkCreateLoop_step (env : SyncEnv) (e : Entity) (tableName moduleName : String)
    (c : RelConstraint) (rest : List RelConstraint) (es : ES)
    (hok : (runQry env (fkCreateQry env e tableName moduleName c) es).2 = true) :
    fkCreateLoop env e tableName moduleName (c :: rest) es =
      fkCreateLoop env e tableName moduleName rest
        (runQry env (fkCreateQry env e tableName moduleName c) es).1 := by
  simp only [fkCreateLoop, hok]
  simp

theorem fkRowLoop_counts (env : SyncEnv) (schemaName tableName moduleName : String)
    (constraints : List RelConstraint) (hnf : ∀ q, env.fails q = false) :
    ∀ (rows : List String) (es : ES),
    (∀ r ∈ rows, ∀ c ∈ constraints, ¬ c.constraintName = r) →
    countDropFk (fkRowLoop env schemaName tableName moduleName constraints rows es).1.trace =
      countDropFk es.trace + rows.length ∧
    countAddFk (fkRowLoop env schemaName tableName moduleName constraints rows es).1.trace =
      countAddFk es.trace ∧
    countColDdl (fkRowLoop env schemaName tableName moduleName constraints rows es).1.trace =
      countColDdl es.trace ∧
    countAddIndex (fkRowLoop env schemaName tableName moduleName constraints rows es).1.trace =
      countAddIndex es.trace ∧
    countDropIndex (fkRowLoop env schemaName tableName moduleName constraints rows es).1.trace =
      countDropIndex es.trace := by
  intro rows
  induction rows with
  | nil => intro es hnm; exact ⟨by simp [fkRowLoop], rfl, rfl, rfl, rfl⟩
  | cons row rest ih =>
    intro es hnm
    have hq := runQry_ok env (Qry.dropFk moduleName tableName row) es (hnf _) rfl
    rw [fkRowLoop_step env schemaName tableName moduleName constraints row rest es
      (hnm row (List.mem_cons_self row rest)) hq.1]
    obtain ⟨h1, h2, h3, h4, h5⟩ := ih (runQry env (Qry.dropFk moduleName tableName row) es).1
      (fun r hr c hc => hnm r (List.mem_cons_of_mem row hr) c hc)
    have ht := hq.2.2.1
    refine ⟨?_, ?_, ?_, ?_, ?_⟩
    · rw [h1, ht, countDropFk_append]
      have : countDropFk [Qry.dropFk moduleName tableName row] = 1 := rfl
      rw [this]
      simp [List.length_cons]
      omega
    · rw [h2, ht, countAddFk_append]
      have : countAddFk [Qry.dropFk moduleName tableName row] = 0 := rfl
      rw [this]
      omega
    · rw [h3, ht, countColDdl_append]
      have : countColDdl [Qry.dropFk moduleName tableName row] = 0 := rfl
      rw [this]
      omega
    · rw [h4, ht, countAddIndex_append]
      have : countAddIndex [Qry.dropFk moduleName tableName row] = 0 := rfl
      rw [this]
      omega
    · rw [h5, ht, countDropIndex_append]
      have : countDropIndex [Qry.dropFk moduleName tableName row] = 0 := rfl
      rw [this]
      omega


theorem fkCreateLoop_counts (env : SyncEnv) (e : Entity) (tableName moduleName : String)
    (hnf : ∀ q, env.fails q = false) :
    ∀ (cs : List RelConstraint) (es : ES),
    countDropFk (fkCreateLoop env e tableName moduleName cs es).1.trace =
      countDropFk es.trace ∧
    countAddFk (fkCreateLoop env e tableName moduleName cs es).1.trace =
      countAddFk es.trace + cs.length ∧
    countColDdl (fkCreateLoop env e tableName moduleName cs es).1.trace =
      countColDdl es.trace ∧
    countAddIndex (fkCreateLoop env e tableName moduleName cs es).1.trace =
      countAddIndex es.trace ∧
    countDropIndex (fkCreateLoop env e tableName moduleName cs es).1.trace =
      countDropIndex es.trace := by
  intro cs
  induction cs with
  | nil => intro es; exact ⟨rfl, by simp [fkCreateLoop], rfl, rfl, rfl⟩
  | cons c rest ih =>
    intro es
    have hq := runQry_ok env (fkCreateQry env e tableName moduleName c) es (hnf _) rfl
    rw [fkCreateLoop_step env e tableName moduleName c rest es hq.1]
    obtain ⟨h1, h2, h3, h4, h5⟩ := ih (runQry env (fkCreateQry env e tableName moduleName c) es).1
    have ht := hq.2.2.1
    have hone : countAddFk [fkCreateQry env e tableName moduleName c] = 1 := rfl
    have hz1 : countDropFk [fkCreateQry env e tableName moduleName c] = 0 := rfl
    have hz2 : countColDdl [fkCreateQry env e tableName moduleName c] = 0 := rfl
    have hz3 : countAddIndex [fkCreateQry env e tableName moduleName c] = 0 := rfl
    have hz4 : countDropIndex [fkCreateQry env e tableName moduleName c] = 0 := rfl
    refine ⟨?_, ?_, ?_, ?_, ?_⟩
    · rw [h1, ht, countDropFk_append, hz1]; omega
    · rw [h2, ht, countAddFk_append, hone]
      simp [List.length_cons]
      omega
    · rw [h3, ht, countColDdl_append, hz2]; omega
    · rw [h4, ht, countAddIndex_append, hz3]; omega
    · rw [h5, ht, countDropIndex_append, hz4]; omega

theorem genRoleAux_length (ci : CaseImpl) (gen : Nat → String) (rel : String) :
    ∀ (roles : List String) (k : Nat),
    (genRoleAux ci gen rel roles k).1.length = roles.length := by
  intro roles
  induction roles with
  | nil => intro k; rfl
  | cons r rest ih =>
    intro k
    simp only [genRoleAux, List.length_cons, ih]

theorem genConstraintsAux_length (ci : CaseImpl) (gen : Nat → String) :
    ∀ (rels : List (String × List String)) (k : Nat),
    (genConstraintsAux ci gen rels k).1.length =
      (rels.map (fun p => p.2.length)).sum := by
  intro rels
  induction rels with
  | nil => intro k; rfl
  | cons p rest ih =>
    intro k
    obtain ⟨rel, roles⟩ := p
    simp only [genConstraintsAux, List.length_append, genRoleAux_length, ih,
      List.map_cons, List.sum_cons]

theorem getEntityRelationshipConstraint_length (ci : CaseImpl) (gen : Nat → String)
    (e : Entity) (k : Nat) :
    (getEntityRelationshipConstraint ci gen e k).1.length = entityRoleCount e :=
  genConstraintsAux_length ci gen e.relationships k

theorem urDropCreate_counts (env : SyncEnv) (e : Entity)
    (tableName schemaName : String) (constraints : List RelConstraint) (es : ES)
    (hnf : ∀ q, env.fails q = false)
    (hnm : ∀ row ∈ storedFkRows es.db schemaName tableName,
      ∀ c ∈ constraints, ¬ c.constraintName = row) :
    countDropFk (urDropCreate env false e tableName schemaName constraints es).1.trace =
      countDropFk es.trace + (storedFkRows es.db schemaName tableName).length ∧
    countAddFk (urDropCreate env false e tableName schemaName constraints es).1.trace =
      countAddFk es.trace + constraints.length ∧
    countColDdl (urDropCreate env false e tableName schemaName constraints es).1.trace =
      countColDdl es.trace ∧
    countAddIndex (urDropCreate env false e tableName schemaName constraints es).1.trace =
      countAddIndex es.trace ∧
    countDropIndex (urDropCreate env false e tableName schemaName constraints es).1.trace =
      countDropIndex es.trace := by
  have hdf := (fkRowLoop_spec env schemaName tableName e.moduleName constraints hnf
    (storedFkRows es.db schemaName tableName) es hnm).1
  have hfilter : constraints.filter
      (fun x => ! List.contains ([] : List String) x.constraintName) = constraints :=
    List.filter_eq_self.mpr (fun a _ => rfl)
  have hcf := (fkCreateLoop_spec env e tableName e.moduleName hnf constraints
    (fkRowLoop env schemaName tableName e.moduleName constraints
      (storedFkRows es.db schemaName tableName) es).1).1
  have hstep : urDropCreate env false e tableName schemaName constraints es =
      ((fkCreateLoop env e tableName e.moduleName constraints
        (fkRowLoop env schemaName tableName e.moduleName constraints
          (storedFkRows es.db schemaName tableName) es).1).1, RunFlow.ok true) := by
    simp only [urDropCreate, hdf, hfilter, hcf]
    simp
  rw [hstep]
  obtain ⟨d1, d2, d3, d4, d5⟩ := fkRowLoop_counts env schemaName tableName e.moduleName
    constraints hnf (storedFkRows es.db schemaName tableName) es hnm
  obtain ⟨c1, c2, c3, c4, c5⟩ := fkCreateLoop_counts env e tableName e.moduleName hnf
    constraints
    (fkRowLoop env schemaName tableName e.moduleName constraints
      (storedFkRows es.db schemaName tableName) es).1
  exact ⟨by rw [c1, d1], by rw [c2, d2], by rw [c3, d3], by rw [c4, d4], by rw [c5, d5]⟩

theorem urEntityBody_counts (env : SyncEnv) (entityName : String)
    (e : Entity) (schemaName : String) (es : ES)
    (hnf : ∀ q, env.fails q = false)
    (hfresh : ∀ j, es.k ≤ j → env.gen j ∉ allFkNames es.db) :
    countDropFk (urEntityBody env false entityName e schemaName es).1.trace =
      countDropFk es.trace +
        (storedFkRows es.db schemaName (getCaseNormalizedString env.ci entityName)).length ∧
    countAddFk (urEntityBody env false entityName e schemaName es).1.trace =
      countAddFk es.trace + entityRoleCount e ∧
    countColDdl (urEntityBody env false entityName e schemaName es).1.trace =
      countColDdl es.trace ∧
    countAddIndex (urEntityBody env false entityName e schemaName es).1.trace =
      countAddIndex es.trace ∧
    countDropIndex (urEntityBody env false entityName e schemaName es).1.trace =
      countDropIndex es.trace := by
  have hq := runQry_ok env (Qry.listFks e.moduleName
      (getCaseNormalizedString env.ci entityName) schemaName)
    { es with k := (getEntityRelationshipConstraint env.ci env.gen e es.k).2 } (hnf _) rfl
  have hdb1 : (runQry env (Qry.listFks e.moduleName
      (getCaseNormalizedString env.ci entityName) schemaName)
      { es with k := (getEntityRelationshipConstraint env.ci env.gen e es.k).2 }).1.db
      = es.db := by
    rw [hq.2.1]
    rfl
  have hnm : ∀ row ∈ storedFkRows es.db schemaName
      (getCaseNormalizedString env.ci entityName),
      ∀ c ∈ (getEntityRelationshipConstraint env.ci env.gen e es.k).1,
      ¬ c.constraintName = row := by
    intro row hrow c hc heq
    obtain ⟨i, hi1, hi2, hi3⟩ := mem_constraint_name env.ci env.gen e es.k c hc
    have hmem : row ∈ allFkNames es.db := by
      unfold storedFkRows at hrow
      cases hget : getTable es.db schemaName (getCaseNormalizedString env.ci entityName) with
      | none => rw [hget] at hrow; exact absurd hrow (List.not_mem_nil row)
      | some tbl =>
          rw [hget] at hrow
          exact table_fk_mem_allFkNames es.db _ _ tbl hget row hrow
    have hgr : env.gen i = row := by rw [← hi3, heq]
    rw [← hgr] at hmem
    exact hfresh i hi1 hmem
  have hnm2 : ∀ row ∈ storedFkRows (runQry env (Qry.listFks e.moduleName
      (getCaseNormalizedString env.ci entityName) schemaName)
      { es with k := (getEntityRelationshipConstraint env.ci env.gen e es.k).2 }).1.db
      schemaName (getCaseNormalizedString env.ci entityName),
      ∀ c ∈ (getEntityRelationshipConstraint env.ci env.gen e es.k).1,
      ¬ c.constraintName = row := by
    rw [hdb1]
    exact hnm
  have hstep : urEntityBody env false entityName e schemaName es =
      urDropCreate env false e (getCaseNormalizedString env.ci entityName) schemaName
        (getEntityRelationshipConstraint env.ci env.gen e es.k).1
        (runQry env (Qry.listFks e.moduleName (getCaseNormalizedString env.ci entityName)
          schemaName)
          { es with k := (getEntityRelationshipConstraint env.ci env.gen e es.k).2 }).1 := by
    simp only [urEntityBody, hq.1]
    simp
  rw [hstep]
  obtain ⟨u1, u2, u3, u4, u5⟩ := urDropCreate_counts env e
    (getCaseNormalizedString env.ci entityName) schemaName
    (getEntityRelationshipConstraint env.ci env.gen e es.k).1
    (runQry env (Qry.listFks e.moduleName (getCaseNormalizedString env.ci entityName)
      schemaName)
      { es with k := (getEntityRelationshipConstraint env.ci env.gen e es.k).2 }).1
    hnf hnm2
  have ht := hq.2.2.1
  have hz : ∀ m t s, countDropFk [Qry.listFks m t s] = 0 ∧
      countAddFk [Qry.listFks m t s] = 0 ∧ countColDdl [Qry.listFks m t s] = 0 ∧
      countAddIndex [Qry.listFks m t s] = 0 ∧ countDropIndex [Qry.listFks m t s] = 0 :=
    fun m t s => ⟨rfl, rfl, rfl, rfl, rfl⟩
  obtain ⟨z1, z2, z3, z4, z5⟩ := hz e.moduleName
    (getCaseNormalizedString env.ci entityName) schemaName
  refine ⟨?_, ?_, ?_, ?_, ?_⟩
  · rw [u1, ht, countDropFk_append, z1, hdb1]
    simp
  · rw [u2, ht, countAddFk_append, z2,
      getEntityRelationshipConstraint_length env.ci env.gen e es.k]
    simp
  · rw [u3, ht, countColDdl_append, z3]
    simp
  · rw [u4, ht, countAddIndex_append, z4]
    simp
  · rw [u5, ht, countDropIndex_append, z5]
    simp

theorem urEntities_counts (env : SyncEnv)
    (hnf : ∀ q, env.fails q = false) (hinj : Function.Injective env.gen) :
    ∀ (lst : List (String × Entity)) (es : ES),
    (∀ j, es.k ≤ j → env.gen j ∉ allFkNames es.db) →
    (∀ p ∈ lst, (connSchema env p.2.moduleName).isSome = true) →
    (lst.map (fun p => (connSchema env p.2.moduleName,
      getCaseNormalizedString env.ci p.1))).Nodup →
    countDropFk (urEntities env false lst es).1.trace =
      countDropFk es.trace + (lst.map (fun p => (storedFkRows es.db
        ((connSchema env p.2.moduleName).getD "")
        (getCaseNormalizedString env.ci p.1)).length)).sum ∧
    countAddFk (urEntities env false lst es).1.trace =
      countAddFk es.trace + (lst.map (fun p => entityRoleCount p.2)).sum ∧
    countColDdl (urEntities env false lst es).1.trace = countColDdl es.trace ∧
    countAddIndex (urEntities env false lst es).1.trace = countAddIndex es.trace ∧
    countDropIndex (urEntities env false lst es).1.trace = countDropIndex es.trace := by
  intro lst
  induction lst with
  | nil =>
    intro es hfresh hcs hnd
    exact ⟨by simp [urEntities], by simp [urEntities], rfl, rfl, rfl⟩
  | cons hd rest ih =>
    obtain ⟨entityName, e⟩ := hd
    intro es hfresh hcs hnd
    have hcshd := hcs (entityName, e) (List.mem_cons_self _ rest)
    obtain ⟨schemaName, hcs0⟩ := Option.isSome_iff_exists.mp hcshd
    obtain ⟨hf, hk, hfl, hmono, hloc, hfkn, hdrop⟩ :=
      urEntityBody_spec env false entityName e schemaName es hnf hfresh
    obtain ⟨b1, b2, b3, b4, b5⟩ :=
      urEntityBody_counts env entityName e schemaName es hnf hfresh
    have hstep : urEntities env false ((entityName, e) :: rest) es =
        urEntities env false rest
          (urEntityBody env false entityName e schemaName es).1 := by
      simp only [urEntities, hcs0, hf]
    have hfresh2 : ∀ j, (urEntityBody env false entityName e schemaName es).1.k ≤ j →
        env.gen j ∉ allFkNames (urEntityBody env false entityName e schemaName es).1.db := by
      intro j hj hmem
      have hj2 : es.k ≤ j := by rw [hk] at hj; omega
      rcases hfkn (env.gen j) hmem with h | ⟨i, hi1, hi2, hi3⟩
      · exact hfresh j hj2 h
      · have hji := hinj hi3
        rw [hk] at hj
        omega
    have hcs2 : ∀ p ∈ rest, (connSchema env p.2.moduleName).isSome = true :=
      fun p hp => hcs p (List.mem_cons_of_mem _ hp)
    rw [List.map_cons, List.nodup_cons] at hnd
    obtain ⟨hnotin, hnd2⟩ := hnd
    obtain ⟨i1, i2, i3, i4, i5⟩ :=
      ih (urEntityBody env false entityName e schemaName es).1 hfresh2 hcs2 hnd2
    have hsum : rest.map (fun p => (storedFkRows
        (urEntityBody env false entityName e schemaName es).1.db
        ((connSchema env p.2.moduleName).getD "")
        (getCaseNormalizedString env.ci p.1)).length) =
      rest.map (fun p => (storedFkRows es.db ((connSchema env p.2.moduleName).getD "")
        (getCaseNormalizedString env.ci p.1)).length) := by
      apply List.map_congr_left
      intro p hp
      have hcsp := hcs p (List.mem_cons_of_mem _ hp)
      obtain ⟨snp, hsnp⟩ := Option.isSome_iff_exists.mp hcsp
      have hneq : ¬ (connSchema env e.moduleName =
          some ((connSchema env p.2.moduleName).getD "") ∧
          getCaseNormalizedString env.ci entityName = getCaseNormalizedString env.ci p.1) := by
        rintro ⟨h1, h2⟩
        apply hnotin
        rw [List.mem_map]
        refine ⟨p, hp, ?_⟩
        rw [hsnp] at h1
        simp only [Option.getD_some] at h1
        rw [hsnp, ← h1, ← h2]
      unfold storedFkRows
      rw [hloc _ _ hneq]
    rw [hstep]
    refine ⟨?_, ?_, ?_, ?_, ?_⟩
    · rw [i1, b1, hsum]
      simp only [List.map_cons, List.sum_cons, hcs0, Option.getD_some]
      omega
    · rw [i2, b2]
      simp only [List.map_cons, List.sum_cons]
      omega
    · rw [i3, b3]
    · rw [i4, b4]
    · rw [i5, b5]

theorem disableFkAux_filterCount (env : SyncEnv) (p : Qry → Bool)
    (hp : ∀ m b, p (Qry.setFkChecks m b) = false) :
    ∀ (conns : List ModuleConnection) (es : ES),
    ((disableFkAux env conns es).1.trace.filter p).length =
      (es.trace.filter p).length := by
  intro conns
  induction conns with
  | nil => intro es; rfl
  | cons mc rest ih =>
    intro es
    unfold disableFkAux
    have ht := runQry_trace env (Qry.setFkChecks mc.moduleName false) es
    by_cases hr : (runQry env (Qry.setFkChecks mc.moduleName false) es).2
    · rw [if_pos hr]
      have hih := ih
        { (runQry env (Qry.setFkChecks mc.moduleName false) es).1 with fkFlag := true }
      rw [hih]
      show ((runQry env (Qry.setFkChecks mc.moduleName false) es).1.trace.filter p).length
        = (es.trace.filter p).length
      rw [ht, List.filter_append, List.length_append]
      simp [hp]
    · rw [if_neg hr]
      show ((runQry env (Qry.setFkChecks mc.moduleName false) es).1.trace.filter p).length
        = (es.trace.filter p).length
      rw [ht, List.filter_append, List.length_append]
      simp [hp]

theorem restoreFkAux_filterCount (env : SyncEnv) (p : Qry → Bool)
    (hp : ∀ m b, p (Qry.setFkChecks m b) = false) :
    ∀ (conns : List ModuleConnection) (es : ES),
    ((restoreFkAux env conns es).1.trace.filter p).length =
      (es.trace.filter p).length := by
  intro conns
  induction conns with
  | nil => intro es; rfl
  | cons mc rest ih =>
    intro es
    unfold restoreFkAux
    have ht := runQry_trace env (Qry.setFkChecks mc.moduleName true) es
    by_cases hr : (runQry env (Qry.setFkChecks mc.moduleName true) es).2
    · rw [if_pos hr]
      have hih := ih
        { (runQry env (Qry.setFkChecks mc.moduleName true) es).1 with fkFlag := false }
      rw [hih]
      show ((runQry env (Qry.setFkChecks mc.moduleName true) es).1.trace.filter p).length
        = (es.trace.filter p).length
      rw [ht, List.filter_append, List.length_append]
      simp [hp]
    · rw [if_neg hr]
      show ((runQry env (Qry.setFkChecks mc.moduleName true) es).1.trace.filter p).length
        = (es.trace.filter p).length
      rw [ht, List.filter_append, List.length_append]
      simp [hp]

/-- Claim C1 (amended).  Matching of stored foreign keys against expected
ones is indeed by constraint-name equality against names generated afresh
(src/index.js 1656-1659, 1749-1751): under an injective generator whose
new names are fresh for the current database — the modelled content of
"freshly generated random names" — the relationship pass of any run drops
every stored foreign key (one DROP FOREIGN KEY per stored row, and each
stored row's DROP appears in the trace) and creates exactly
|expectedForeignKeys(M)| = Σ role-count fresh-named constraints, while
issuing no column-level or index-level statement itself.  The claim's "0
index-level changes on a second run" is false for the run as a whole:
phase 9 drops the backing index of every foreign key the previous run
created (see the two-run counterexample, where the second run performs
one index drop, not zero). -/
theorem c1_amended (env : SyncEnv) (dm : DataModel) (es : ES)
    (hnf : ∀ q, env.fails q = false)
    (hinj : Function.Injective env.gen)
    (hfresh : ∀ j, es.k ≤ j → env.gen j ∉ allFkNames es.db)
    (hcs : ∀ p ∈ dm, (connSchema env p.2.moduleName).isSome = true)
    (hnd : (dm.map (fun p => (connSchema env p.2.moduleName,
      getCaseNormalizedString env.ci p.1))).Nodup) :
    (updateRelationships env dm false es).2 = RunFlow.ok true ∧
    (∀ p ∈ dm, ∀ sn tbl, connSchema env p.2.moduleName = some sn →
      getTable es.db sn (getCaseNormalizedString env.ci p.1) = some tbl →
      ∀ fk ∈ tbl.foreignKeys,
        Qry.dropFk p.2.moduleName (getCaseNormalizedString env.ci p.1) fk ∈
          (updateRelationships env dm false es).1.trace) ∧
    countDropFk (updateRelationships env dm false es).1.trace =
      countDropFk es.trace + (dm.map (fun p => (storedFkRows es.db
        ((connSchema env p.2.moduleName).getD "")
        (getCaseNormalizedString env.ci p.1)).length)).sum ∧
    countAddFk (updateRelationships env dm false es).1.trace =
      countAddFk es.trace + (dm.map (fun p => entityRoleCount p.2)).sum ∧
    countColDdl (updateRelationships env dm false es).1.trace = countColDdl es.trace ∧
    countAddIndex (updateRelationships env dm false es).1.trace = countAddIndex es.trace ∧
    countDropIndex (updateRelationships env dm false es).1.trace =
      countDropIndex es.trace := by
  set es1 := if es.fkFlag = false then (disableForeignKeyChecks env es).1 else es with hes1
  have hs1 : es1.db.schemas = es.db.schemas ∧ es1.k = es.k := by
    rw [hes1]
    by_cases hf : es.fkFlag = false
    · rw [if_pos hf]; exact disableFkAux_pres env env.conns es
    · rw [if_neg hf]; exact ⟨rfl, rfl⟩
  have hafk : allFkNames es1.db = allFkNames es.db := by
    unfold allFkNames
    rw [hs1.1]
  have hsfr : ∀ sn tn, storedFkRows es1.db sn tn = storedFkRows es.db sn tn := by
    intro sn tn
    unfold storedFkRows getTable
    rw [hs1.1]
  have hgt : ∀ sn tn, getTable es1.db sn tn = getTable es.db sn tn := by
    intro sn tn
    unfold getTable
    rw [hs1.1]
  have hfresh1 : ∀ j, es1.k ≤ j → env.gen j ∉ allFkNames es1.db := by
    intro j hj
    rw [hafk]
    exact hfresh j (by rw [← hs1.2]; exact hj)
  obtain ⟨uf, uk, ufl, umono, uloc, ufkn, udrop⟩ :=
    urEntities_spec env false hnf hinj dm es1 hfresh1 hcs hnd
  obtain ⟨n1, n2, n3, n4, n5⟩ := urEntities_counts env hnf hinj dm es1 hfresh1 hcs hnd
  have hc1 : ∀ (p : Qry → Bool), (∀ m b, p (Qry.setFkChecks m b) = false) →
      (es1.trace.filter p).length = (es.trace.filter p).length := by
    intro p hp
    rw [hes1]
    by_cases hf : es.fkFlag = false
    · rw [if_pos hf]
      exact disableFkAux_filterCount env p hp env.conns es
    · rw [if_neg hf]
  have hstep : updateRelationships env dm false es =
      (if (urEntities env false dm es1).1.fkFlag then
        (restoreForeignKeyChecks env (urEntities env false dm es1).1).1
      else (urEntities env false dm es1).1, RunFlow.ok true) := by
    simp only [updateRelationships]
    rw [← hes1]
    simp only [uf]
  have hfin : ∀ (p : Qry → Bool), (∀ m b, p (Qry.setFkChecks m b) = false) →
      (((if (urEntities env false dm es1).1.fkFlag then
          (restoreForeignKeyChecks env (urEntities env false dm es1).1).1
        else (urEntities env false dm es1).1).trace.filter p).length) =
      ((urEntities env false dm es1).1.trace.filter p).length := by
    intro p hp
    by_cases hflag : (urEntities env false dm es1).1.fkFlag
    · rw [if_pos hflag]
      exact restoreFkAux_filterCount env p hp env.conns _
    · rw [if_neg hflag]
  have hsum2 : dm.map (fun p => (storedFkRows es1.db
      ((connSchema env p.2.moduleName).getD "")
      (getCaseNormalizedString env.ci p.1)).length) =
    dm.map (fun p => (storedFkRows es.db ((connSchema env p.2.moduleName).getD "")
      (getCaseNormalizedString env.ci p.1)).length) := by
    apply List.map_congr_left
    intro p hp
    rw [hsfr]
  have hfinD : countDropFk (if (urEntities env false dm es1).1.fkFlag then
        (restoreForeignKeyChecks env (urEntities env false dm es1).1).1
      else (urEntities env false dm es1).1).trace =
      countDropFk (urEntities env false dm es1).1.trace := by
    unfold countDropFk
    exact hfin _ (fun m b => rfl)
  have hfinA : countAddFk (if (urEntities env false dm es1).1.fkFlag then
        (restoreForeignKeyChecks env (urEntities env false dm es1).1).1
      else (urEntities env false dm es1).1).trace =
      countAddFk (urEntities env false dm es1).1.trace := by
    unfold countAddFk
    exact hfin _ (fun m b => rfl)
  have hfinC : countColDdl (if (urEntities env false dm es1).1.fkFlag then
        (restoreForeignKeyChecks env (urEntities env false dm es1).1).1
      else (urEntities env false dm es1).1).trace =
      countColDdl (urEntities env false dm es1).1.trace := by
    unfold countColDdl
    exact hfin _ (fun m b => rfl)
  have hfinAI : countAddIndex (if (urEntities env false dm es1).1.fkFlag then
        (restoreForeignKeyChecks env (urEntities env false dm es1).1).1
      else (urEntities env false dm es1).1).trace =
      countAddIndex (urEntities env false dm es1).1.trace := by
    unfold countAddIndex
    exact hfin _ (fun m b => rfl)
  have hfinDI : countDropIndex (if (urEntities env false dm es1).1.fkFlag then
        (restoreForeignKeyChecks env (urEntities env false dm es1).1).1
      else (urEntities env false dm es1).1).trace =
      countDropIndex (urEntities env false dm es1).1.trace := by
    unfold countDropIndex
    exact hfin _ (fun m b => rfl)
  have hcD : countDropFk es1.trace = countDropFk es.trace := by
    unfold countDropFk
    exact hc1 _ (fun m b => rfl)
  have hcA : countAddFk es1.trace = countAddFk es.trace := by
    unfold countAddFk
    exact hc1 _ (fun m b => rfl)
  have hcC : countColDdl es1.trace = countColDdl es.trace := by
    unfold countColDdl
    exact hc1 _ (fun m b => rfl)
  have hcAI : countAddIndex es1.trace = countAddIndex es.trace := by
    unfold countAddIndex
    exact hc1 _ (fun m b => rfl)
  have hcDI : countDropIndex es1.trace = countDropIndex es.trace := by
    unfold countDropIndex
    exact hc1 _ (fun m b => rfl)
  rw [hstep]
  refine ⟨rfl, ?_, ?_, ?_, ?_, ?_, ?_⟩
  · intro p hp sn tbl hcsp hget fk hfk
    have hget1 : getTable es1.db sn (getCaseNormalizedString env.ci p.1) = some tbl := by
      rw [hgt, hget]
    have hmem := udrop p hp sn tbl hcsp hget1 fk hfk
    by_cases hflag : (urEntities env false dm es1).1.fkFlag
    · rw [if_pos hflag]
      exact mem_trace_restoreFkAux env env.conns _ _ hmem
    · rw [if_neg hflag]
      exact hmem
  · show countDropFk (if (urEntities env false dm es1).1.fkFlag then
        (restoreForeignKeyChecks env (urEntities env false dm es1).1).1
      else (urEntities env false dm es1).1).trace = _
    rw [hfinD, n1, hcD, hsum2]
  · show countAddFk (if (urEntities env false dm es1).1.fkFlag then
        (restoreForeignKeyChecks env (urEntities env false dm es1).1).1
      else (urEntities env false dm es1).1).trace = _
    rw [hfinA, n2, hcA]
  · show countColDdl (if (urEntities env false dm es1).1.fkFlag then
        (restoreForeignKeyChecks env (urEntities env false dm es1).1).1
      else (urEntities env false dm es1).1).trace = _
    rw [hfinC, n3, hcC]
  · show countAddIndex (if (urEntities env false dm es1).1.fkFlag then
        (restoreForeignKeyChecks env (urEntities env false dm es1).1).1
      else (urEntities env false dm es1).1).trace = _
    rw [hfinAI, n4, hcAI]
  · show countDropIndex (if (urEntities env false dm es1).1.fkFlag then
        (restoreForeignKeyChecks env (urEntities env false dm es1).1).1
      else (urEntities env false dm es1).1).trace = _
    rw [hfinDI, n5, hcDI]

/-- Witness for the amended C1 at a concrete state with one stored
foreign key: the relationship pass issues exactly one FK drop and one FK
create, and no column or index statement. -/
theorem c1_amended_witness :
    (updateRelationships exEnv exModel false c9Es0).2 = RunFlow.ok true ∧
    countDropFk (updateRelationships exEnv exModel false c9Es0).1.trace = 1 ∧
    countAddFk (updateRelationships exEnv exModel false c9Es0).1.trace = 1 ∧
    countColDdl (updateRelationships exEnv exModel false c9Es0).1.trace = 0 ∧
    countAddIndex (updateRelationships exEnv exModel false c9Es0).1.trace = 0 ∧
    countDropIndex (updateRelationships exEnv exModel false c9Es0).1.trace = 0 := by
  have h := c1_amended exEnv exModel c9Es0 (fun q => rfl) exGen_injective
    (by
      intro j hj hmem
      have hzaa : exGen j = "zaa" := by
        have he : allFkNames c9Es0.db = ["zaa"] := rfl
        rw [he] at hmem
        exact List.mem_singleton.mp hmem
      have hj2 : j = 2 := exGen_injective (hzaa.trans rfl)
      have hk3 : c9Es0.k = 3 := rfl
      rw [hk3] at hj
      omega)
    (by decide) (by decide)
  refine ⟨h.1, ?_, ?_, ?_, ?_, ?_⟩
  · rw [h.2.2.1]; decide
  · rw [h.2.2.2.1]; decide
  · rw [h.2.2.2.2.1]; decide
  · rw [h.2.2.2.2.2.1]; decide
  · rw [h.2.2.2.2.2.2]; decide
